import Mathlib

/-!
# THI CEO dashboard: the aggregation core of `app/ceo-api.js`

A shallow embedding of the aggregation core of `ceo-api.js` (record
normalisation, `processDeals`, `buildChartData`, `aggregateStatusCounts`,
`coqlPaginated`, `fetchDealsAll`, `fetchLeads`, `fetchEvents`, and `loadAll`
with its previous period, leaderboard, brand merge and capacity split)
together with the part of the JavaScript semantics these functions rely on.

Conventions of the embedding:

* a JavaScript string is the list of its UTF-16 code units;
* a JavaScript number is a rational (exact arithmetic: no rounding, no
  infinities), with `NaN` as a separate value;
* a record field holds a JSON-shaped value: `undefined`, `null`, a boolean, a
  number, a string or a plain object (no arrays, no own `toString`/`valueOf`);
* an object literal used as a dictionary inherits from `Object.prototype`, so a
  property read sees the inherited members as well as the own ones.
-/

namespace CeoApi

/-! ## Strings -/

/-- A JavaScript string, as the sequence of its UTF-16 code units. -/
abbrev JSString := List Nat

/-- Code units of an ASCII literal. -/
def lit (s : String) : JSString := s.toList.map Char.toNat

/-- White space and line terminators, the characters removed by `String.prototype.trim`
and skipped by `parseInt`. -/
def isWhiteSpace (c : Nat) : Bool :=
  c == 9 || c == 10 || c == 11 || c == 12 || c == 13 || c == 32 || c == 160 ||
  c == 5760 || (8192 ≤ c && c ≤ 8202) || c == 8232 || c == 8233 || c == 8239 ||
  c == 8287 || c == 12288 || c == 65279

/-- `s.trim()`. -/
def trim (s : JSString) : JSString :=
  ((s.dropWhile isWhiteSpace).reverse.dropWhile isWhiteSpace).reverse

/-- The regular-expression class `\d`: the ASCII digits. -/
def isDigit (c : Nat) : Bool := 48 ≤ c && c ≤ 57

/-- Value of a run of ASCII digits read in base ten. -/
def digitsVal (ds : JSString) : Nat := ds.foldl (fun acc c => acc * 10 + (c - 48)) 0

/-- `a <= b` on strings: lexicographic order of the code units. -/
def strLe : JSString → JSString → Bool
  | [], _ => true
  | _ :: _, [] => false
  | a :: s, b :: t => a < b || (a == b && strLe s t)

/-- Decimal digits of a natural number. -/
def natDigits (n : Nat) : JSString := (Nat.toDigits 10 n).map Char.toNat

/-- Up to `fuel` decimal digits of a fraction `0 ≤ r < 1`, stopping when the expansion ends. -/
def fracDigits : Nat → ℚ → JSString
  | 0, _ => []
  | fuel + 1, r =>
    if r = 0 then []
    else (48 + (r * 10).floor.toNat) :: fracDigits fuel (r * 10 - ((r * 10).floor.toNat : ℚ))

/-- `String(q)` for a number. Exact for the integers below `10^21` and for the short
decimals that JSON delivers; a number with no finite decimal expansion is cut after
twenty fractional digits (JavaScript prints the shortest decimal that identifies the
double, which has no counterpart in exact arithmetic). -/
def numberToString (q : ℚ) : JSString :=
  (if q < 0 then [45] else []) ++ natDigits |q|.floor.toNat ++
    (if |q| - (|q|.floor.toNat : ℚ) = 0 then []
     else 46 :: fracDigits 20 (|q| - (|q|.floor.toNat : ℚ)))

/-- `parseInt(s, 10)`: leading white space, an optional sign, then the longest run of
digits; `none` stands for `NaN`. -/
def parseInt (s : JSString) : Option Int :=
  let r := s.dropWhile isWhiteSpace
  let neg := r.head? == some 45
  let body := if r.head? == some 45 || r.head? == some 43 then r.tail else r
  let ds := body.takeWhile isDigit
  if ds.isEmpty then none
  else some (if neg then -(digitsVal ds : Int) else (digitsVal ds : Int))

/-- `parseFloat(s)` for a string over the alphabet `0-9 . -`, the only characters left by
the `replace` in `parseAmount`: an optional minus sign, digits, an optional dot and
digits. The longest such prefix is read; `none` stands for `NaN`. -/
def parseFloat (s : JSString) : Option ℚ :=
  let neg := s.head? == some 45
  let r := if neg then s.tail else s
  let ip := r.takeWhile isDigit
  let rest := r.dropWhile isDigit
  let fp := if rest.head? == some 46 then rest.tail.takeWhile isDigit else []
  if ip.isEmpty && fp.isEmpty then none
  else
    let v : ℚ := (digitsVal ip : ℚ) + (digitsVal fp : ℚ) / (10 : ℚ) ^ fp.length
    some (if neg then -v else v)

/-- Whether a string starts with a match of `\d{4}-\d{2}-\d{2}`. -/
def dateAt : JSString → Bool
  | a :: b :: c :: d :: 45 :: e :: f :: 45 :: g :: h :: _ =>
    isDigit a && isDigit b && isDigit c && isDigit d && isDigit e && isDigit f &&
      isDigit g && isDigit h
  | _ => false

/-- The first match of `/(\d{4})-(\d{2})-(\d{2})/` in `s` (`m[0]`), if any. -/
def matchDate : JSString → Option JSString
  | [] => none
  | c :: t => if dateAt (c :: t) then some ((c :: t).take 10) else matchDate t

/-! ## Values -/

/-- A JavaScript value. `obj` is a plain object given by its own properties, in property
order; `builtin k` is the member `k` that every plain object inherits from
`Object.prototype` (a built-in function, or `Object.prototype` itself for `__proto__`). -/
inductive JSVal where
  | undefined
  | null
  | bool (b : Bool)
  | num (q : ℚ)
  | nan
  | str (s : JSString)
  | obj (props : List (JSString × JSVal))
  | builtin (key : JSString)

/-- Own properties of a plain object, in property order. -/
abbrev Props := List (JSString × JSVal)

instance : Inhabited JSVal := ⟨JSVal.undefined⟩

/-- Results of `typeof`. -/
inductive JSType where
  | undefined | object | boolean | number | string | func
  deriving DecidableEq, Repr

/-- Names of the members of `Object.prototype` in a browser: reading one of them from a
plain object that has no own property of that name yields a truthy built-in. -/
def objectPrototypeKeys : List JSString :=
  [lit "constructor", lit "__defineGetter__", lit "__defineSetter__", lit "hasOwnProperty",
   lit "__lookupGetter__", lit "__lookupSetter__", lit "isPrototypeOf",
   lit "propertyIsEnumerable", lit "toString", lit "valueOf", lit "__proto__",
   lit "toLocaleString"]

/-- `String(f)` for a built-in: the text V8 prints for a native function, and
`[object Object]` for `Object.prototype`. -/
def builtinText (k : JSString) : JSString :=
  if k = lit "__proto__" then lit "[object Object]"
  else lit "function " ++ (if k = lit "constructor" then lit "Object" else k) ++
    lit "() \x7b [native code] \x7d"

namespace JSVal

/-- Truthiness (`ToBoolean`). -/
def truthy : JSVal → Bool
  | undefined => false
  | null => false
  | bool b => b
  | num q => decide (q ≠ 0)
  | nan => false
  | str s => !s.isEmpty
  | obj _ => true
  | builtin _ => true

/-- The `typeof` operator. -/
def typeof : JSVal → JSType
  | undefined => JSType.undefined
  | null => JSType.object
  | bool _ => JSType.boolean
  | num _ => JSType.number
  | nan => JSType.number
  | str _ => JSType.string
  | obj _ => JSType.object
  | builtin k => if k = lit "__proto__" then JSType.object else JSType.func

/-- `String(v)`, also the conversion of a value used as a property key. -/
def toStr : JSVal → JSString
  | undefined => lit "undefined"
  | null => lit "null"
  | bool true => lit "true"
  | bool false => lit "false"
  | num q => numberToString q
  | nan => lit "NaN"
  | str s => s
  | obj _ => lit "[object Object]"
  | builtin k => builtinText k

/-- `ToPrimitive`: objects become their string form. -/
def toPrimitive : JSVal → JSVal
  | obj _ => str (lit "[object Object]")
  | builtin k => str (builtinText k)
  | v => v

/-- `ToNumber` on a primitive that is not a string; `none` stands for `NaN`. -/
def toNumber? : JSVal → Option ℚ
  | null => some 0
  | bool true => some 1
  | bool false => some 0
  | num q => some q
  | _ => none

end JSVal

/-- `a || b`. -/
def jsOr (a b : JSVal) : JSVal := if a.truthy then a else b

/-- `a && b`. -/
def jsAnd (a b : JSVal) : JSVal := if a.truthy then b else a

/-- The operator `a + b`: string concatenation as soon as one side is a string or an
object, numeric addition otherwise. -/
def jsAdd (a b : JSVal) : JSVal :=
  match a.toPrimitive, b.toPrimitive with
  | JSVal.str s, y => JSVal.str (s ++ y.toStr)
  | x, JSVal.str t => JSVal.str (x.toStr ++ t)
  | x, y =>
    match x.toNumber?, y.toNumber? with
    | some p, some q => JSVal.num (p + q)
    | _, _ => JSVal.nan

/-! ## Plain objects used as dictionaries -/

/-- Own property `k` of an object, if present. -/
def ownGet (o : Props) (k : JSString) : Option JSVal :=
  (o.find? (fun kv => kv.1 = k)).map (fun kv => kv.2)

/-- The read `o[k]` on a plain object: the own property, else the member inherited from
`Object.prototype`, else `undefined`. -/
def getProp (o : Props) (k : JSString) : JSVal :=
  match ownGet o k with
  | some v => v
  | none => if k ∈ objectPrototypeKeys then JSVal.builtin k else JSVal.undefined

/-- The read `v.k` for a value `v` that is not `null` or `undefined`; only objects carry the
data properties (`name`, `id`, `date`) the program reads. -/
def JSVal.get (v : JSVal) (k : JSString) : JSVal :=
  match v with
  | JSVal.obj o => getProp o k
  | _ => JSVal.undefined

/-- The array index denoted by a key: a canonical decimal numeral below `2^32 - 1`. -/
def arrayIndex (k : JSString) : Option Nat :=
  if k = [48] then some 0
  else if k.all isDigit && (k.head? != some 48) && !k.isEmpty && digitsVal k < 4294967295 then
    some (digitsVal k)
  else none

/-- Replace the value of the own property `k`. -/
def replaceProp (k : JSString) (v : JSVal) : Props → Props
  | [] => []
  | (k1, v1) :: t => if k1 = k then (k1, v) :: t else (k1, v1) :: replaceProp k v t

/-- Insert a new array-index key `k` (of index `n`) in ascending position. -/
def insertIndexed (n : Nat) (k : JSString) (v : JSVal) : Props → Props
  | [] => [(k, v)]
  | (k1, v1) :: t =>
    match arrayIndex k1 with
    | some m => if m < n then (k1, v1) :: insertIndexed n k v t else (k, v) :: (k1, v1) :: t
    | none => (k, v) :: (k1, v1) :: t

/-- The write `o[k] = v` of a primitive `v` on a plain object: an existing own property is
updated in place; `__proto__` without an own property reaches the inherited setter, which
ignores a primitive; a new key is added in property order (array indices ascending first,
then the other keys in insertion order). -/
def objSet (o : Props) (k : JSString) (v : JSVal) : Props :=
  if (ownGet o k).isSome then replaceProp k v o
  else if k = lit "__proto__" then o
  else
    match arrayIndex k with
    | some n => insertIndexed n k v o
    | none => o ++ [(k, v)]

/-! ## Record normaliser -/

/-- A deal record as returned by the query: the fields the program reads. A field missing
from the record reads as `undefined`. -/
structure Deal where
  Amount : JSVal := JSVal.undefined
  Sales_Rep : JSVal := JSVal.undefined
  Sales_Rep_2 : JSVal := JSVal.undefined
  Trainee : JSVal := JSVal.undefined
  Owner : JSVal := JSVal.undefined
  Close_Date : JSVal := JSVal.undefined
  Closing_Date : JSVal := JSVal.undefined
  Modified_Time : JSVal := JSVal.undefined
  Created_Time : JSVal := JSVal.undefined
  OLD_CRM_ID : JSVal := JSVal.undefined
  Meeting_ID : JSVal := JSVal.undefined
  Events : JSVal := JSVal.undefined

/-- Whether a value is a string that trims to the empty string. -/
def isBlankString : JSVal → Bool
  | JSVal.str s => (trim s).isEmpty
  | _ => false

/-- Source function `getRepName(lookup)`; `none` stands for `null`. -/
def getRepName (lookup : JSVal) : Option JSString :=
  if !lookup.truthy then none
  else
    let name : JSVal :=
      if lookup.typeof = JSType.object then jsOr (lookup.get (lit "name")) (lookup.get (lit "id"))
      else JSVal.str lookup.toStr
    if !name.truthy || isBlankString name then none
    else
      match name with
      | JSVal.str s => some (trim s)
      | v => some v.toStr

/-- Truthiness of a result that is `null` or a string. -/
def strTruthy : Option JSString → Bool
  | none => false
  | some s => !s.isEmpty

/-- One round of the `lookups.forEach` of `getDealReps`, on the pair `(reps, names)`. -/
def repStep (st : List JSString × Props) (lookup : JSVal) : List JSString × Props :=
  match getRepName lookup with
  | some n =>
    if !n.isEmpty && !(getProp st.2 n).truthy then (st.1 ++ [n], objSet st.2 n (JSVal.bool true))
    else st
  | none => st

/-- Source function `getDealReps(d)`. -/
def getDealReps (d : Deal) : List JSString :=
  let lookups := [d.Sales_Rep, d.Sales_Rep_2, d.Trainee] ++
    (if !strTruthy (getRepName d.Sales_Rep) then [d.Owner] else [])
  (lookups.foldl repStep ([], [])).1

/-- Source function `parseAmount(val)`. The result is never `NaN`. -/
def parseAmount (val : JSVal) : ℚ :=
  match val with
  | JSVal.undefined => 0
  | JSVal.null => 0
  | JSVal.num q => q
  | JSVal.str s =>
    match parseFloat (s.filter (fun c => isDigit c || c == 46 || c == 45)) with
    | some p => p
    | none => 0
  | _ => 0

/-- The common body of `getDealDate` and `getDealCreatedDate`, from the chosen field `dt`
on; `none` stands for `null`. -/
def dateOfField (dt : JSVal) : Option JSString :=
  if !dt.truthy then none
  else if dt.typeof = JSType.object && (dt.get (lit "date")).truthy then
    some (dt.get (lit "date")).toStr
  else
    match matchDate dt.toStr with
    | some m => some m
    | none => some dt.toStr

/-- Source function `getDealDate(d)`. -/
def getDealDate (d : Deal) : Option JSString :=
  dateOfField (jsOr (jsOr (jsOr d.Close_Date d.Closing_Date) d.Modified_Time) d.Created_Time)

/-- Source function `getDealCreatedDate(d)`. -/
def getDealCreatedDate (d : Deal) : Option JSString :=
  dateOfField d.Created_Time

/-- Source function `isNewCRMDeal(d)`. -/
def isNewCRMDeal (d : Deal) : Bool :=
  match d.OLD_CRM_ID with
  | JSVal.undefined => true
  | JSVal.null => true
  | JSVal.str s => s.isEmpty || (trim s).isEmpty
  | _ => false

/-- Source function `dealCreatedInRange(d, start, end)`. -/
def dealCreatedInRange (d : Deal) (start end_ : JSString) : Bool :=
  match getDealCreatedDate d with
  | none => false
  | some dtStr =>
    if dtStr.isEmpty then false
    else strLe start (dtStr.take 10) && strLe (dtStr.take 10) end_

/-! ## Aggregation engine -/

/-- The result of `processDeals`. `byDay` is keyed by the day number itself: its keys are
integers between 1 and 31 (guarded in the source), held in ascending order as the
integer keys of an object are. -/
structure Aggregate where
  totalRevenue : ℚ
  count : Nat
  byRep : Props
  byMeetingId : Props
  byDay : List (Nat × ℚ)

/-- The read `byDay[d] || 0` (equally `byDay[d] ? byDay[d] : 0`). -/
def dayGet (byDay : List (Nat × ℚ)) (d : Nat) : ℚ :=
  match byDay.find? (fun kv => kv.1 = d) with
  | some kv => kv.2
  | none => 0

/-- The write `byDay[d] = v`. -/
def daySet (d : Nat) (v : ℚ) : List (Nat × ℚ) → List (Nat × ℚ)
  | [] => [(d, v)]
  | (d1, v1) :: t =>
    if d1 = d then (d1, v) :: t
    else if d < d1 then (d, v) :: (d1, v1) :: t
    else (d1, v1) :: daySet d v t

/-- The owners a deal is split over: `getDealReps(d)`, or `['Unknown']` when that is empty. -/
def dealOwners (d : Deal) : List JSString :=
  if (getDealReps d).length = 0 then [lit "Unknown"] else getDealReps d

/-- The statement `o[k] = (o[k] || 0) + x` on a plain object. -/
def bump (o : Props) (k : JSString) (x : ℚ) : Props :=
  objSet o k (jsAdd (jsOr (getProp o k) (JSVal.num 0)) (JSVal.num x))

/-- The link key `mid` of a deal: `meetingLookup && (typeof meetingLookup === 'object' ?
meetingLookup.id : meetingLookup)` with `meetingLookup = d.Meeting_ID || d.Events`. -/
def dealMid (d : Deal) : JSVal :=
  let meetingLookup := jsOr d.Meeting_ID d.Events
  jsAnd meetingLookup
    (if meetingLookup.typeof = JSType.object then meetingLookup.get (lit "id") else meetingLookup)

/-- The day-of-month bucket a deal falls in, if any: `parseInt(dtStr.substring(8, 10), 10)`
when it is a number between 1 and 31. -/
def dealDay (d : Deal) : Option Nat :=
  match getDealCreatedDate d with
  | none => none
  | some dtStr =>
    if dtStr.isEmpty then none
    else
      match parseInt ((dtStr.drop 8).take 2) with
      | some n => if 1 ≤ n ∧ n ≤ 31 then some n.toNat else none
      | none => none

/-- One round of the `filtered.forEach` of `processDeals`. -/
def dealStep (acc : Aggregate) (d : Deal) : Aggregate :=
  let amt := parseAmount d.Amount
  let reps := dealOwners d
  let share := amt / (reps.length : ℚ)
  { totalRevenue := acc.totalRevenue + amt
    count := acc.count
    byRep := reps.foldl (fun o rep => bump o rep share) acc.byRep
    byMeetingId :=
      if (dealMid d).truthy then bump acc.byMeetingId (dealMid d).toStr 1 else acc.byMeetingId
    byDay :=
      match dealDay d with
      | some n => daySet n (dayGet acc.byDay n + amt) acc.byDay
      | none => acc.byDay }

/-- Source function `processDeals(deals, start, end)`. -/
def processDeals (deals : List Deal) (start end_ : JSString) : Aggregate :=
  let filtered := deals.filter (fun d => isNewCRMDeal d && dealCreatedInRange d start end_)
  { filtered.foldl dealStep
      { totalRevenue := 0, count := 0, byRep := [], byMeetingId := [], byDay := [] } with
    count := filtered.length }

/-! ## Projection builder -/

/-- `Math.round(x)`: the nearest integer, a tie going up. -/
def mathRound (x : ℚ) : Int := ⌊x + 1 / 2⌋

/-- The result of `buildChartData`. -/
structure ChartData where
  labels : List JSString
  currentMonth : List Int
  previousMonth : List Int
  currentTotal : ℚ
  currentProjected : Int
  previousTotal : ℚ

/-- The variables the `for` loop of `buildChartData` updates. -/
structure ChartLoop where
  labels : List JSString
  currentProjected : List Int
  prevCumulative : List Int
  prevCumul : ℚ

/-- One round of the `for` loop of `buildChartData`, for the day `d`. -/
def chartStep (dailyRate : ℚ) (prevByDay : List (Nat × ℚ)) (prevDaysInMonth : Nat)
    (st : ChartLoop) (d : Nat) : ChartLoop :=
  let prevCumul :=
    if d ≤ (if prevDaysInMonth = 0 then 31 else prevDaysInMonth) then st.prevCumul + dayGet prevByDay d
    else st.prevCumul
  { labels := st.labels ++ [lit "Day " ++ natDigits d]
    currentProjected := st.currentProjected ++ [mathRound ((d : ℚ) * dailyRate)]
    prevCumulative := st.prevCumulative ++ [mathRound prevCumul]
    prevCumul := prevCumul }

/-- Source function `buildChartData(dealsCurrent, dealsPrev, start, end, todayDay,
daysInMonth, prevDaysInMonth)`; `start` and `end` are not read by the source, and
`dealsCurrent.totalRevenue || 0` is `dealsCurrent.totalRevenue` for a number. -/
def buildChartData (dealsCurrent dealsPrev : Aggregate) (todayDay daysInMonth prevDaysInMonth : Nat) :
    ChartData :=
  let totalSoFar := dealsCurrent.totalRevenue
  let dailyRate : ℚ := if todayDay > 0 then totalSoFar / (todayDay : ℚ) else 0
  let fin := (List.range' 1 daysInMonth).foldl (chartStep dailyRate dealsPrev.byDay prevDaysInMonth)
    { labels := [], currentProjected := [], prevCumulative := [], prevCumul := 0 }
  { labels := fin.labels
    currentMonth := fin.currentProjected
    previousMonth := fin.prevCumulative
    currentTotal := totalSoFar
    currentProjected := mathRound ((daysInMonth : ℚ) * dailyRate)
    previousTotal := fin.prevCumul }

/-! ## Leaderboard builder -/

/-- An entry of the leaderboard built in `loadAll`. The `initials` field, a display string
derived from `name` alone, is left out. -/
structure LeaderEntry where
  rank : Nat
  name : JSString
  revenue : ℚ
  pct : Int

/-- The order `sort((a, b) => b[1] - a[1])` puts `a` before `b` in: revenue of `a` at least
that of `b`. -/
def revGe (a b : JSString × ℚ) : Prop := b.2 ≤ a.2

instance : DecidableRel revGe := fun a b => inferInstanceAs (Decidable (b.2 ≤ a.2))

/-- The array method `sort((a, b) => b[1] - a[1])`, which is stable: insertion of each entry
before the first one it is not smaller than. -/
def sortByRevenue (l : List (JSString × ℚ)) : List (JSString × ℚ) := l.insertionSort revGe

/-- The chain `filter`, `sort`, `slice(0, 5)`, `map` of `loadAll`: every entry with `pct: 100`. -/
def rankTop (repRevenue : List (JSString × ℚ)) : List LeaderEntry :=
  (((sortByRevenue (repRevenue.filter (fun kv => 0 < kv.2))).take 5).enum).map
    (fun ie => { rank := ie.1 + 1, name := ie.2.1, revenue := ie.2.2, pct := 100 })

/-- The divisor `maxRev`: `leaderboard[0] ? leaderboard[0].revenue : 1`. -/
def maxRev (board : List LeaderEntry) : ℚ :=
  match board.head? with
  | some r => r.revenue
  | none => 1

/-- The leaderboard of `loadAll` from `Object.entries(repRevenue)`, after the `forEach` that
sets `pct`. -/
def leaderboard (repRevenue : List (JSString × ℚ)) : List LeaderEntry :=
  (rankTop repRevenue).map
    (fun r => { r with pct := mathRound (r.revenue / maxRev (rankTop repRevenue) * 100) })

/-! ## Status funnel classifier -/

/-- The table `STAGE_TO_STATUS`. -/
def STAGE_TO_STATUS : Props :=
  [(lit "Contract Signed", JSVal.str (lit "Closed")),
   (lit "Full Demo Financial TD", JSVal.str (lit "Contacted")),
   (lit "Full Demo No Sale", JSVal.str (lit "Contacted")),
   (lit "Meeting Acknowledged", JSVal.str (lit "Contacted")),
   (lit "Issued Appointment", JSVal.str (lit "Initially")),
   (lit "Customer no show", JSVal.str (lit "No Show")),
   (lit "Cancelled - Rescheduled", JSVal.str (lit "Cancelled")),
   (lit "Cancelled - Not Rescheduled", JSVal.str (lit "Cancelled")),
   (lit "Cancelled because unconfirmed", JSVal.str (lit "Cancelled")),
   (lit "ID - Not Interested", JSVal.str (lit "Cancelled")),
   (lit "ID - Ran OutofTime", JSVal.str (lit "Cancelled")),
   (lit "DNC", JSVal.str (lit "Cancelled")),
   (lit "No Rep Available", JSVal.str (lit "Cancelled")),
   (lit "One Leg", JSVal.str (lit "Contacted")),
   (lit "Can Save", JSVal.str (lit "Contacted")),
   (lit "None", JSVal.str (lit "Initially"))]

/-- Source function `mapStageToStatus(stage)`. -/
def mapStageToStatus (stage : JSString) : JSVal :=
  jsOr (getProp STAGE_TO_STATUS stage) (JSVal.str (lit "Initially"))

/-- The test `v !== undefined`. -/
def JSVal.isDefined : JSVal → Bool
  | JSVal.undefined => false
  | _ => true

/-- The count `byStage[stage]` of a stage taken from `Object.keys(byStage)`. -/
def stageCount (byStage : List (JSString × Nat)) (stage : JSString) : Nat :=
  match byStage.find? (fun kv => kv.1 = stage) with
  | some kv => kv.2
  | none => 0

/-- The object `statuses` as `aggregateStatusCounts` creates it. -/
def initialStatuses : Props :=
  [(lit "Closed", JSVal.num 0), (lit "Contacted", JSVal.num 0), (lit "Cancelled", JSVal.num 0),
   (lit "No Show", JSVal.num 0), (lit "Initially", JSVal.num 0)]

/-- One round of the `forEach` of `aggregateStatusCounts`: the status is used as a property
key, and the count is added when `statuses[status] !== undefined`. -/
def statusStep (byStage : List (JSString × Nat)) (statuses : Props) (stage : JSString) : Props :=
  let key := (mapStageToStatus stage).toStr
  if (getProp statuses key).isDefined then
    objSet statuses key (jsAdd (getProp statuses key) (JSVal.num (stageCount byStage stage)))
  else statuses

/-- Source function `aggregateStatusCounts(byStage)`, on the entries of `byStage`. -/
def aggregateStatusCounts (byStage : List (JSString × Nat)) : Props :=
  (byStage.map Prod.fst).foldl (statusStep byStage) initialStatuses

/-- The number held under a key of a result object (0 when the value is not a number). -/
def countOf (o : Props) (k : JSString) : ℚ :=
  match ownGet o k with
  | some (JSVal.num q) => q
  | _ => 0

/-- The sum of the five canonical counts of a `statuses` object. -/
def statusTotal (o : Props) : ℚ :=
  countOf o (lit "Closed") + countOf o (lit "Contacted") + countOf o (lit "Cancelled") +
    countOf o (lit "No Show") + countOf o (lit "Initially")

/-! ## Paginated fetcher and schema-fallback query chain -/

/-- What the program reads of a response of `ZOHO.CRM.API.coql`: the array `resp.data`
(`none` when it is missing) and whether `resp.info.more_records === true`. -/
structure CoqlResponse (ρ : Type) where
  data : Option (List ρ)
  more_records : Bool

/-- The query capability `ZOHO.CRM.API.coql`: from its state and the query text, either an
error (a rejected promise) or a response (`none` for a null response), and its next state. -/
abbrev Backend (σ ρ : Type) := σ → JSString → Except JSString (Option (CoqlResponse ρ)) × σ

/-- The backend state together with the record of the calls made so far: each call is
recorded as the select query and the offset it was made with. -/
structure World (σ : Type) where
  st : σ
  calls : List (JSString × Nat)

/-- The `while (hasMore)` loop of `coqlPaginated` from the state `(all, offset)`, run for at
most `fuel` pages; `none` when the pages did not end within `fuel`. -/
def coqlLoop {σ ρ : Type} (api : Backend σ ρ) (selectQuery : JSString) (pageSize : Nat) :
    Nat → List ρ → Nat → World σ → Option (Except JSString (List ρ) × World σ)
  | 0, _, _, _ => none
  | fuel + 1, all, offset, w =>
    let q := selectQuery ++ lit " limit " ++ natDigits offset ++ lit "," ++ natDigits pageSize
    let w1 : World σ := { st := (api w.st q).2, calls := w.calls ++ [(selectQuery, offset)] }
    match (api w.st q).1 with
    | Except.error e => some (Except.error e, w1)
    | Except.ok resp =>
      match resp.bind (fun r => r.data) with
      | some (x :: xs) =>
        if (resp.any (fun r => r.more_records)) || (x :: xs).length = pageSize then
          coqlLoop api selectQuery pageSize fuel (all ++ (x :: xs)) (offset + pageSize) w1
        else some (Except.ok (all ++ (x :: xs)), w1)
      | _ => some (Except.ok all, w1)

/-- Source function `coqlPaginated(selectQuery, pageSize)`. -/
def coqlPaginated {σ ρ : Type} (api : Backend σ ρ) (selectQuery : JSString) (pageSize : Nat)
    (fuel : Nat) (w : World σ) : Option (Except JSString (List ρ) × World σ) :=
  coqlLoop api selectQuery pageSize fuel [] 0 w

/-- The list `queries` of `fetchDealsAll`. -/
def queries : List JSString :=
  [lit "select id,Amount,Deal_Name,Stage,Sales_Rep,Sales_Rep_2,Trainee,Close_Date,Closing_Date,Created_Time,Modified_Time,Account_Name,Meeting_ID,OLD_CRM_ID from Deals where Meeting_ID is not null",
   lit "select id,Amount,Deal_Name,Stage,Sales_Rep,Sales_Rep_2,Trainee,Close_Date,Created_Time,Modified_Time,Events,OLD_CRM_ID from Deals where Events is not null",
   lit "select id,Amount,Deal_Name,Stage,Sales_Rep,Sales_Rep_2,Trainee,Close_Date,Created_Time,Modified_Time,Meeting_ID,OLD_CRM_ID from Deals where Meeting_ID is not null",
   lit "select id,Amount,Deal_Name,Stage,Owner,Sales_Rep,Sales_Rep_2,Trainee,Close_Date,Created_Time,Modified_Time,OLD_CRM_ID from Deals where id is not null",
   lit "select id,Amount,Deal_Name,Sales_Rep,Sales_Rep_2,Trainee,Close_Date,Created_Time,Modified_Time,OLD_CRM_ID from Deals where id is not null",
   lit "select id,Amount,Sales_Rep,Sales_Rep_2,Trainee,Closing_Date,Created_Time,Modified_Time,OLD_CRM_ID from Deals where id is not null",
   lit "select id,Amount,Sales_Rep,Sales_Rep_2,Trainee,Created_Time,Modified_Time,OLD_CRM_ID from Deals where id is not null",
   lit "select id,Amount,Created_Time,Modified_Time from Deals where id is not null"]

/-- The `for` loop of `fetchDealsAll` over the variants still to try: the first variant
that raises no error is returned, an error moves on to the next one, and the empty list
is returned when none is left. -/
def tryQueries {σ : Type} (api : Backend σ Deal) (fuel : Nat) :
    List JSString → World σ → Option (List Deal × World σ)
  | [], w => some ([], w)
  | q :: qs, w =>
    match coqlPaginated api q 200 fuel w with
    | none => none
    | some (Except.ok data, w1) => some (data, w1)
    | some (Except.error _, w1) => tryQueries api fuel qs w1

/-- Source function `fetchDealsAll()`. `sdkReady` is the guard
`zohoSDKReady && ZOHO.CRM && ZOHO.CRM.API`; `fuel` bounds the pages of each variant. -/
def fetchDealsAll {σ : Type} (sdkReady : Bool) (api : Backend σ Deal) (fuel : Nat) (w : World σ) :
    Option (List Deal × World σ) :=
  if !sdkReady then some ([], w) else tryQueries api fuel queries w

instance : IsTotal (JSString × ℚ) revGe := ⟨fun a b => le_total b.2 a.2⟩

instance : IsTrans (JSString × ℚ) revGe := ⟨fun _ _ _ hab hbc => le_trans hbc hab⟩

/-! ## Vocabulary of the specification -/

/-- Spec wording: the legacy-system linkage field `OLD_CRM_ID` is present and is not empty
or whitespace-only. -/
def hasLegacyId (d : Deal) : Bool :=
  match d.OLD_CRM_ID with
  | JSVal.undefined => false
  | JSVal.null => false
  | JSVal.str s => !(trim s).isEmpty
  | _ => true

/-- Spec wording: the record has a creation date (the first ten characters of what
`getDealCreatedDate` yields) and it lies in the window, both ends included. -/
def createdInWindow (d : Deal) (start end_ : JSString) : Bool :=
  match getDealCreatedDate d with
  | some c => strLe start (c.take 10) && strLe (c.take 10) end_
  | none => false

/-- The numbers among the values of an object, in property order. -/
def numValues (o : Props) : List ℚ :=
  o.filterMap (fun kv => match kv.2 with | JSVal.num q => some q | _ => none)

/-- Every value of the object is a number. -/
def AllNum (o : Props) : Prop := ∀ kv ∈ o, ∃ q, kv.2 = JSVal.num q

/-- Spec wording: `round(d / elapsedDays * currentTotal)`, and 0 when no day has elapsed. -/
def projectedAt (currentTotal : ℚ) (elapsedDays d : Nat) : Int :=
  if elapsedDays = 0 then 0 else mathRound ((d : ℚ) / (elapsedDays : ℚ) * currentTotal)

/-- The day count the loop of `buildChartData` compares with: `prevDaysInMonth || 31`. -/
def prevDayLimit (prevDaysInMonth : Nat) : Nat :=
  if prevDaysInMonth = 0 then 31 else prevDaysInMonth

/-- Spec wording: the running cumulative sum of the per-day buckets of days `1..d`, the
accumulation stopping after day `limit`. -/
def cumulativeByDay (byDay : List (Nat × ℚ)) (limit d : Nat) : ℚ :=
  ((List.range' 1 (min d limit)).map (dayGet byDay)).sum

/-- The entries that reach the leaderboard: positive, sorted, cut to five. -/
def topFive (repRevenue : List (JSString × ℚ)) : List (JSString × ℚ) :=
  (sortByRevenue (repRevenue.filter (fun kv => 0 < kv.2))).take 5

/-- The five canonical status names. -/
def canonicalStatuses : List JSString :=
  [lit "Closed", lit "Contacted", lit "Cancelled", lit "No Show", lit "Initially"]

/-- A `statuses` object holding the five canonical counts `a, b, c, d, e`. -/
def statusesOf (a b c d e : ℚ) : Props :=
  [(lit "Closed", JSVal.num a), (lit "Contacted", JSVal.num b), (lit "Cancelled", JSVal.num c),
   (lit "No Show", JSVal.num d), (lit "Initially", JSVal.num e)]

/-- A backend that rejects its first query and answers every later one with no records. -/
def failsOnce : Backend Nat Deal := fun n _ =>
  if n = 0 then (Except.error (lit "invalid field"), 1)
  else (Except.ok (some { data := some [], more_records := false }), n + 1)

/-- The worlds `failsOnce` goes through while `fetchDealsAll` tries its first variants: after
`n` variants, `n` calls were made, one per variant, each at offset 0. -/
def failsOnceWorlds (n : Nat) : World Nat :=
  { st := n, calls := (queries.take n).map (fun q => (q, 0)) }

/-! ## Vocabulary for the paginated fetcher -/

/-- The text of one page request: `selectQuery + ' limit ' + offset + ',' + pageSize`. -/
def pageQuery (selectQuery : JSString) (offset pageSize : Nat) : JSString :=
  selectQuery ++ lit " limit " ++ natDigits offset ++ lit "," ++ natDigits pageSize

/-- The records of a page: `resp.data`, empty when the response or its data is missing. -/
def pageData {ρ : Type} (resp : Option (CoqlResponse ρ)) : List ρ :=
  (resp.bind (fun r => r.data)).getD []

/-- Whether a page reports `more_records === true`. -/
def pageFlag {ρ : Type} (resp : Option (CoqlResponse ρ)) : Bool :=
  resp.any (fun r => r.more_records)

/-- A backend whose first page holds one record and reports more records, and whose later
pages are empty. -/
def shortButMore : Backend Nat Nat := fun n _ =>
  if n = 0 then (Except.ok (some { data := some [7], more_records := true }), 1)
  else (Except.ok (some { data := some [], more_records := false }), n + 1)

/-- A backend whose first page holds two records and reports no more records, and whose
later pages are empty. -/
def fullNoMore : Backend Nat Nat := fun n _ =>
  if n = 0 then (Except.ok (some { data := some [7, 8], more_records := false }), 1)
  else (Except.ok (some { data := some [], more_records := false }), n + 1)

/-- A backend that serves two pages of two records each, the second one reporting no more
records, and nothing after them. -/
def twoFullPages : Backend Nat Nat := fun n _ =>
  if n = 0 then (Except.ok (some { data := some [0, 1], more_records := true }), 1)
  else if n = 1 then (Except.ok (some { data := some [2, 3], more_records := false }), 2)
  else (Except.ok (some { data := some [], more_records := false }), n + 1)

/-- A backend that rejects every query. -/
def failsAlways : Backend Nat Deal := fun n _ => (Except.error (lit "invalid query"), n + 1)

/-- The worlds `failsAlways` goes through: after `n` variants, `n` calls were made, one per
variant, each at offset 0. -/
def failsAlwaysWorlds (n : Nat) : World Nat :=
  { st := n, calls := (queries.take n).map (fun q => (q, 0)) }

/-! ## Calendar resolver: the previous period of `today` and `week` -/

/-- Days from 1970-01-01 to the civil date `y-m-d` of the proleptic Gregorian calendar
(what `Date.UTC(y, m - 1, d) / 86400000` is). -/
def daysFromCivil (y m d : Int) : Int :=
  let y1 := if m ≤ 2 then y - 1 else y
  let era := y1 / 400
  let yoe := y1 - era * 400
  let mp := if m > 2 then m - 3 else m + 9
  let doy := (153 * mp + 2) / 5 + d - 1
  let doe := yoe * 365 + yoe / 4 - yoe / 100 + doy
  era * 146097 + doe - 719468

/-- The civil date `(y, m, d)` of a day number counted from 1970-01-01. -/
def civilFromDays (z : Int) : Int × Int × Int :=
  let z1 := z + 719468
  let era := z1 / 146097
  let doe := z1 - era * 146097
  let yoe := (doe - doe / 1460 + doe / 36524 - doe / 146096) / 365
  let doy := doe - (365 * yoe + yoe / 4 - yoe / 100)
  let mp := (5 * doy + 2) / 153
  let d := doy - (153 * mp + 2) / 5 + 1
  let m := if mp < 10 then mp + 3 else mp - 9
  (if m ≤ 2 then yoe + era * 400 + 1 else yoe + era * 400, m, d)

/-- A number written with at least `width` digits, zero-padded on the left (`padStart`). -/
def padDigits (width n : Nat) : JSString :=
  List.replicate (width - (natDigits n).length) 48 ++ natDigits n

/-- The text `YYYY-MM-DD` of a day number, as `toISOString().slice(0, 10)` gives it for a
year between 0 and 9999. -/
def isoOfDays (z : Int) : JSString :=
  padDigits 4 (civilFromDays z).1.toNat ++ [45] ++ padDigits 2 (civilFromDays z).2.1.toNat ++
    [45] ++ padDigits 2 (civilFromDays z).2.2.toNat

/-- The day number of `new Date(s)` for a date-only text `YYYY-MM-DD` (midnight UTC);
`none` stands for an invalid date. -/
def parseIsoDate (s : JSString) : Option Int :=
  if s.length = 10 && dateAt s && 1 ≤ digitsVal ((s.drop 5).take 2) &&
      digitsVal ((s.drop 5).take 2) ≤ 12 && 1 ≤ digitsVal (s.drop 8) &&
      digitsVal (s.drop 8) ≤ 31 then
    some (daysFromCivil (digitsVal (s.take 4)) (digitsVal ((s.drop 5).take 2))
      (digitsVal (s.drop 8)))
  else none

/-- The branch of `loadAll` that computes the previous period for the filters `today` and
`week`: `days = (new Date(end) - new Date(start)) / 86400000 + 1`, `prevEnd = start`, and
`prevStart` is the date `days` days before `start`. The result is `(prevStart, prevEnd)`;
`none` stands for the `RangeError` that `toISOString` raises on an invalid date. Local-time
arithmetic (`getDate`, `setDate`) is taken at a fixed UTC offset. -/
def previousPeriodByDays (start end_ : JSString) : Option (JSString × JSString) :=
  match parseIsoDate start, parseIsoDate end_ with
  | some s, some e => some (isoOfDays (s - ((e - s) + 1)), start)
  | _, _ => none

/-! ## Vocabulary for the record normaliser -/

/-- Spec wording: the day-of-month parsed from the creation date of a record,
`parseInt(dtStr.substring(8, 10), 10)`; `none` when there is no creation date or the
two characters hold no number. -/
def dayOfMonth (d : Deal) : Option Int :=
  (getDealCreatedDate d).bind (fun c => parseInt ((c.drop 8).take 2))

/-- The text an amount string is parsed from: `val.replace(/[^0-9.-]/g, '')`. -/
def amountText (s : JSString) : JSString := s.filter (fun c => isDigit c || c == 46 || c == 45)

/-- A deal created on the 10th, with amount 90. -/
def dealOnTenth : Deal :=
  { Amount := JSVal.num 90, Created_Time := JSVal.str (lit "2024-03-10T09:30:00-05:00") }

/-- A deal whose creation time holds no date at all. -/
def dealNoDay : Deal := { Amount := JSVal.num 40, Created_Time := JSVal.str (lit "pending") }

/-- A deal whose creation time is not zero-padded, so it holds no `YYYY-MM-DD` date. -/
def dealLooseDate : Deal := { Amount := JSVal.num 40, Created_Time := JSVal.str (lit "2024-1-5") }

/-- A deal whose only named owner is called `constructor`. -/
def dealRepConstructor : Deal :=
  { Amount := JSVal.num 100
    Sales_Rep := JSVal.obj [(lit "name", JSVal.str (lit "constructor"))]
    Created_Time := JSVal.str (lit "2024-03-10T09:30:00-05:00") }

/-- A deal linked to a meeting whose identifier is the text `toString`. -/
def dealLinkToString : Deal :=
  { Amount := JSVal.num 100
    Meeting_ID := JSVal.obj [(lit "id", JSVal.str (lit "toString"))]
    Created_Time := JSVal.str (lit "2024-03-10T09:30:00-05:00") }

/-! ## Join and enrichment: the brand merge of `loadAll` -/

/-- The definition of an own property in an object literal (`{ ..., k: v }`): an existing own
property is overwritten in place, a new one is added in property order. -/
def defineProp (o : Props) (k : JSString) (v : JSVal) : Props :=
  if (ownGet o k).isSome then replaceProp k v o
  else
    match arrayIndex k with
    | some n => insertIndexed n k v o
    | none => o ++ [(k, v)]

/-- The own enumerable properties that a spread `{ ...v }` copies. -/
def spreadProps : JSVal → Props
  | JSVal.obj props => props
  | JSVal.str s => s.enum.map (fun ic => (natDigits ic.1, JSVal.str [ic.2]))
  | _ => []

/-- The bucket `{ leads: 0, meetings: 0, deals: 0 }`. -/
def emptyBucket : JSVal :=
  JSVal.obj [(lit "leads", JSVal.num 0), (lit "meetings", JSVal.num 0), (lit "deals", JSVal.num 0)]

/-- The properties that the spread `{ ...events.byBrand[brand] }` copies. A bucket is an
object, or a built-in of `Object.prototype` that `fetchEvents` took for the bucket of a
brand of that name: `byBrand[brand].meetings++` has then put the own property
`meetings: NaN` on that built-in, which carries no other enumerable property. -/
def bucketSpread : JSVal → Props
  | JSVal.builtin _ => [(lit "meetings", JSVal.nan)]
  | v => spreadProps v

/-- First loop of the brand merge of `loadAll`, for one brand of `Object.keys(events.byBrand)`:
`brandPerf[brand] = { ...events.byBrand[brand], deals: 0 }`. `none` stands for the case the
embedding does not follow: the key `__proto__`, whose assignment replaces the prototype of
`brandPerf`. -/
def brandInit (byBrand : Props) (brandPerf : Option Props) (brand : JSString) : Option Props :=
  match brandPerf with
  | none => none
  | some bp =>
    if brand = lit "__proto__" then none
    else some (objSet bp brand
      (JSVal.obj (defineProp (bucketSpread ((ownGet byBrand brand).getD JSVal.undefined))
        (lit "deals") (JSVal.num 0))))

/-- The brand a link key is counted under: `eventBrandMap[meetingId] || 'Other'`. -/
def brandOfLink (eventBrandMap : Props) (meetingId : JSString) : JSVal :=
  jsOr (getProp eventBrandMap meetingId) (JSVal.str (lit "Other"))

/-- Second loop of the brand merge of `loadAll`, for one entry `[meetingId, dealCount]` of
`Object.entries(deals.byMeetingId)`. `none` stands for the cases the embedding does not
follow: `brandPerf[brand]` is a built-in inherited from `Object.prototype`, so that the
count is written on that built-in, or is a primitive, on which the write raises. -/
def brandStep (eventBrandMap : Props) (brandPerf : Option Props) (entry : JSString × JSVal) :
    Option Props :=
  match brandPerf with
  | none => none
  | some bp =>
    let key := (brandOfLink eventBrandMap entry.1).toStr
    match jsOr (getProp bp key) emptyBucket with
    | JSVal.obj bucket =>
      some (objSet bp key
        (JSVal.obj (objSet bucket (lit "deals")
          (jsAdd (jsOr (getProp bucket (lit "deals")) (JSVal.num 0)) entry.2))))
    | _ => none

/-- The brand merge of `loadAll` ("Merge deals into brand performance via Meeting_ID ->
Event Brand"): `brandPerf` from `events.byBrand`, `events.meetingIdToBrand` and
`deals.byMeetingId`. -/
def brandMerge (byBrand eventBrandMap byMeetingId : Props) : Option Props :=
  byMeetingId.foldl (brandStep eventBrandMap)
    ((byBrand.map Prod.fst).foldl (brandInit byBrand) (some []))

/-! ## Vocabulary for the representatives of a deal and for the brand merge -/

/-- The lookups `getDealReps` goes through: the three named-owner fields, then `Owner` when
`getRepName(d.Sales_Rep)` is falsy. -/
def candidateLookups (d : Deal) : List JSVal :=
  [d.Sales_Rep, d.Sales_Rep_2, d.Trainee] ++
    (if !strTruthy (getRepName d.Sales_Rep) then [d.Owner] else [])

/-- The names these lookups yield, in order. -/
def candidateNames (d : Deal) : List JSString := (candidateLookups d).filterMap getRepName

/-- Spec wording: keep a name unless it is already listed. -/
def addDistinct (reps : List JSString) (n : JSString) : List JSString :=
  if n ∈ reps then reps else reps ++ [n]

/-- What the source does with a name: it is kept unless it is already listed or names a
member of `Object.prototype`. -/
def addName (reps : List JSString) (n : JSString) : List JSString :=
  if n ∈ reps ∨ n ∈ objectPrototypeKeys then reps else reps ++ [n]

/-- The deals count held by a bucket of `brandPerf` (0 when the value holds none). -/
def dealsOf (v : JSVal) : ℚ :=
  match v with
  | JSVal.obj bucket => countOf bucket (lit "deals")
  | _ => 0

/-- The deals count of a brand in `brandPerf` (0 when the brand has no bucket). -/
def brandDeals (brandPerf : Props) (brand : JSString) : ℚ :=
  match ownGet brandPerf brand with
  | some v => dealsOf v
  | none => 0

/-- The sum of the deals counts over all buckets of `brandPerf`. -/
def totalDeals (brandPerf : Props) : ℚ := (brandPerf.map (fun kv => dealsOf kv.2)).sum

/-- Every value of `brandPerf` is a bucket whose own `deals` is 0. -/
def BucketsZero (brandPerf : Props) : Prop :=
  ∀ kv ∈ brandPerf, ∃ bucket, kv.2 = JSVal.obj bucket ∧
    ownGet bucket (lit "deals") = some (JSVal.num 0)

/-- The link keys with their counts, as the entries of `deals.byMeetingId`. -/
def countEntries (counts : List (JSString × ℚ)) : Props :=
  counts.map (fun kc => (kc.1, JSVal.num kc.2))

/-- Every value of `brandPerf` is a bucket with a numeric own `deals`. -/
def BucketsOk (brandPerf : Props) : Prop :=
  ∀ kv ∈ brandPerf, ∃ bucket q, kv.2 = JSVal.obj bucket ∧
    ownGet bucket (lit "deals") = some (JSVal.num q)

/-! ## Vocabulary for the projection builder and the leaderboard -/

/-- A deal created on the 31st of March, with amount 500. -/
def dealOnThirtyFirst : Deal :=
  { Amount := JSVal.num 500, Created_Time := JSVal.str (lit "2024-03-31T10:00:00-05:00") }

/-- A revenue-by-owner mapping with six owners, all with positive revenue. -/
def sixOwners : List (JSString × ℚ) :=
  [(lit "A", 60), (lit "B", 50), (lit "C", 40), (lit "D", 30), (lit "E", 20), (lit "F", 10)]

/-! ## Calendar resolver: the previous period of `month` -/

/-- The text of an integer, as `String(n)` gives it. -/
def intDigits (n : Int) : JSString :=
  if n < 0 then 45 :: natDigits n.natAbs else natDigits n.natAbs

/-- Day number of the first day of a month given by a year and a month index counted from 0,
the index being any integer (`MakeDay(year, monthIndex, 1)`: an index outside `0..11` moves
the year). -/
def monthStart (year monthIndex : Int) : Int :=
  daysFromCivil (year + monthIndex / 12) (monthIndex % 12 + 1) 1

/-- The year the constructor `new Date(year, month, day)` takes for its first argument: a
year from 0 to 99 stands for `1900 + year`. -/
def ctorYear (year : Int) : Int := if 0 ≤ year ∧ year ≤ 99 then 1900 + year else year

/-- The branch of `loadAll` that computes the previous period for the filter `month`.
`hostOffset` is the UTC offset of the time zone of the host, in minutes (local time is UTC
plus the offset, taken as fixed: no daylight-saving change). `new Date(start)` reads the
date-only text `start` as midnight UTC, while `getMonth`, `setMonth`, `getFullYear` and
`new Date(y, m, 0)` work in local time: the local date of that instant is `start` itself
for an offset from 0 up, and the day before for a negative offset. `setMonth` keeps the
day of the month, which overflows into the next month when the target month is too short.
The result is `(prevStart, prevEnd)`; a text that is no date gives an invalid date, whose
getters return `NaN`. -/
def previousPeriodByMonth (hostOffset : Int) (start : JSString) : JSString × JSString :=
  match parseIsoDate start with
  | none => (lit "NaN-NaN-01", lit "NaN-NaN-NaN")
  | some z =>
    let loc := civilFromDays (z + hostOffset / 1440)
    let moved := civilFromDays (monthStart loc.1 (loc.2.1 - 1 - 1) + (loc.2.2 - 1))
    let lastD := civilFromDays (monthStart (ctorYear moved.1) (moved.2.1 - 1 + 1) + (0 - 1))
    (intDigits moved.1 ++ lit "-" ++ padDigits 2 moved.2.1.toNat ++ lit "-01",
     intDigits moved.1 ++ lit "-" ++ padDigits 2 moved.2.1.toNat ++ lit "-" ++
       padDigits 2 lastD.2.2.toNat)

/-- Spec wording: a leap year of the Gregorian calendar. -/
def isLeapYear (y : Int) : Bool := (y % 4 = 0 && y % 100 != 0) || y % 400 = 0

/-- Spec wording: the number of days of the month `m` of the year `y`. -/
def monthLength (y m : Int) : Int :=
  if m = 2 then (if isLeapYear y then 29 else 28)
  else if m = 4 ∨ m = 6 ∨ m = 9 ∨ m = 11 then 30 else 31

/-- Spec wording: the prior calendar month of the month `m` of the year `y`, as the texts
of its first and of its last day. -/
def priorCalendarMonth (y m : Int) : JSString × JSString :=
  let py := if m = 1 then y - 1 else y
  let pm := if m = 1 then 12 else m - 1
  (intDigits py ++ lit "-" ++ padDigits 2 pm.toNat ++ lit "-01",
   intDigits py ++ lit "-" ++ padDigits 2 pm.toNat ++ lit "-" ++
     padDigits 2 (monthLength py pm).toNat)

/-! ## Capacity split of `loadAll` -/

/-- `s.toLowerCase()` as far as the search for `canvassing` can tell: the letters `A-Z` are
lowered and every other code unit is kept (no character outside ASCII lowers to a run of
letters that could take part in a match of `canvassing`). -/
def toLowerCase (s : JSString) : JSString := s.map (fun c => if 65 ≤ c ∧ c ≤ 90 then c + 32 else c)

/-- The test `s.indexOf(t) >= 0`: `t` occurs in `s`. -/
def includes : JSString → JSString → Bool
  | [], t => t.isEmpty
  | c :: s, t => t.isPrefixOf (c :: s) || includes s t

/-- The count `bySource[src]` of a source taken from `Object.keys(bySource)`
(equally `bySource[src] || 0` for a source that may be missing). -/
def sourceCount (bySource : List (JSString × ℚ)) (src : JSString) : ℚ :=
  match bySource.find? (fun kv => kv.1 = src) with
  | some kv => kv.2
  | none => 0

/-- The test `src && String(src).toLowerCase().indexOf('canvassing') >= 0`. -/
def isCanvassing (src : JSString) : Bool :=
  !src.isEmpty && includes (toLowerCase src) (lit "canvassing")

/-- The `capacity` object of the snapshot. -/
structure Capacity where
  canvassing : ℚ
  digital : ℚ
  total : ℚ
  canvassingPct : Int
  digitalPct : Int

/-- The capacity block of `loadAll` ("Capacity: Canvassing vs Digital"), from the counts by
source `leads.bySource` and the count `leads.count`. -/
def capacity (bySource : List (JSString × ℚ)) (count : ℚ) : Capacity :=
  let canvassingCount :=
    ((bySource.map Prod.fst).filter isCanvassing).foldl
      (fun acc src => acc + sourceCount bySource src) 0
  let totalLeads := count
  let digitalCount := max 0 (totalLeads - canvassingCount)
  let canvassingPct : Int :=
    if totalLeads > 0 then mathRound (canvassingCount / totalLeads * 100) else 50
  let digitalPct : Int :=
    if totalLeads > 0 then mathRound (digitalCount / totalLeads * 100) else 50
  { canvassing := canvassingCount
    digital := digitalCount
    total := totalLeads
    canvassingPct := canvassingPct
    digitalPct :=
      if canvassingPct + digitalPct ≠ 100 ∧ totalLeads > 0 then 100 - canvassingPct
      else digitalPct }

/-! ## Leads and events: `fetchLeads` and `fetchEvents` -/

/-- A lead record as returned by the query: the field the program reads. -/
structure Lead where
  Lead_Source : JSVal := JSVal.undefined

/-- An event record as returned by the query: the fields that decide what `fetchEvents`
hands to `loadAll`. (`Sales_Rep` and `Amount` only feed `byRep`, which `loadAll` never
reads and whose computation raises no error.) -/
structure Event where
  id : JSVal := JSVal.undefined
  Meeting_Stage : JSVal := JSVal.undefined
  Brand : JSVal := JSVal.undefined
  Lead_Source : JSVal := JSVal.undefined

/-- How the body of a `forEach` callback ends: normally, by raising an error (which the
surrounding `try` catches), or in a way the embedding does not follow. -/
inductive Run (α : Type) where
  | done (a : α)
  | raised
  | unmodelled

/-- Sequencing of two steps. -/
def Run.andThen {α β : Type} (r : Run α) (f : α → Run β) : Run β :=
  match r with
  | Run.done a => f a
  | Run.raised => Run.raised
  | Run.unmodelled => Run.unmodelled

/-- The result of `fetchLeads`. -/
structure LeadsAgg where
  count : Nat
  bySource : Props

/-- The result of `fetchEvents`, as far as `loadAll` reads it (`byRep` and `bySource` are
never read). -/
structure EventsAgg where
  count : Nat
  byStage : Props
  byBrand : Props
  meetingIdToBrand : Props

/-- The default `{ count: 0, bySource: {} }`. -/
def noLeads : LeadsAgg := { count := 0, bySource := [] }

/-- The default `{ count: 0, byStage: {}, byRep: {}, byBrand: {}, bySource: {},
meetingIdToBrand: {} }`. -/
def noEvents : EventsAgg := { count := 0, byStage := [], byBrand := [], meetingIdToBrand := [] }

/-- One round of the `data.forEach` of `fetchLeads`: `src = (d.Lead_Source ||
'Direct').trim() || 'Direct'`, which raises a `TypeError` when `Lead_Source` is truthy and
no string, then `bySource[src] = (bySource[src] || 0) + 1`. -/
def leadStep (bySource : Props) (d : Lead) : Run Props :=
  match jsOr d.Lead_Source (JSVal.str (lit "Direct")) with
  | JSVal.str s =>
    Run.done (bump bySource (if (trim s).isEmpty then lit "Direct" else trim s) 1)
  | _ => Run.raised

/-- The value `x + 1` that `x++` stores, for a value that is no string. -/
def increment (v : JSVal) : JSVal :=
  match v.toPrimitive with
  | JSVal.str _ => JSVal.nan
  | p =>
    match p.toNumber? with
    | some q => JSVal.num (q + 1)
    | none => JSVal.nan

/-- The brand of an event: `(d.Brand && (typeof d.Brand === 'object' ? d.Brand.name :
d.Brand)) || 'Other'`. -/
def eventBrand (d : Event) : JSVal :=
  jsOr (jsAnd d.Brand (if d.Brand.typeof = JSType.object then d.Brand.get (lit "name") else d.Brand))
    (JSVal.str (lit "Other"))

/-- The statements `byBrand[brand] = byBrand[brand] || { leads: 0, meetings: 0, deals: 0 };
byBrand[brand].meetings++` of `fetchEvents`. The bucket of a brand that has none yet and
names a member of `Object.prototype` is that inherited built-in, stored as an own
property from then on; the increment then lands on the built-in (see `bucketSpread`).
Not followed: the brand `__proto__` (the increment lands on `Object.prototype` itself) and
a `meetings` count that is a string. A bucket that is a primitive cannot be written to,
which raises a `TypeError` in strict mode. -/
def brandCount (byBrand : Props) (brand : JSString) : Run Props :=
  match jsOr (getProp byBrand brand) emptyBucket with
  | JSVal.obj bucket =>
    match getProp bucket (lit "meetings") with
    | JSVal.str _ => Run.unmodelled
    | m => Run.done (objSet byBrand brand (JSVal.obj (objSet bucket (lit "meetings") (increment m))))
  | JSVal.builtin k =>
    if k = lit "__proto__" then Run.unmodelled
    else Run.done (objSet byBrand brand (JSVal.builtin k))
  | _ => Run.raised

/-- The statement `if (d.id) meetingIdToBrand[d.id] = brand` of `fetchEvents`. Not followed:
an object assigned under the key `__proto__`, which replaces the prototype of the map. -/
def linkBrand (meetingIdToBrand : Props) (id brand : JSVal) : Run Props :=
  if !id.truthy then Run.done meetingIdToBrand
  else
    match brand with
    | JSVal.obj o =>
      if id.toStr = lit "__proto__" ∧ (ownGet meetingIdToBrand id.toStr).isNone then Run.unmodelled
      else Run.done (objSet meetingIdToBrand id.toStr (JSVal.obj o))
    | b => Run.done (objSet meetingIdToBrand id.toStr b)

/-- One round of the `data.forEach` of `fetchEvents`, on the objects `loadAll` reads later.
`(d.Meeting_Stage || 'None').trim()` and `(d.Lead_Source || '').toLowerCase()` raise a
`TypeError` when the field is truthy and no string. -/
def eventStep (acc : EventsAgg) (d : Event) : Run EventsAgg :=
  match jsOr d.Meeting_Stage (JSVal.str (lit "None")) with
  | JSVal.str stage =>
    (brandCount acc.byBrand (eventBrand d).toStr).andThen (fun byBrand =>
      (linkBrand acc.meetingIdToBrand d.id (eventBrand d)).andThen (fun meetingIdToBrand =>
        match jsOr d.Lead_Source (JSVal.str []) with
        | JSVal.str _ =>
          Run.done
            { count := acc.count
              byStage := bump acc.byStage (trim stage) 1
              byBrand := byBrand
              meetingIdToBrand := meetingIdToBrand }
        | _ => Run.raised))
  | _ => Run.raised

/-- The `data.forEach` of `fetchLeads`. -/
def aggregateLeads (data : List Lead) : Run LeadsAgg :=
  (data.foldl (fun r d => r.andThen (fun bySource => leadStep bySource d)) (Run.done [])).andThen
    (fun bySource => Run.done { count := data.length, bySource := bySource })

/-- The `data.forEach` of `fetchEvents` and the object built from it. -/
def aggregateEvents (data : List Event) : Run EventsAgg :=
  (data.foldl (fun r d => r.andThen (fun acc => eventStep acc d)) (Run.done noEvents)).andThen
    (fun acc => Run.done { acc with count := data.length })

/-- Source function `fetchLeads(start, end, tz)`. `none` stands for pages that did not end
within `fuel`. -/
def fetchLeads {σ : Type} (sdkReady : Bool) (api : Backend σ Lead) (fuel : Nat)
    (start end_ tz : JSString) (w : World σ) : Option (LeadsAgg × World σ) :=
  if !sdkReady then some (noLeads, w)
  else
    let tzStr := if tz.isEmpty then lit "-06:00" else tz
    let q := lit "select id,Lead_Source from Leads where Created_Time >= \x27" ++
      (start ++ lit "T00:00:00" ++ tzStr) ++ lit "\x27 and Created_Time <= \x27" ++
      (end_ ++ lit "T23:59:59" ++ tzStr) ++ lit "\x27"
    match coqlPaginated api q 200 fuel w with
    | none => none
    | some (Except.error _, w1) => some (noLeads, w1)
    | some (Except.ok data, w1) =>
      match aggregateLeads data with
      | Run.done leads => some (leads, w1)
      | _ => some (noLeads, w1)

/-- Source function `fetchEvents(start, end, tz)`. `none` stands for pages that did not end
within `fuel`, and for an aggregation the embedding does not follow. -/
def fetchEvents {σ : Type} (sdkReady : Bool) (api : Backend σ Event) (fuel : Nat)
    (start end_ tz : JSString) (w : World σ) : Option (EventsAgg × World σ) :=
  if !sdkReady then some (noEvents, w)
  else
    let q := lit "select id,Meeting_Stage,Sales_Rep,Amount,Brand,Lead_Source from Events where Start_DateTime between \x27" ++
      (start ++ lit "T00:00:00" ++ tz) ++ lit "\x27 and \x27" ++
      (end_ ++ lit "T23:59:59" ++ tz) ++ lit "\x27"
    match coqlPaginated api q 200 fuel w with
    | none => none
    | some (Except.error _, w1) => some (noEvents, w1)
    | some (Except.ok data, w1) =>
      match aggregateEvents data with
      | Run.done events => some (events, w1)
      | Run.raised => some (noEvents, w1)
      | Run.unmodelled => none

/-! ## The snapshot: `loadAll` -/

/-- `x.toFixed(0)`: the nearest integer, a tie going away from zero, with the sign of `x`. -/
def toFixed0 (x : ℚ) : JSString :=
  (if x < 0 then [45] else []) ++ natDigits ⌊|x| + 1 / 2⌋.toNat

/-- The percentages `leadPct`, `meetingPct` and `dealPct`: `yesterday > 0 ? ((today -
yesterday) / yesterday * 100).toFixed(0) : (today > 0 ? '100' : '0')`. -/
def pctVsYesterday (today yesterday : Nat) : JSString :=
  if yesterday > 0 then toFixed0 (((today : ℚ) - (yesterday : ℚ)) / (yesterday : ℚ) * 100)
  else if today > 0 then lit "100" else lit "0"

/-- The number of deals counted as contracts of the day `day`: not from the legacy system
and created on that day. -/
def contractsOn (allDeals : List Deal) (day : JSString) : Nat :=
  (allDeals.filter (fun d =>
    isNewCRMDeal d && strTruthy (getDealCreatedDate d) &&
      decide (((getDealCreatedDate d).getD []).take 10 = day))).length

/-- A dictionary of counts seen as a typed mapping: the entries whose value is a number.
(An entry of another type arises only under a key that names a member of
`Object.prototype`, and no such entry is read as a count.) -/
def numEntries (o : Props) : List (JSString × ℚ) :=
  o.filterMap (fun kv => match kv.2 with | JSVal.num q => some (kv.1, q) | _ => none)

/-- The counts by stage as `aggregateStatusCounts` takes them. -/
def stageCounts (byStage : Props) : List (JSString × Nat) :=
  (numEntries byStage).map (fun kv => (kv.1, ⌊kv.2⌋.toNat))

/-- The three numbers `loadAll` hands to `buildChartData`, from the text `today` of
`getDateInCST(0)`: `todayDay = parseInt(todayParts[2], 10) || 1`, `daysInMonth = new
Date(year, month, 0).getDate()` and `prevDaysInMonth = new Date(year, month - 1,
0).getDate()`. `none` when `today` is no date of the form `YYYY-MM-DD`. -/
def chartInputs (today : JSString) : Option (Nat × Nat × Nat) :=
  match parseIsoDate today, parseInt (today.take 4), parseInt ((today.drop 5).take 2),
    parseInt (today.drop 8) with
  | some _, some y, some m, some d =>
    some ((if d = 0 then 1 else d).toNat,
      (civilFromDays (monthStart (ctorYear y) m + (0 - 1))).2.2.toNat,
      (civilFromDays (monthStart (ctorYear y) (m - 1) + (0 - 1))).2.2.toNat)
  | _, _, _, _ => none

/-- What `loadAll` reads from the clock of its environment: the result `{ start, end, tz }`
of `getDateRange(filter)`, the texts of `getDateInCST(0)` and `getDateInCST(-1)`, and the
UTC offset of the host in minutes. -/
structure Clock where
  start : JSString
  end_ : JSString
  tz : JSString
  today : JSString
  yesterday : JSString
  hostOffset : Int

/-- The `metrics` object of the snapshot. -/
structure Metrics where
  revenue : ℚ
  prevRevenue : ℚ
  revPct : JSVal
  leads : Nat
  prevLeads : Nat
  leadPct : JSString
  meetings : Nat
  prevMeetings : Nat
  meetingPct : JSString
  deals : Nat
  prevDeals : Nat
  dealPct : JSString

/-- The `marketingSummary` object of the snapshot. -/
structure MarketingSummary where
  marketingLeads : ℚ
  partnerLeads : ℚ
  meetings : Nat
  deals : Nat

/-- The snapshot `loadAll` returns. -/
structure Snapshot where
  metrics : Metrics
  leaderboard : List LeaderEntry
  statusCounts : Props
  marketingSummary : MarketingSummary
  brandPerformance : Props
  dateRange : JSString × JSString
  chartData : Option ChartData
  capacity : Capacity

/-- The previous period of `loadAll`: the `month` branch or the branch of the other filters. -/
def previousPeriod (filter : JSString) (c : Clock) : Option (JSString × JSString) :=
  if filter = lit "month" then some (previousPeriodByMonth c.hostOffset c.start)
  else previousPeriodByDays c.start c.end_

/-- The part of `loadAll` that follows the fetches: the snapshot built from the deals, the
leads and events of the period, and the leads, events and contracts of today and
yesterday. `none` stands for a brand merge or chart input the embedding does not follow. -/
def buildSnapshot (filter : JSString) (c : Clock) (prev : JSString × JSString)
    (allDeals : List Deal) (leads : LeadsAgg) (events : EventsAgg)
    (todayLeads yesterdayLeads : LeadsAgg) (todayEvents yesterdayEvents : EventsAgg) :
    Option Snapshot :=
  let deals := processDeals allDeals c.start c.end_
  let prevDeals := processDeals allDeals prev.1 prev.2
  let todayContractsCount := contractsOn allDeals c.today
  let yesterdayContractsCount := contractsOn allDeals c.yesterday
  let chart : Option (Option ChartData) :=
    if filter = lit "month" then
      (chartInputs c.today).map (fun n => some (buildChartData deals prevDeals n.1 n.2.1 n.2.2))
    else some none
  match chart, brandMerge events.byBrand events.meetingIdToBrand deals.byMeetingId with
  | some chartData, some brandPerf =>
    some
      { metrics :=
          { revenue := deals.totalRevenue
            prevRevenue := prevDeals.totalRevenue
            revPct :=
              if prevDeals.totalRevenue > 0 then
                JSVal.str (toFixed0
                  ((deals.totalRevenue - prevDeals.totalRevenue) / prevDeals.totalRevenue * 100))
              else JSVal.num 0
            leads := todayLeads.count
            prevLeads := yesterdayLeads.count
            leadPct := pctVsYesterday todayLeads.count yesterdayLeads.count
            meetings := todayEvents.count
            prevMeetings := yesterdayEvents.count
            meetingPct := pctVsYesterday todayEvents.count yesterdayEvents.count
            deals := todayContractsCount
            prevDeals := yesterdayContractsCount
            dealPct := pctVsYesterday todayContractsCount yesterdayContractsCount }
        leaderboard := leaderboard (numEntries deals.byRep)
        statusCounts := aggregateStatusCounts (stageCounts events.byStage)
        marketingSummary :=
          { marketingLeads :=
              sourceCount (numEntries leads.bySource) (lit "Marketing") +
                sourceCount (numEntries leads.bySource) (lit "Digital")
            partnerLeads :=
              sourceCount (numEntries leads.bySource) (lit "Partner") +
                sourceCount (numEntries leads.bySource) (lit "Canvassing")
            meetings := events.count
            deals := deals.count }
        brandPerformance := brandPerf
        dateRange := (c.start, c.end_)
        chartData := chartData
        capacity := capacity (numEntries leads.bySource) (leads.count : ℚ) }
  | _, _ => none

/-- Source function `CEO_API.loadAll(dateFilter)`, an empty `dateFilter` standing for a
missing one. `sdkReady` is the guard `zohoSDKReady && ZOHO.CRM && ZOHO.CRM.API`, and the
query capability is given once per module it is asked about. The eight fetches handed to
`Promise.all` are taken one after the other, in the order in which they are started.
`none` stands for a raised error (the `RangeError` of the previous period), for pages that
did not end within `fuel`, and for the cases the embedding does not follow. -/
def loadAll {σ : Type} (sdkReady : Bool) (apiDeals : Backend σ Deal) (apiLeads : Backend σ Lead)
    (apiEvents : Backend σ Event) (fuel : Nat) (dateFilter : JSString) (c : Clock) (w : World σ) :
    Option (Snapshot × World σ) :=
  let filter := if dateFilter.isEmpty then lit "month" else dateFilter
  (previousPeriod filter c).bind (fun prev =>
  (fetchDealsAll sdkReady apiDeals fuel w).bind (fun r0 =>
  (fetchLeads sdkReady apiLeads fuel c.start c.end_ c.tz r0.2).bind (fun r1 =>
  (fetchLeads sdkReady apiLeads fuel prev.1 prev.2 c.tz r1.2).bind (fun r2 =>
  (fetchEvents sdkReady apiEvents fuel c.start c.end_ c.tz r2.2).bind (fun r3 =>
  (fetchEvents sdkReady apiEvents fuel prev.1 prev.2 c.tz r3.2).bind (fun r4 =>
  (fetchLeads sdkReady apiLeads fuel c.today c.today c.tz r4.2).bind (fun r5 =>
  (fetchLeads sdkReady apiLeads fuel c.yesterday c.yesterday c.tz r5.2).bind (fun r6 =>
  (fetchEvents sdkReady apiEvents fuel c.today c.today c.tz r6.2).bind (fun r7 =>
  (fetchEvents sdkReady apiEvents fuel c.yesterday c.yesterday c.tz r7.2).bind (fun r8 =>
  (buildSnapshot filter c prev r0.1 r1.1 r3.1 r5.1 r6.1 r7.1 r8.1).map
    (fun s => (s, r8.2))))))))))))

/-! ## Vocabulary for the snapshot -/

/-- A clock reading on 10 March 2024 for the filter `month`, on a host six hours west of
UTC. -/
def marchClock : Clock :=
  { start := lit "2024-03-01", end_ := lit "2024-03-31", tz := lit "-06:00",
    today := lit "2024-03-10", yesterday := lit "2024-03-09", hostOffset := -360 }

/-- A query capability that is never reached. -/
def noBackend (ρ : Type) : Backend Nat ρ := fun n _ => (Except.error [], n)

/-! ## Vocabulary for the brand table -/

/-- The key an event is counted under in `byBrand`: its brand, as a property key. -/
def eventBrandKey (d : Event) : JSString := (eventBrand d).toStr

/-- Spec wording: the number of event records of a brand. -/
def eventsOfBrand (data : List Event) (brand : JSString) : Nat :=
  (data.filter (fun d => decide (eventBrandKey d = brand))).length

/-- A value is a bucket whose own `leads` is 0 and whose own `meetings` is `n`. -/
def GoodBucket (v : JSVal) (n : Nat) : Prop :=
  ∃ bucket, v = JSVal.obj bucket ∧ ownGet bucket (lit "leads") = some (JSVal.num 0) ∧
    ownGet bucket (lit "meetings") = some (JSVal.num (n : ℚ))

/-- Spec wording: in a table of brand buckets, every brand with an event record has a
bucket, and every bucket has `leads = 0` and a `meetings` count equal to the number of
event records of its brand. -/
def BrandTable (data : List Event) (table : Props) : Prop :=
  ∀ k, (0 < eventsOfBrand data k → (ownGet table k).isSome = true) ∧
    ∀ v, ownGet table k = some v → GoodBucket v (eventsOfBrand data k)

/-- An event whose brand is named `constructor`. -/
def eventBrandConstructor : Event :=
  { id := JSVal.str (lit "e1"), Brand := JSVal.str (lit "constructor") }

/-- No own key of the object names a member of `Object.prototype`. -/
def PlainKeys (o : Props) : Prop :=
  ∀ m, (ownGet o m).isSome = true → m ∉ objectPrototypeKeys

/-- Every brand held by `meetingIdToBrand` is truthy and names no member of
`Object.prototype`. -/
def LinkOk (meetingIdToBrand : Props) : Prop :=
  ∀ kv ∈ meetingIdToBrand, kv.2.truthy = true ∧ kv.2.toStr ∉ objectPrototypeKeys

/-- An event well-formed for `fetchEvents`: its stage and lead source are strings or
missing, its brand names no member of `Object.prototype`, and its identifier is not the
text `__proto__`. -/
def PlainEvent (d : Event) : Prop :=
  (∃ s, jsOr d.Meeting_Stage (JSVal.str (lit "None")) = JSVal.str s) ∧
  (∃ s, jsOr d.Lead_Source (JSVal.str []) = JSVal.str s) ∧
  eventBrandKey d ∉ objectPrototypeKeys ∧ d.id.toStr ≠ lit "__proto__"

/-! ## Plain objects: what a write preserves -/

theorem ownGet_mem (o : Props) (k : JSString) (v : JSVal) (h : ownGet o k = some v) :
    (k, v) ∈ o := by
  unfold ownGet at h
  simp only [Option.map_eq_some'] at h
  obtain ⟨kv, hfind, hv⟩ := h
  have hmem := List.mem_of_find?_eq_some hfind
  have hk := List.find?_some hfind
  simp only [decide_eq_true_eq] at hk
  obtain ⟨k1, v1⟩ := kv
  simp only at hk hv
  subst hk hv
  exact hmem

theorem replaceProp_forall (P : JSVal → Prop) (k : JSString) (v : JSVal) (o : Props)
    (ho : ∀ kv ∈ o, P kv.2) (hv : P v) : ∀ kv ∈ replaceProp k v o, P kv.2 := by
  induction o with
  | nil => simp [replaceProp]
  | cons a t ih =>
    obtain ⟨k1, v1⟩ := a
    simp only [replaceProp]
    split
    · intro kv hkv
      rcases List.mem_cons.mp hkv with rfl | hkv
      · exact hv
      · exact ho kv (List.mem_cons_of_mem _ hkv)
    · intro kv hkv
      rcases List.mem_cons.mp hkv with rfl | hkv
      · exact ho (k1, v1) (by simp)
      · exact ih (fun kv hkv => ho kv (List.mem_cons_of_mem _ hkv)) kv hkv

theorem insertIndexed_forall (P : JSVal → Prop) (n : Nat) (k : JSString) (v : JSVal) (o : Props)
    (ho : ∀ kv ∈ o, P kv.2) (hv : P v) : ∀ kv ∈ insertIndexed n k v o, P kv.2 := by
  induction o with
  | nil => simpa [insertIndexed] using hv
  | cons a t ih =>
    obtain ⟨k1, v1⟩ := a
    have hcons : ∀ kv ∈ (k, v) :: (k1, v1) :: t, P kv.2 := by
      intro kv hkv
      rcases List.mem_cons.mp hkv with rfl | hkv
      · exact hv
      · exact ho kv hkv
    simp only [insertIndexed]
    split
    · split
      · intro kv hkv
        rcases List.mem_cons.mp hkv with rfl | hkv
        · exact ho (k1, v1) (by simp)
        · exact ih (fun kv hkv => ho kv (List.mem_cons_of_mem _ hkv)) kv hkv
      · exact hcons
    · exact hcons

/-- A write keeps every property that holds of the old values and of the written one. -/
theorem objSet_forall (P : JSVal → Prop) (k : JSString) (v : JSVal) (o : Props)
    (ho : ∀ kv ∈ o, P kv.2) (hv : P v) : ∀ kv ∈ objSet o k v, P kv.2 := by
  unfold objSet
  split
  · exact replaceProp_forall P k v o ho hv
  · split
    · exact ho
    · split
      · exact insertIndexed_forall P _ k v o ho hv
      · intro kv hkv
        rcases List.mem_append.mp hkv with hkv | hkv
        · exact ho kv hkv
        · simp only [List.mem_singleton] at hkv
          subst hkv
          exact hv

theorem numValues_cons_num (k : JSString) (q : ℚ) (t : Props) :
    numValues ((k, JSVal.num q) :: t) = q :: numValues t := by
  simp [numValues]

theorem numValues_append (a b : Props) : numValues (a ++ b) = numValues a ++ numValues b := by
  simp [numValues]

theorem numValues_sum_cons (a : JSString × JSVal) (l : Props) :
    (numValues (a :: l)).sum = (numValues [a]).sum + (numValues l).sum := by
  rw [← List.sum_append, ← numValues_append]
  rfl

theorem allNum_values (o : Props) (h : AllNum o) :
    o.map Prod.snd = (numValues o).map JSVal.num := by
  induction o with
  | nil => rfl
  | cons kv t ih =>
    obtain ⟨k, v⟩ := kv
    obtain ⟨q, hq⟩ := h (k, v) (by simp)
    simp only at hq
    subst hq
    rw [numValues_cons_num]
    simp only [List.map_cons]
    rw [ih (fun kv hkv => h kv (List.mem_cons_of_mem _ hkv))]

theorem numValues_replaceProp (k : JSString) (q x : ℚ) (o : Props)
    (h : ownGet o k = some (JSVal.num q)) :
    (numValues (replaceProp k (JSVal.num x) o)).sum = (numValues o).sum - q + x := by
  induction o with
  | nil => simp [ownGet] at h
  | cons a t ih =>
    obtain ⟨k1, v1⟩ := a
    by_cases hk : k1 = k
    · subst hk
      simp only [ownGet, List.find?_cons_of_pos, decide_True, Option.map_some',
        Option.some.injEq] at h
      subst h
      simp only [replaceProp, if_true, numValues_cons_num, List.sum_cons]
      ring
    · have h2 : ownGet t k = some (JSVal.num q) := by
        simpa [ownGet, List.find?_cons, hk] using h
      simp only [replaceProp, hk, if_false]
      rw [numValues_sum_cons (k1, v1) t, numValues_sum_cons (k1, v1) (replaceProp _ _ t), ih h2]
      ring

theorem numValues_insertIndexed (n : Nat) (k : JSString) (x : ℚ) (o : Props) :
    (numValues (insertIndexed n k (JSVal.num x) o)).sum = (numValues o).sum + x := by
  induction o with
  | nil => simp [insertIndexed, numValues]
  | cons a t ih =>
    obtain ⟨k1, v1⟩ := a
    simp only [insertIndexed]
    split
    · split
      · rw [numValues_sum_cons (k1, v1) t, numValues_sum_cons (k1, v1) (insertIndexed _ _ _ t), ih]
        ring
      · rw [numValues_cons_num, List.sum_cons]
        ring
    · rw [numValues_cons_num, List.sum_cons]
      ring

theorem lit_proto_mem : lit "__proto__" ∈ objectPrototypeKeys := by decide

/-- On an object of numbers, `o[k] = (o[k] || 0) + x` with a key that names no member of
`Object.prototype` keeps every value a number and adds `x` to their sum. -/
theorem bump_num (o : Props) (k : JSString) (x : ℚ) (ho : AllNum o)
    (hk : k ∉ objectPrototypeKeys) :
    AllNum (bump o k x) ∧ (numValues (bump o k x)).sum = (numValues o).sum + x := by
  have hkp : k ≠ lit "__proto__" := fun h => hk (h ▸ lit_proto_mem)
  cases hget : ownGet o k with
  | none =>
    have hval : jsAdd (jsOr (getProp o k) (JSVal.num 0)) (JSVal.num x) = JSVal.num (0 + x) := by
      simp [getProp, hget, hk, jsOr, JSVal.truthy, jsAdd, JSVal.toPrimitive, JSVal.toNumber?]
    unfold bump
    rw [hval]
    refine ⟨objSet_forall (fun v => ∃ q, v = JSVal.num q) k _ o ho ⟨_, rfl⟩, ?_⟩
    simp only [objSet, hget, Option.isSome_none, Bool.false_eq_true, if_false, hkp]
    split
    · rw [numValues_insertIndexed]
      ring
    · rw [numValues_append, List.sum_append, numValues_cons_num]
      simp [numValues]
  | some v =>
    obtain ⟨q, hq⟩ := ho (k, v) (ownGet_mem o k v hget)
    simp only at hq
    subst hq
    have hval : jsAdd (jsOr (getProp o k) (JSVal.num 0)) (JSVal.num x) = JSVal.num (q + x) := by
      by_cases hq0 : q = 0
      · simp [getProp, hget, jsOr, JSVal.truthy, jsAdd, JSVal.toPrimitive, JSVal.toNumber?, hq0]
      · simp [getProp, hget, jsOr, JSVal.truthy, jsAdd, JSVal.toPrimitive, JSVal.toNumber?, hq0]
    unfold bump
    rw [hval]
    refine ⟨objSet_forall (fun v => ∃ q, v = JSVal.num q) k _ o ho ⟨_, rfl⟩, ?_⟩
    simp only [objSet, hget, Option.isSome_some, if_true]
    rw [numValues_replaceProp k q (q + x) o hget]
    ring

/-! ## Owners of a deal -/

theorem repStep_inv (st : List JSString × Props) (lookup : JSVal)
    (h1 : ∀ n ∈ st.1, n ∉ objectPrototypeKeys) (h2 : ∀ kv ∈ st.2, kv.2 = JSVal.bool true) :
    (∀ n ∈ (repStep st lookup).1, n ∉ objectPrototypeKeys) ∧
      ∀ kv ∈ (repStep st lookup).2, kv.2 = JSVal.bool true := by
  unfold repStep
  split
  · rename_i n hn
    split
    · rename_i hcond
      simp only [Bool.and_eq_true, Bool.not_eq_true'] at hcond
      refine ⟨?_, objSet_forall (fun v => v = JSVal.bool true) n _ st.2 h2 rfl⟩
      intro m hm
      rcases List.mem_append.mp hm with hm | hm
      · exact h1 m hm
      · simp only [List.mem_singleton] at hm
        subst hm
        intro hmem
        have htr : (getProp st.2 m).truthy = true := by
          unfold getProp
          cases hget : ownGet st.2 m with
          | none => simp [hmem, JSVal.truthy]
          | some v =>
            have := h2 (m, v) (ownGet_mem st.2 m v hget)
            simp only at this
            subst this
            rfl
        rw [htr] at hcond
        exact absurd hcond.2 (by simp)
    · exact ⟨h1, h2⟩
  · exact ⟨h1, h2⟩

theorem foldl_repStep_inv (lookups : List JSVal) (st : List JSString × Props)
    (h1 : ∀ n ∈ st.1, n ∉ objectPrototypeKeys) (h2 : ∀ kv ∈ st.2, kv.2 = JSVal.bool true) :
    ∀ n ∈ (lookups.foldl repStep st).1, n ∉ objectPrototypeKeys := by
  induction lookups generalizing st with
  | nil => exact h1
  | cons l t ih =>
    simp only [List.foldl_cons]
    exact ih _ (repStep_inv st l h1 h2).1 (repStep_inv st l h1 h2).2

/-- The test `!names[n]` of `getDealReps` also rejects every name that `names` inherits, so
no owner it returns is the name of a member of `Object.prototype`. -/
theorem getDealReps_not_inherited (d : Deal) : ∀ n ∈ getDealReps d, n ∉ objectPrototypeKeys := by
  unfold getDealReps
  exact foldl_repStep_inv _ _ (by simp) (by simp)

theorem dealOwners_not_inherited (d : Deal) : ∀ n ∈ dealOwners d, n ∉ objectPrototypeKeys := by
  unfold dealOwners
  split
  · intro n hn
    simp only [List.mem_singleton] at hn
    subst hn
    decide
  · exact getDealReps_not_inherited d

theorem dealOwners_length_pos (d : Deal) : 0 < (dealOwners d).length := by
  unfold dealOwners
  split
  · simp
  · omega

/-! ## Aggregation engine -/

theorem foldl_bump_num (reps : List JSString) (share : ℚ) (o : Props) (ho : AllNum o)
    (hr : ∀ n ∈ reps, n ∉ objectPrototypeKeys) :
    AllNum (reps.foldl (fun o rep => bump o rep share) o) ∧
      (numValues (reps.foldl (fun o rep => bump o rep share) o)).sum =
        (numValues o).sum + (reps.length : ℚ) * share := by
  induction reps generalizing o with
  | nil => simp [ho]
  | cons r t ih =>
    have hb := bump_num o r share ho (hr r (by simp))
    have ht := ih (bump o r share) hb.1 (fun n hn => hr n (List.mem_cons_of_mem _ hn))
    simp only [List.foldl_cons, List.length_cons]
    refine ⟨ht.1, ?_⟩
    rw [ht.2, hb.2]
    push_cast
    ring

theorem dealStep_inv (acc : Aggregate) (d : Deal) (h1 : AllNum acc.byRep)
    (h2 : (numValues acc.byRep).sum = acc.totalRevenue) :
    AllNum (dealStep acc d).byRep ∧
      (numValues (dealStep acc d).byRep).sum = (dealStep acc d).totalRevenue := by
  have h := foldl_bump_num (dealOwners d) (parseAmount d.Amount / ((dealOwners d).length : ℚ))
    acc.byRep h1 (dealOwners_not_inherited d)
  have hlen : ((dealOwners d).length : ℚ) ≠ 0 := by
    have := dealOwners_length_pos d
    positivity
  simp only [dealStep]
  refine ⟨h.1, ?_⟩
  rw [h.2, h2, mul_div_cancel₀ _ hlen]

theorem foldl_dealStep_inv (deals : List Deal) (acc : Aggregate) (h1 : AllNum acc.byRep)
    (h2 : (numValues acc.byRep).sum = acc.totalRevenue) :
    AllNum (deals.foldl dealStep acc).byRep ∧
      (numValues (deals.foldl dealStep acc).byRep).sum = (deals.foldl dealStep acc).totalRevenue := by
  induction deals generalizing acc with
  | nil => exact ⟨h1, h2⟩
  | cons d t ih =>
    simp only [List.foldl_cons]
    exact ih _ (dealStep_inv acc d h1 h2).1 (dealStep_inv acc d h1 h2).2

theorem foldl_dealStep_total (deals : List Deal) (acc : Aggregate) :
    (deals.foldl dealStep acc).totalRevenue =
      acc.totalRevenue + (deals.map (fun d => parseAmount d.Amount)).sum := by
  induction deals generalizing acc with
  | nil => simp
  | cons d t ih =>
    simp only [List.foldl_cons, List.map_cons, List.sum_cons]
    rw [ih]
    simp only [dealStep]
    ring

/-- Claim C1: for every list of deal records and every window, every value of `byRep`
returned by `processDeals` is a number and these values sum to `totalRevenue`, which is
the sum of the amounts of the counted deals; a deal is split over the owners found by
`getDealReps`, or over `Unknown` alone when none is found, in equal shares that sum to the
amount of the deal. -/
theorem processDeals_byRep_sum (deals : List Deal) (start end_ : JSString) :
    (processDeals deals start end_).byRep.map Prod.snd =
        (numValues (processDeals deals start end_).byRep).map JSVal.num ∧
      (numValues (processDeals deals start end_).byRep).sum =
        (processDeals deals start end_).totalRevenue ∧
      (processDeals deals start end_).totalRevenue =
        ((deals.filter (fun d => isNewCRMDeal d && dealCreatedInRange d start end_)).map
          (fun d => parseAmount d.Amount)).sum ∧
      ∀ d : Deal,
        dealOwners d = (if getDealReps d = [] then [lit "Unknown"] else getDealReps d) ∧
        ((dealOwners d).map
          (fun _ => parseAmount d.Amount / ((dealOwners d).length : ℚ))).sum =
            parseAmount d.Amount := by
  have h := foldl_dealStep_inv
    (deals.filter (fun d => isNewCRMDeal d && dealCreatedInRange d start end_))
    { totalRevenue := 0, count := 0, byRep := [], byMeetingId := [], byDay := [] }
    (by simp [AllNum]) (by simp [numValues])
  have ht := foldl_dealStep_total
    (deals.filter (fun d => isNewCRMDeal d && dealCreatedInRange d start end_))
    { totalRevenue := 0, count := 0, byRep := [], byMeetingId := [], byDay := [] }
  refine ⟨allNum_values _ h.1, h.2, ?_, ?_⟩
  · simp only [processDeals]
    rw [ht]
    simp
  · intro d
    constructor
    · unfold dealOwners
      simp [List.length_eq_zero]
    · have hlen : ((dealOwners d).length : ℚ) ≠ 0 := by
        have := dealOwners_length_pos d
        positivity
      simp only [List.map_const', List.sum_replicate, nsmul_eq_mul]
      exact mul_div_cancel₀ _ hlen

theorem isNewCRMDeal_eq_not_hasLegacyId (d : Deal) : isNewCRMDeal d = !hasLegacyId d := by
  unfold isNewCRMDeal hasLegacyId
  cases h : d.OLD_CRM_ID <;> simp
  rename_i s
  intro hs
  subst hs
  rfl

/-- Claim C2: for every list of deal records and every window, removing the deals whose
`OLD_CRM_ID` is present and not empty or whitespace-only leaves `totalRevenue`, `count`,
`byRep`, `byMeetingId` and `byDay` of `processDeals` unchanged. -/
theorem processDeals_ignores_legacy (deals : List Deal) (start end_ : JSString) :
    (processDeals (deals.filter (fun d => !hasLegacyId d)) start end_).totalRevenue =
        (processDeals deals start end_).totalRevenue ∧
      (processDeals (deals.filter (fun d => !hasLegacyId d)) start end_).count =
        (processDeals deals start end_).count ∧
      (processDeals (deals.filter (fun d => !hasLegacyId d)) start end_).byRep =
        (processDeals deals start end_).byRep ∧
      (processDeals (deals.filter (fun d => !hasLegacyId d)) start end_).byMeetingId =
        (processDeals deals start end_).byMeetingId ∧
      (processDeals (deals.filter (fun d => !hasLegacyId d)) start end_).byDay =
        (processDeals deals start end_).byDay := by
  have h : (deals.filter (fun d => !hasLegacyId d)).filter
        (fun d => isNewCRMDeal d && dealCreatedInRange d start end_) =
      deals.filter (fun d => isNewCRMDeal d && dealCreatedInRange d start end_) := by
    simp only [List.filter_filter]
    congr 1
    funext d
    rw [isNewCRMDeal_eq_not_hasLegacyId]
    cases hasLegacyId d <;> simp
  simp [processDeals, h]

theorem toDigitsCore_ne_nil (b f n : Nat) (ds : List Char) (h : ds ≠ []) :
    Nat.toDigitsCore b f n ds ≠ [] := by
  induction f generalizing n ds with
  | zero => simpa [Nat.toDigitsCore] using h
  | succ f ih =>
    simp only [Nat.toDigitsCore]
    split
    · simp
    · exact ih _ _ (by simp)

theorem natDigits_ne_nil (n : Nat) : natDigits n ≠ [] := by
  unfold natDigits Nat.toDigits
  simp only [Nat.toDigitsCore]
  split
  · simp
  · simpa using toDigitsCore_ne_nil _ _ _ _ (by simp)

theorem toStr_ne_nil (v : JSVal) (h : v.truthy = true) : v.toStr ≠ [] := by
  cases v with
  | undefined => simp [JSVal.truthy] at h
  | null => simp [JSVal.truthy] at h
  | bool b => cases b <;> simp [JSVal.truthy] at h; simp [JSVal.toStr]; decide
  | num q =>
    simp only [JSVal.toStr, numberToString]
    intro hq
    simp only [List.append_eq_nil] at hq
    exact natDigits_ne_nil _ hq.1.2
  | nan => simp [JSVal.truthy] at h
  | str s => simpa [JSVal.truthy, JSVal.toStr] using h
  | obj o => simp [JSVal.toStr]; decide
  | builtin k =>
    simp only [JSVal.toStr, builtinText]
    split
    · decide
    · intro hq
      simp only [List.append_eq_nil] at hq
      exact absurd hq.1.1 (by decide)

theorem matchDate_ne_nil (s m : JSString) (h : matchDate s = some m) : m ≠ [] := by
  induction s with
  | nil => simp [matchDate] at h
  | cons c t ih =>
    simp only [matchDate] at h
    split at h
    · simp at h
      subst h
      simp
    · exact ih h

/-- What `getDealCreatedDate` returns is `null` or a non-empty string, so the test `!dtStr`
of `dealCreatedInRange` only ever catches `null`. -/
theorem getDealCreatedDate_ne_nil (d : Deal) (c : JSString) (h : getDealCreatedDate d = some c) :
    c ≠ [] := by
  unfold getDealCreatedDate dateOfField at h
  split at h
  · simp at h
  · split at h
    · rename_i h1 h2
      simp at h
      subst h
      simp at h2
      exact toStr_ne_nil _ h2.2
    · rename_i h1 h2
      split at h
      · rename_i m hm
        simp at h
        subst h
        exact matchDate_ne_nil _ _ hm
      · simp at h
        subst h
        exact toStr_ne_nil _ (by simpa using h1)

theorem dealCreatedInRange_eq (d : Deal) (start end_ : JSString) :
    dealCreatedInRange d start end_ = createdInWindow d start end_ := by
  unfold dealCreatedInRange createdInWindow
  cases h : getDealCreatedDate d with
  | none => rfl
  | some c =>
    have := getDealCreatedDate_ne_nil d c h
    simp [this]

/-- Claim C3: for every list of deal records and window, `count` of `processDeals` is the
number of post-migration records whose creation date lies between `start` and `end`, both
included; and the close date, the alternate close date and the last-modified time of a
record never change whether it is counted. -/
theorem processDeals_count_window (deals : List Deal) (start end_ : JSString) :
    (processDeals deals start end_).count =
        (deals.filter (fun d => !hasLegacyId d && createdInWindow d start end_)).length ∧
      (∀ (d : Deal) (x y z : JSVal),
        (isNewCRMDeal { d with Close_Date := x, Closing_Date := y, Modified_Time := z } &&
          dealCreatedInRange { d with Close_Date := x, Closing_Date := y, Modified_Time := z }
            start end_) = (isNewCRMDeal d && dealCreatedInRange d start end_)) ∧
      ∀ x y z : Deal → JSVal,
        (processDeals
          (deals.map (fun d =>
            { d with Close_Date := x d, Closing_Date := y d, Modified_Time := z d }))
          start end_).count = (processDeals deals start end_).count := by
  refine ⟨?_, ?_, ?_⟩
  · simp only [processDeals]
    congr 2
    funext d
    rw [isNewCRMDeal_eq_not_hasLegacyId, dealCreatedInRange_eq]
  · intro d x y z
    rfl
  · intro x y z
    simp only [processDeals, List.filter_map, List.length_map]
    rfl

/-! ## Projection builder -/

/-- The state of the loop of `buildChartData` after the days `1..n`. -/
theorem chartLoop_run (r : ℚ) (byDay : List (Nat × ℚ)) (p n : Nat) :
    let fin := (List.range' 1 n).foldl (chartStep r byDay p)
      { labels := [], currentProjected := [], prevCumulative := [], prevCumul := 0 }
    fin.labels = (List.range' 1 n).map (fun d => lit "Day " ++ natDigits d) ∧
    fin.currentProjected = (List.range' 1 n).map (fun d : Nat => mathRound ((d : ℚ) * r)) ∧
    fin.prevCumulative =
      (List.range' 1 n).map
        (fun d : Nat => mathRound (cumulativeByDay byDay (prevDayLimit p) d)) ∧
    fin.prevCumul = cumulativeByDay byDay (prevDayLimit p) n := by
  induction n with
  | zero => simp [cumulativeByDay]
  | succ n ih =>
    obtain ⟨h1, h2, h3, h4⟩ := ih
    have hcum : (if 1 + n ≤ prevDayLimit p then
        cumulativeByDay byDay (prevDayLimit p) n + dayGet byDay (1 + n)
        else cumulativeByDay byDay (prevDayLimit p) n) =
        cumulativeByDay byDay (prevDayLimit p) (n + 1) := by
      unfold cumulativeByDay
      split
      · rename_i h
        rw [Nat.min_eq_left (by omega), Nat.min_eq_left (by omega), List.range'_1_concat]
        simp
      · rename_i h
        rw [Nat.min_eq_right (by omega), Nat.min_eq_right (by omega)]
    simp only [List.range'_1_concat, List.foldl_append, List.foldl_cons, List.foldl_nil,
      List.map_append, List.map_cons, List.map_nil]
    simp only [chartStep, h1, h2, h3, h4]
    simp only [prevDayLimit] at hcum ⊢
    rw [hcum, Nat.add_comm 1 n]
    simp

theorem getElem?_map_range' {α : Type} (f : Nat → α) (n i : Nat) :
    ((List.range' 1 n).map f)[i]? = if i < n then some (f (i + 1)) else none := by
  rw [List.getElem?_map]
  split
  · rename_i h
    rw [List.getElem?_eq_getElem (by simpa using h)]
    simp [Nat.add_comm]
  · rename_i h
    rw [List.getElem?_eq_none (by simpa using h)]
    rfl

theorem projected_eq (total : ℚ) (t d : Nat) :
    mathRound ((d : ℚ) * (if t > 0 then total / (t : ℚ) else 0)) = projectedAt total t d := by
  unfold projectedAt
  rcases Nat.eq_zero_or_pos t with h | h
  · subst h
    simp [mathRound]
    norm_num
  · have : t ≠ 0 := by omega
    simp only [h, this, if_true, if_false]
    congr 1
    ring

/-- Claim C4: for every current total, elapsed-day count and month length, `currentMonth`
of `buildChartData` has one entry per day `d = 1..daysInMonth`, the entry of day `d` being
`round(d / elapsedDays * currentTotal)` when `elapsedDays > 0` and 0 when `elapsedDays = 0`;
`currentProjected` is that value for `d = daysInMonth`, and a total of 120000 reached by
day 10 of a 30-day month gives 360000. -/
theorem buildChartData_currentMonth (dealsCurrent dealsPrev : Aggregate)
    (todayDay daysInMonth prevDaysInMonth : Nat) :
    (∀ i : Nat, (buildChartData dealsCurrent dealsPrev todayDay daysInMonth
        prevDaysInMonth).currentMonth[i]? =
      if i < daysInMonth then some (projectedAt dealsCurrent.totalRevenue todayDay (i + 1))
      else none) ∧
    (buildChartData dealsCurrent dealsPrev todayDay daysInMonth prevDaysInMonth).currentProjected =
      projectedAt dealsCurrent.totalRevenue todayDay daysInMonth ∧
    (buildChartData { dealsCurrent with totalRevenue := 120000 } dealsPrev 10 30
      prevDaysInMonth).currentProjected = 360000 := by
  refine ⟨?_, ?_, ?_⟩
  · intro i
    have h := (chartLoop_run (if todayDay > 0 then dealsCurrent.totalRevenue / (todayDay : ℚ) else 0)
      dealsPrev.byDay prevDaysInMonth daysInMonth).2.1
    simp only [buildChartData]
    rw [h, getElem?_map_range']
    simp only [projected_eq]
  · simp only [buildChartData]
    exact projected_eq _ _ _
  · simp only [buildChartData, mathRound]
    norm_num

/-- Claim C5, counterexample: with the single bucket `{1: 1000.5}` over a 28-day previous
month, the first entry of `previousMonth` is 1001 while the running cumulative sum for day
1 is 1000.5: the series does not hold the cumulative sum itself. -/
theorem buildChartData_previousMonth_not_plain_sum :
    (buildChartData { totalRevenue := 0, count := 0, byRep := [], byMeetingId := [], byDay := [] }
        { totalRevenue := 2001 / 2, count := 1,
          byRep := [(lit "Unknown", JSVal.num (2001 / 2))],
          byMeetingId := [], byDay := [(1, 2001 / 2)] } 1 30 28).previousMonth[0]? = some 1001 ∧
      cumulativeByDay [(1, 2001 / 2)] 28 1 = 2001 / 2 ∧
      ¬ ((buildChartData
          { totalRevenue := 0, count := 0, byRep := [], byMeetingId := [], byDay := [] }
          { totalRevenue := 2001 / 2, count := 1,
            byRep := [(lit "Unknown", JSVal.num (2001 / 2))],
            byMeetingId := [], byDay := [(1, 2001 / 2)] } 1 30 28).previousMonth[0]?.map
        (fun v : Int => (v : ℚ)) = some (cumulativeByDay [(1, 2001 / 2)] 28 1)) := by
  refine ⟨?_, ?_, ?_⟩
  · simp only [buildChartData]
    norm_num [List.range', chartStep, dayGet, mathRound]
  · norm_num [List.range', dayGet, cumulativeByDay]
  · simp only [buildChartData]
    norm_num [List.range', chartStep, dayGet, mathRound, cumulativeByDay]

/-- Claim C5, amended: for every previous-period aggregate, `previousMonth` of
`buildChartData` has one entry per day `d = 1..daysInMonth`, the entry of day `d` being the
rounded (`Math.round`) running cumulative sum of the previous month's `byDay` buckets of
the days `1..d`, the sum no longer growing after the previous month's day count (31 when
that count is given as 0); with buckets `{1: 1000, 3: 2000}` over a 28-day previous month
the series is 1000, 1000, then 3000 for every later day. -/
theorem buildChartData_previousMonth (dealsCurrent dealsPrev : Aggregate)
    (todayDay daysInMonth prevDaysInMonth : Nat) :
    (∀ i : Nat, (buildChartData dealsCurrent dealsPrev todayDay daysInMonth
        prevDaysInMonth).previousMonth[i]? =
      if i < daysInMonth then
        some (mathRound (cumulativeByDay dealsPrev.byDay (prevDayLimit prevDaysInMonth) (i + 1)))
      else none) ∧
    (buildChartData dealsCurrent { dealsPrev with byDay := [(1, 1000), (3, 2000)] } todayDay 31
      28).previousMonth = 1000 :: 1000 :: List.replicate 29 3000 := by
  refine ⟨?_, ?_⟩
  · intro i
    have h := (chartLoop_run (if todayDay > 0 then dealsCurrent.totalRevenue / (todayDay : ℚ) else 0)
      dealsPrev.byDay prevDaysInMonth daysInMonth).2.2.1
    simp only [buildChartData]
    rw [h, getElem?_map_range']
  · have h := (chartLoop_run (if todayDay > 0 then dealsCurrent.totalRevenue / (todayDay : ℚ) else 0)
      [(1, 1000), (3, 2000)] 28 31).2.2.1
    simp only [buildChartData]
    rw [h]
    norm_num [List.range', cumulativeByDay, prevDayLimit, dayGet, mathRound, List.replicate]

/-! ## Leaderboard builder -/

theorem topFive_pos (m : List (JSString × ℚ)) (kv : JSString × ℚ) (h : kv ∈ topFive m) :
    0 < kv.2 := by
  have h1 : kv ∈ sortByRevenue (m.filter (fun kv => 0 < kv.2)) := List.mem_of_mem_take h
  have h2 : kv ∈ m.filter (fun kv => 0 < kv.2) :=
    (List.perm_insertionSort revGe _).mem_iff.mp h1
  simpa using (List.mem_filter.mp h2).2

theorem topFive_sorted (m : List (JSString × ℚ)) : (topFive m).Pairwise revGe :=
  List.Pairwise.sublist (List.take_sublist _ _) (List.sorted_insertionSort revGe _)

theorem topFive_length (m : List (JSString × ℚ)) : (topFive m).length ≤ 5 := by
  simp [topFive, List.length_take]

theorem topFive_ne_nil (m : List (JSString × ℚ)) (h : ∃ kv ∈ m, 0 < kv.2) : topFive m ≠ [] := by
  obtain ⟨kv, hm, hpos⟩ := h
  have h1 : kv ∈ m.filter (fun kv => 0 < kv.2) := List.mem_filter.mpr ⟨hm, by simpa using hpos⟩
  have h2 : kv ∈ sortByRevenue (m.filter (fun kv => 0 < kv.2)) :=
    (List.perm_insertionSort revGe _).mem_iff.mpr h1
  intro hnil
  unfold topFive at hnil
  rw [List.take_eq_nil_iff] at hnil
  rcases hnil with h5 | h5
  · omega
  · rw [h5] at h2
    simp at h2

/-- The revenues on the leaderboard, in rank order, are those of `topFive`. -/
theorem leaderboard_revenues (m : List (JSString × ℚ)) :
    (leaderboard m).map (fun e => e.revenue) = (topFive m).map Prod.snd := by
  simp only [leaderboard, rankTop, List.map_map]
  rw [← List.enum_map_snd (topFive m), List.map_map]
  rfl

theorem leaderboard_length_eq (m : List (JSString × ℚ)) :
    (leaderboard m).length = (topFive m).length := by
  simpa using congrArg List.length (leaderboard_revenues m)

theorem maxRev_rankTop (m : List (JSString × ℚ)) :
    maxRev (rankTop m) = match (topFive m).head? with | some kv => kv.2 | none => 1 := by
  have h : rankTop m = (topFive m).enum.map
      (fun ie => { rank := ie.1 + 1, name := ie.2.1, revenue := ie.2.2, pct := 100 }) := rfl
  rw [h]
  unfold maxRev
  cases topFive m with
  | nil => rfl
  | cons a t => simp [List.enum_cons]

theorem leaderboard_pct (m : List (JSString × ℚ)) (e : LeaderEntry) (h : e ∈ leaderboard m) :
    e.pct = mathRound (e.revenue / maxRev (rankTop m) * 100) := by
  simp only [leaderboard, List.mem_map] at h
  obtain ⟨r, _, rfl⟩ := h
  rfl

theorem leaderboard_revenue_pos (m : List (JSString × ℚ)) (e : LeaderEntry)
    (he : e ∈ leaderboard m) : 0 < e.revenue := by
  have h1 : e.revenue ∈ (leaderboard m).map (fun e => e.revenue) := List.mem_map_of_mem _ he
  rw [leaderboard_revenues, List.mem_map] at h1
  obtain ⟨kv, hkv, hrev⟩ := h1
  rw [← hrev]
  exact topFive_pos _ _ hkv

theorem leaderboard_pairwise (m : List (JSString × ℚ)) :
    (leaderboard m).Pairwise (fun a b => b.revenue ≤ a.revenue) := by
  have h2 : ((topFive m).map Prod.snd).Pairwise (fun x y => y ≤ x) :=
    List.pairwise_map.mpr (topFive_sorted m)
  rw [← leaderboard_revenues] at h2
  exact List.pairwise_map.mp h2

theorem leaderboard_eval_two :
    leaderboard [(lit "A", 100), (lit "B", 100)] =
      [{ rank := 1, name := lit "A", revenue := 100, pct := 100 },
       { rank := 2, name := lit "B", revenue := 100, pct := 100 }] := by
  norm_num [leaderboard, rankTop, maxRev, sortByRevenue, revGe, mathRound, List.enum, List.enumFrom]

theorem mathRound_pct_bounds (x : ℚ) (h0 : 0 < x) (h1 : x ≤ 1) :
    0 ≤ mathRound (x * 100) ∧ mathRound (x * 100) ≤ 100 := by
  unfold mathRound
  constructor
  · apply Int.floor_nonneg.mpr
    positivity
  · have : ⌊x * 100 + 1 / 2⌋ < 101 := by
      apply Int.floor_lt.mpr
      push_cast
      linarith
    omega

/-- Claim C6: for every revenue-by-owner mapping, the leaderboard built in `loadAll` has at
most 5 entries and every entry has revenue greater than 0. -/
theorem leaderboard_at_most_five_positive (repRevenue : List (JSString × ℚ)) :
    (leaderboard repRevenue).length ≤ 5 ∧ ∀ e ∈ leaderboard repRevenue, 0 < e.revenue :=
  ⟨by rw [leaderboard_length_eq]; exact topFive_length _, leaderboard_revenue_pos repRevenue⟩

/-- Claim C6, witness: on the mapping `{A: 100, B: 100}` the leaderboard has at most five
entries, `A` is on it, and its revenue is positive. -/
theorem leaderboard_at_most_five_positive_witness :
    (leaderboard [(lit "A", 100), (lit "B", 100)]).length ≤ 5 ∧
      ({ rank := 1, name := lit "A", revenue := 100, pct := 100 } : LeaderEntry) ∈
        leaderboard [(lit "A", 100), (lit "B", 100)] ∧
      (0 : ℚ) < ({ rank := 1, name := lit "A", revenue := 100, pct := 100 } : LeaderEntry).revenue :=
  ⟨(leaderboard_at_most_five_positive _).1, by rw [leaderboard_eval_two]; simp,
    (leaderboard_at_most_five_positive _).2 _ (by rw [leaderboard_eval_two]; simp)⟩

/-- Claim C7, counterexample: on the mapping `{A: 100, B: 100}` the leaderboard lists `A`
then `B` with equal revenue, so it is not strictly descending. -/
theorem leaderboard_tie_not_strict :
    ¬ (leaderboard [(lit "A", 100), (lit "B", 100)]).Chain'
      (fun a b => b.revenue < a.revenue) := by
  norm_num [leaderboard, rankTop, maxRev, sortByRevenue, revGe, mathRound, List.enum, List.enumFrom]

/-- Claim C7, amended: for every revenue-by-owner mapping, the leaderboard built in
`loadAll` is sorted descending by revenue: the revenue of an entry is greater than or equal
to the revenue of every entry ranked after it (owners with equal revenue may follow one
another). -/
theorem leaderboard_sorted_descending (repRevenue : List (JSString × ℚ)) :
    (leaderboard repRevenue).Pairwise (fun a b => b.revenue ≤ a.revenue) :=
  leaderboard_pairwise repRevenue

/-- Claim C8: for every revenue-by-owner mapping with at least one positive entry, the
leaderboard has a first entry, whose `pct` is exactly 100, and the `pct` of every entry is
`round(revenue / topRevenue * 100)`, an integer between 0 and 100. -/
theorem leaderboard_pct_of_leader (repRevenue : List (JSString × ℚ))
    (h : ∃ kv ∈ repRevenue, 0 < kv.2) :
    ∃ top rest, leaderboard repRevenue = top :: rest ∧ top.pct = 100 ∧
      ∀ e ∈ leaderboard repRevenue,
        e.pct = mathRound (e.revenue / top.revenue * 100) ∧ 0 ≤ e.pct ∧ e.pct ≤ 100 := by
  have hne := topFive_ne_nil repRevenue h
  have hrev := leaderboard_revenues repRevenue
  have hmax := maxRev_rankTop repRevenue
  have hsorted := leaderboard_pairwise repRevenue
  have hpos := leaderboard_revenue_pos repRevenue
  cases hl : leaderboard repRevenue with
  | nil =>
    rw [hl] at hrev
    simp at hrev
    exact absurd hrev hne
  | cons top rest =>
    rw [hl] at hrev hsorted hpos
    have htop : maxRev (rankTop repRevenue) = top.revenue := by
      rw [hmax]
      cases ht : topFive repRevenue with
      | nil => exact absurd ht hne
      | cons a t =>
        rw [ht] at hrev
        simp at hrev
        simpa using hrev.1.symm
    have hpct : ∀ e ∈ top :: rest, e.pct = mathRound (e.revenue / top.revenue * 100) := by
      intro e he
      rw [← htop]
      exact leaderboard_pct repRevenue e (by rw [hl]; exact he)
    have htoppos : 0 < top.revenue := hpos top (by simp)
    have hle : ∀ e ∈ top :: rest, e.revenue ≤ top.revenue := by
      intro e he
      rcases List.mem_cons.mp he with rfl | he
      · exact le_refl _
      · exact List.rel_of_pairwise_cons hsorted he
    refine ⟨top, rest, rfl, ?_, ?_⟩
    · rw [hpct top (by simp), div_self (ne_of_gt htoppos)]
      norm_num [mathRound]
    · intro e he
      refine ⟨hpct e he, ?_⟩
      rw [hpct e he]
      refine mathRound_pct_bounds _ (div_pos (hpos e he) htoppos) ?_
      exact (div_le_one htoppos).mpr (hle e he)

/-- Claim C8, witness: the mapping `{A: 200, B: 50}` has a positive entry, and its
leaderboard has the stated percentages. -/
theorem leaderboard_pct_of_leader_witness :
    (∃ kv ∈ [(lit "A", (200 : ℚ)), (lit "B", 50)], 0 < kv.2) ∧
      ∃ top rest, leaderboard [(lit "A", (200 : ℚ)), (lit "B", 50)] = top :: rest ∧
        top.pct = 100 ∧
        ∀ e ∈ leaderboard [(lit "A", (200 : ℚ)), (lit "B", 50)],
          e.pct = mathRound (e.revenue / top.revenue * 100) ∧ 0 ≤ e.pct ∧ e.pct ≤ 100 :=
  ⟨⟨(lit "A", 200), by simp, by norm_num⟩,
    leaderboard_pct_of_leader _ ⟨(lit "A", 200), by simp, by norm_num⟩⟩

/-! ## Status funnel classifier -/

theorem stage_table_values (kv : JSString × JSVal) (h : kv ∈ STAGE_TO_STATUS) :
    ∃ s ∈ canonicalStatuses, kv.2 = JSVal.str s := by
  simp only [STAGE_TO_STATUS, List.mem_cons, List.mem_singleton, List.not_mem_nil, or_false] at h
  rcases h with h | h | h | h | h | h | h | h | h | h | h | h | h | h | h | h <;>
    subst h <;> exact ⟨_, by decide, rfl⟩

/-- A stage label that names no member of `Object.prototype` is mapped to one of the five
canonical statuses. -/
theorem mapStageToStatus_canonical (stage : JSString) (h : stage ∉ objectPrototypeKeys) :
    (mapStageToStatus stage).toStr ∈ canonicalStatuses := by
  unfold mapStageToStatus getProp
  cases hget : ownGet STAGE_TO_STATUS stage with
  | none =>
    simp only [h, if_false, jsOr, JSVal.truthy, Bool.false_eq_true, JSVal.toStr]
    decide
  | some v =>
    obtain ⟨s, hs, hv⟩ := stage_table_values _ (ownGet_mem _ _ _ hget)
    simp only at hv
    subst hv
    have hne : s ≠ [] := by
      intro h0
      subst h0
      exact absurd hs (by decide)
    have : (JSVal.str s).truthy = true := by
      cases s with
      | nil => exact absurd rfl hne
      | cons a t => rfl
    simp only [jsOr, this, if_true, JSVal.toStr]
    exact hs

theorem statusStep_total (byStage : List (JSString × Nat)) (stage : JSString)
    (h : stage ∉ objectPrototypeKeys) (a b c d e : ℚ) :
    ∃ a1 b1 c1 d1 e1 : ℚ,
      statusStep byStage (statusesOf a b c d e) stage = statusesOf a1 b1 c1 d1 e1 ∧
      a1 + b1 + c1 + d1 + e1 = a + b + c + d + e + (stageCount byStage stage : ℚ) := by
  have hk := mapStageToStatus_canonical stage h
  simp only [canonicalStatuses, List.mem_cons, List.mem_singleton, List.not_mem_nil,
    or_false] at hk
  rcases hk with hk | hk | hk | hk | hk
  · refine ⟨a + stageCount byStage stage, b, c, d, e, ?_, by ring⟩
    simp only [statusStep, hk]
    rfl
  · refine ⟨a, b + stageCount byStage stage, c, d, e, ?_, by ring⟩
    simp only [statusStep, hk]
    rfl
  · refine ⟨a, b, c + stageCount byStage stage, d, e, ?_, by ring⟩
    simp only [statusStep, hk]
    rfl
  · refine ⟨a, b, c, d + stageCount byStage stage, e, ?_, by ring⟩
    simp only [statusStep, hk]
    rfl
  · refine ⟨a, b, c, d, e + stageCount byStage stage, ?_, by ring⟩
    simp only [statusStep, hk]
    rfl

theorem statusTotal_statusesOf (a b c d e : ℚ) :
    statusTotal (statusesOf a b c d e) = a + b + c + d + e := by
  have h1 : countOf (statusesOf a b c d e) (lit "Closed") = a := rfl
  have h2 : countOf (statusesOf a b c d e) (lit "Contacted") = b := rfl
  have h3 : countOf (statusesOf a b c d e) (lit "Cancelled") = c := rfl
  have h4 : countOf (statusesOf a b c d e) (lit "No Show") = d := rfl
  have h5 : countOf (statusesOf a b c d e) (lit "Initially") = e := rfl
  simp only [statusTotal, h1, h2, h3, h4, h5]

theorem foldl_statusStep_total (byStage : List (JSString × Nat)) (ks : List JSString)
    (hk : ∀ k ∈ ks, k ∉ objectPrototypeKeys) (a b c d e : ℚ) :
    ∃ a1 b1 c1 d1 e1 : ℚ,
      ks.foldl (statusStep byStage) (statusesOf a b c d e) = statusesOf a1 b1 c1 d1 e1 ∧
      a1 + b1 + c1 + d1 + e1 =
        a + b + c + d + e + (((ks.map (stageCount byStage)).sum : Nat) : ℚ) := by
  induction ks generalizing a b c d e with
  | nil => exact ⟨a, b, c, d, e, rfl, by simp⟩
  | cons k t ih =>
    obtain ⟨a1, b1, c1, d1, e1, h1, hs1⟩ := statusStep_total byStage k (hk k (by simp)) a b c d e
    obtain ⟨a2, b2, c2, d2, e2, h2, hs2⟩ :=
      ih (fun k hk1 => hk k (List.mem_cons_of_mem _ hk1)) a1 b1 c1 d1 e1
    refine ⟨a2, b2, c2, d2, e2, ?_, ?_⟩
    · simp only [List.foldl_cons, h1, h2]
    · rw [hs2, hs1]
      simp only [List.map_cons, List.sum_cons]
      push_cast
      ring

theorem stageCount_keys_sum (byStage : List (JSString × Nat))
    (hnd : (byStage.map Prod.fst).Nodup) :
    ((byStage.map Prod.fst).map (stageCount byStage)).sum = (byStage.map Prod.snd).sum := by
  induction byStage with
  | nil => rfl
  | cons kv t ih =>
    simp only [List.map_cons, List.nodup_cons] at hnd
    have hhead : stageCount (kv :: t) kv.1 = kv.2 := by simp [stageCount]
    have htail : (t.map Prod.fst).map (stageCount (kv :: t)) =
        (t.map Prod.fst).map (stageCount t) := by
      apply List.map_congr_left
      intro k hk
      have hne : kv.1 ≠ k := fun h => hnd.1 (h ▸ hk)
      simp [stageCount, List.find?_cons, hne]
    simp only [List.map_cons, List.sum_cons, hhead, htail, ih hnd.2]

/-- On a mapping whose stage labels are distinct and name no member of `Object.prototype`,
the five counts of `aggregateStatusCounts` sum to the sum of all counts of `byStage`. -/
theorem aggregateStatusCounts_total_of_plain_stages (byStage : List (JSString × Nat))
    (hnd : (byStage.map Prod.fst).Nodup)
    (hk : ∀ kv ∈ byStage, kv.1 ∉ objectPrototypeKeys) :
    statusTotal (aggregateStatusCounts byStage) = (((byStage.map Prod.snd).sum : Nat) : ℚ) := by
  have hk1 : ∀ k ∈ byStage.map Prod.fst, k ∉ objectPrototypeKeys := by
    intro k hmem
    obtain ⟨kv, hkv, rfl⟩ := List.mem_map.mp hmem
    exact hk kv hkv
  obtain ⟨a, b, c, d, e, h, hs⟩ :=
    foldl_statusStep_total byStage (byStage.map Prod.fst) hk1 0 0 0 0 0
  have hinit : initialStatuses = statusesOf 0 0 0 0 0 := rfl
  unfold aggregateStatusCounts
  rw [hinit, h, statusTotal_statusesOf, hs, stageCount_keys_sum byStage hnd]
  simp

theorem aggregateStatusCounts_toString :
    aggregateStatusCounts [(lit "toString", 3)] = initialStatuses := by
  rfl

theorem statusTotal_initial : statusTotal initialStatuses = 0 := by
  have h := statusTotal_statusesOf 0 0 0 0 0
  have hinit : initialStatuses = statusesOf 0 0 0 0 0 := rfl
  rw [hinit, h]
  norm_num

/-- Claim C9, the code at the failing input: for the mapping `{toString: 3}` the read
`STAGE_TO_STATUS['toString']` yields the inherited function, not a status, so nothing is
added and the five counts of `aggregateStatusCounts` sum to 0, while the counts of
`byStage` sum to 3. -/
theorem aggregateStatusCounts_drops_inherited_name :
    statusTotal (aggregateStatusCounts [(lit "toString", 3)]) = 0 ∧
      (([(lit "toString", 3)] : List (JSString × Nat)).map Prod.snd).sum = 3 := by
  constructor
  · rw [aggregateStatusCounts_toString, statusTotal_initial]
  · rfl

/-! ## Schema-fallback query chain -/

/-- A run of `coqlPaginated` only adds calls of its own select query to the record. -/
theorem coqlLoop_calls {σ ρ : Type} (api : Backend σ ρ) (selectQuery : JSString) (pageSize : Nat)
    (fuel : Nat) (all : List ρ) (offset : Nat) (w : World σ)
    (r : Except JSString (List ρ)) (w1 : World σ)
    (h : coqlLoop api selectQuery pageSize fuel all offset w = some (r, w1)) :
    ∃ extra, w1.calls = w.calls ++ extra ∧ ∀ c ∈ extra, c.1 = selectQuery := by
  induction fuel generalizing all offset w with
  | zero => simp [coqlLoop] at h
  | succ fuel ih =>
    simp only [coqlLoop] at h
    split at h
    · simp only [Option.some.injEq, Prod.mk.injEq] at h
      refine ⟨[(selectQuery, offset)], ?_, by simp⟩
      rw [← h.2]
    · split at h
      · split at h
        · obtain ⟨extra, he, hall⟩ := ih _ _ _ h
          refine ⟨(selectQuery, offset) :: extra, ?_, ?_⟩
          · rw [he]
            simp
          · intro c hc
            rcases List.mem_cons.mp hc with rfl | hc
            · rfl
            · exact hall c hc
        · simp only [Option.some.injEq, Prod.mk.injEq] at h
          refine ⟨[(selectQuery, offset)], ?_, by simp⟩
          rw [← h.2]
      · simp only [Option.some.injEq, Prod.mk.injEq] at h
        refine ⟨[(selectQuery, offset)], ?_, by simp⟩
        rw [← h.2]

theorem tryQueries_first_success {σ : Type} (api : Backend σ Deal) (fuel : Nat)
    (qs : List JSString) (ws : Nat → World σ) (i : Nat) (q : JSString) (data : List Deal)
    (hq : qs[i]? = some q)
    (hfail : ∀ j, j < i → ∀ qj, qs[j]? = some qj →
      ∃ e, coqlPaginated api qj 200 fuel (ws j) = some (Except.error e, ws (j + 1)))
    (hok : coqlPaginated api q 200 fuel (ws i) = some (Except.ok data, ws (i + 1))) :
    tryQueries api fuel qs (ws 0) = some (data, ws (i + 1)) := by
  induction qs generalizing i ws with
  | nil => simp at hq
  | cons q0 qs ih =>
    cases i with
    | zero =>
      simp only [List.getElem?_cons_zero, Option.some.injEq] at hq
      subst hq
      simp only [tryQueries, hok]
    | succ i =>
      obtain ⟨e, he⟩ := hfail 0 (by omega) q0 (by simp)
      simp only [tryQueries, he]
      simp only [List.getElem?_cons_succ] at hq
      exact ih (fun n => ws (n + 1)) i hq
        (fun j hj qj hqj => hfail (j + 1) (by omega) qj (by simpa using hqj)) hok

theorem calls_of_variants {σ : Type} (api : Backend σ Deal) (fuel : Nat)
    (qs : List JSString) (ws : Nat → World σ) (n : Nat)
    (hrun : ∀ j, j < n → ∃ qj r, qs[j]? = some qj ∧
      coqlPaginated api qj 200 fuel (ws j) = some (r, ws (j + 1))) :
    ∀ c ∈ (ws n).calls, c ∈ (ws 0).calls ∨ c.1 ∈ qs.take n := by
  induction n with
  | zero => intro c hc; exact Or.inl hc
  | succ n ih =>
    intro c hc
    obtain ⟨qj, r, hqj, hr⟩ := hrun n (by omega)
    obtain ⟨extra, he, hall⟩ := coqlLoop_calls api qj 200 fuel [] 0 (ws n) r (ws (n + 1)) hr
    rw [he] at hc
    have hmem : qj ∈ qs.take (n + 1) := by
      rw [List.mem_take_iff_getElem]
      obtain ⟨hlt, hget⟩ := List.getElem?_eq_some_iff.mp hqj
      exact ⟨n, by omega, hget⟩
    rcases List.mem_append.mp hc with hc | hc
    · rcases ih (fun j hj => hrun j (by omega)) c hc with h | h
      · exact Or.inl h
      · right
        obtain ⟨k, hk, hkeq⟩ := List.mem_take_iff_getElem.mp h
        exact List.mem_take_iff_getElem.mpr ⟨k, by omega, hkeq⟩
    · right
      rw [hall c hc]
      exact hmem

theorem queries_nodup : queries.Nodup := by decide

/-- Claim C10: whatever the query capability does, when the variants before variant `i` of
`fetchDealsAll` each end in an error and variant `i` ends without one, `fetchDealsAll`
returns the records of variant `i` (also when there are none) in the world that variant
leaves, and no later variant is ever executed: a call of a later variant found in the
record of calls was there before `fetchDealsAll` started. -/
theorem fetchDealsAll_first_success {σ : Type} (api : Backend σ Deal) (fuel : Nat)
    (ws : Nat → World σ) (i : Nat) (q : JSString) (data : List Deal)
    (hq : queries[i]? = some q)
    (hfail : ∀ j, j < i → ∀ qj, queries[j]? = some qj →
      ∃ e, coqlPaginated api qj 200 fuel (ws j) = some (Except.error e, ws (j + 1)))
    (hok : coqlPaginated api q 200 fuel (ws i) = some (Except.ok data, ws (i + 1))) :
    fetchDealsAll true api fuel (ws 0) = some (data, ws (i + 1)) ∧
      ∀ k, i < k → ∀ qk, queries[k]? = some qk →
        ∀ c ∈ (ws (i + 1)).calls, c.1 = qk → c ∈ (ws 0).calls := by
  constructor
  · simp only [fetchDealsAll, Bool.not_true, Bool.false_eq_true, if_false]
    exact tryQueries_first_success api fuel queries ws i q data hq hfail hok
  · intro k hk qk hqk c hc hcq
    have hrun : ∀ j, j < i + 1 → ∃ qj r, queries[j]? = some qj ∧
        coqlPaginated api qj 200 fuel (ws j) = some (r, ws (j + 1)) := by
      intro j hj
      rcases Nat.lt_succ_iff_lt_or_eq.mp hj with hlt | heq
      · obtain ⟨hi, _⟩ := List.getElem?_eq_some_iff.mp hq
        have hjlen : j < queries.length := by omega
        obtain ⟨e, he⟩ := hfail j hlt queries[j] (List.getElem?_eq_getElem hjlen)
        exact ⟨queries[j], Except.error e, List.getElem?_eq_getElem hjlen, he⟩
      · subst heq
        exact ⟨q, Except.ok data, hq, hok⟩
    rcases calls_of_variants api fuel queries ws (i + 1) hrun c hc with h | h
    · exact h
    · exfalso
      obtain ⟨m, hm, hmeq⟩ := List.mem_take_iff_getElem.mp h
      obtain ⟨hklen, hkeq⟩ := List.getElem?_eq_some_iff.mp hqk
      have hmlen : m < queries.length := by omega
      have : queries[m] = queries[k] := by rw [hmeq, hcq, hkeq]
      have hmk := (List.Nodup.getElem_inj_iff queries_nodup).mp this
      omega

/-- Claim C10, witness: when variant 1 throws and variant 2 succeeds with 0 rows, the
result is the empty result of variant 2, after two calls, and variant 3 or any later
variant is not attempted. -/
theorem fetchDealsAll_first_success_witness :
    fetchDealsAll true failsOnce 3 (failsOnceWorlds 0) = some ([], failsOnceWorlds 2) ∧
      ∀ k, 1 < k → ∀ qk, queries[k]? = some qk →
        ∀ c ∈ (failsOnceWorlds 2).calls, c.1 = qk → c ∈ (failsOnceWorlds 0).calls :=
  fetchDealsAll_first_success failsOnce 3 failsOnceWorlds 1
    (lit "select id,Amount,Deal_Name,Stage,Sales_Rep,Sales_Rep_2,Trainee,Close_Date,Created_Time,Modified_Time,Events,OLD_CRM_ID from Deals where Events is not null")
    [] rfl
    (fun j hj qj hqj => by
      have hj0 : j = 0 := by omega
      subst hj0
      simp only [queries, List.getElem?_cons_zero, Option.some.injEq] at hqj
      subst hqj
      exact ⟨lit "invalid field", rfl⟩)
    rfl

/-! ## Paginated fetcher -/

/-- A run of `coqlPaginated` that returns starts by requesting the page at its offset. -/
theorem coqlLoop_first_call {σ ρ : Type} (api : Backend σ ρ) (sq : JSString) (pageSize : Nat)
    (fuel : Nat) (all : List ρ) (offset : Nat) (w : World σ)
    (r : Except JSString (List ρ)) (w1 : World σ)
    (h : coqlLoop api sq pageSize fuel all offset w = some (r, w1)) :
    ∃ rest, w1.calls = w.calls ++ (sq, offset) :: rest := by
  cases fuel with
  | zero => simp [coqlLoop] at h
  | succ fuel =>
    simp only [coqlLoop] at h
    split at h
    · simp only [Option.some.injEq, Prod.mk.injEq] at h
      exact ⟨[], by rw [← h.2]⟩
    · split at h
      · split at h
        · obtain ⟨extra, he, _⟩ := coqlLoop_calls api sq pageSize fuel _ _ _ r w1 h
          exact ⟨extra, by rw [he]; simp⟩
        · simp only [Option.some.injEq, Prod.mk.injEq] at h
          exact ⟨[], by rw [← h.2]⟩
      · simp only [Option.some.injEq, Prod.mk.injEq] at h
        exact ⟨[], by rw [← h.2]⟩

/-- After an empty page, or a page that neither reports more records nor has exactly
`pageSize` records, the loop ends with that page. -/
theorem coqlLoop_stop {σ ρ : Type} (api : Backend σ ρ) (sq : JSString) (pageSize fuel : Nat)
    (all : List ρ) (offset : Nat) (w : World σ) (resp : Option (CoqlResponse ρ)) (s1 : σ)
    (h : api w.st (pageQuery sq offset pageSize) = (Except.ok resp, s1))
    (hstop : pageData resp = [] ∨
      (pageFlag resp = false ∧ (pageData resp).length ≠ pageSize)) :
    coqlLoop api sq pageSize (fuel + 1) all offset w =
      some (Except.ok (all ++ pageData resp), { st := s1, calls := w.calls ++ [(sq, offset)] }) := by
  unfold pageQuery at h
  simp only [coqlLoop, h]
  cases hd : resp.bind (fun r => r.data) with
  | none => simp [pageData, hd]
  | some l =>
    cases l with
    | nil => simp [pageData, hd]
    | cons x xs =>
      have hpd : pageData resp = x :: xs := by simp [pageData, hd]
      rw [hpd] at hstop
      rcases hstop with h0 | ⟨hf, hl⟩
      · simp at h0
      · simp only [pageFlag] at hf
        have hl2 : ¬ (xs.length + 1 = pageSize) := by simpa using hl
        simp [hf, hl2, hpd]

/-- After a non-empty page that reports more records or has exactly `pageSize` records, the
loop goes on with the next offset. -/
theorem coqlLoop_continue {σ ρ : Type} (api : Backend σ ρ) (sq : JSString) (pageSize fuel : Nat)
    (all : List ρ) (offset : Nat) (w : World σ) (resp : Option (CoqlResponse ρ)) (s1 : σ)
    (h : api w.st (pageQuery sq offset pageSize) = (Except.ok resp, s1))
    (hne : pageData resp ≠ [])
    (hmore : pageFlag resp = true ∨ (pageData resp).length = pageSize) :
    coqlLoop api sq pageSize (fuel + 1) all offset w =
      coqlLoop api sq pageSize fuel (all ++ pageData resp) (offset + pageSize)
        { st := s1, calls := w.calls ++ [(sq, offset)] } := by
  unfold pageQuery at h
  simp only [coqlLoop, h]
  cases hd : resp.bind (fun r => r.data) with
  | none => simp [pageData, hd] at hne
  | some l =>
    cases l with
    | nil => simp [pageData, hd] at hne
    | cons x xs =>
      have hpd : pageData resp = x :: xs := by simp [pageData, hd]
      rw [hpd] at hmore
      simp only [pageFlag] at hmore
      have hc : (resp.any (fun r => r.more_records) || decide ((x :: xs).length = pageSize)) = true := by
        rcases hmore with hf | hl
        · simp [hf]
        · simp [hl]
      simp only [hc, if_true, hpd]

/-- Claim C11, counterexample: with page size 200, a first page of one record that reports
more records is followed by a request at offset 200; and with page size 2, a first page of
two records that reports no more records is followed by a request at offset 2. Neither
signal stops the loop on its own. -/
theorem coqlPaginated_one_signal_does_not_stop :
    coqlPaginated shortButMore (lit "select id from Leads") 200 5 { st := 0, calls := [] } =
        some (Except.ok [7],
          { st := 2, calls := [(lit "select id from Leads", 0), (lit "select id from Leads", 200)] }) ∧
      coqlPaginated fullNoMore (lit "select id from Leads") 2 5 { st := 0, calls := [] } =
        some (Except.ok [7, 8],
          { st := 2, calls := [(lit "select id from Leads", 0), (lit "select id from Leads", 2)] }) :=
  ⟨rfl, rfl⟩

/-- Claim C11, amended: for every backend and page size, `coqlPaginated` requests no
further page after an empty page, nor after a page that both does not report
`more_records === true` and holds a number of records different from the page size (the
two signals together); after a non-empty page that reports more records or holds exactly
`pageSize` records it goes on, and its next request is the page at `offset + pageSize`. -/
theorem coqlPaginated_stops_on_both_signals {σ ρ : Type} (api : Backend σ ρ) (sq : JSString)
    (pageSize fuel : Nat) (all : List ρ) (offset : Nat) (w : World σ)
    (resp : Option (CoqlResponse ρ)) (s1 : σ)
    (h : api w.st (pageQuery sq offset pageSize) = (Except.ok resp, s1)) :
    ((pageData resp = [] ∨ (pageFlag resp = false ∧ (pageData resp).length ≠ pageSize)) →
      coqlLoop api sq pageSize (fuel + 1) all offset w =
        some (Except.ok (all ++ pageData resp),
          { st := s1, calls := w.calls ++ [(sq, offset)] })) ∧
    (pageData resp ≠ [] → (pageFlag resp = true ∨ (pageData resp).length = pageSize) →
      coqlLoop api sq pageSize (fuel + 1) all offset w =
        coqlLoop api sq pageSize fuel (all ++ pageData resp) (offset + pageSize)
          { st := s1, calls := w.calls ++ [(sq, offset)] } ∧
      ∀ r w2, coqlLoop api sq pageSize (fuel + 1) all offset w = some (r, w2) →
        ∃ rest, w2.calls = w.calls ++ (sq, offset) :: (sq, offset + pageSize) :: rest) := by
  refine ⟨coqlLoop_stop api sq pageSize fuel all offset w resp s1 h, ?_⟩
  intro hne hmore
  have hc := coqlLoop_continue api sq pageSize fuel all offset w resp s1 h hne hmore
  refine ⟨hc, ?_⟩
  intro r w2 hr
  rw [hc] at hr
  obtain ⟨rest, hrest⟩ := coqlLoop_first_call api sq pageSize fuel _ _ _ r w2 hr
  exact ⟨rest, by rw [hrest]; simp⟩

/-- Claim C11, witness: on the backend `shortButMore` the first page (one record, more
records reported) is followed by the page at offset 200, and that empty page ends the
loop. -/
theorem coqlPaginated_stops_on_both_signals_witness :
    coqlLoop shortButMore (lit "select id from Leads") 200 (1 + 1) [] 0
        { st := 0, calls := [] } =
      coqlLoop shortButMore (lit "select id from Leads") 200 1
        ([] ++ pageData (some { data := some [7], more_records := true })) (0 + 200)
        { st := 1, calls := [] ++ [(lit "select id from Leads", 0)] } ∧
    coqlLoop shortButMore (lit "select id from Leads") 200 (0 + 1) [7] 200
        { st := 1, calls := [(lit "select id from Leads", 0)] } =
      some (Except.ok ([7] ++ pageData (some { data := some [], more_records := false })),
        { st := 2, calls := [(lit "select id from Leads", 0)] ++
            [(lit "select id from Leads", 200)] }) :=
  ⟨((coqlPaginated_stops_on_both_signals shortButMore (lit "select id from Leads") 200 1 [] 0
      { st := 0, calls := [] } (some { data := some [7], more_records := true }) 1 rfl).2
      (by decide) (Or.inl rfl)).1,
    (coqlPaginated_stops_on_both_signals shortButMore (lit "select id from Leads") 200 0 [7] 200
      { st := 1, calls := [(lit "select id from Leads", 0)] }
      (some { data := some [], more_records := false }) 2 rfl).1 (Or.inl rfl)⟩

theorem coqlLoop_full_pages {σ ρ : Type} (api : Backend σ ρ) (sq : JSString) (pageSize n : Nat)
    (st : Nat → σ) (pages : Nat → List ρ) (flags : Nat → Bool)
    (last : Option (CoqlResponse ρ)) (sEnd : σ) (hps : 0 < pageSize)
    (hpage : ∀ k, k < n →
      api (st k) (pageQuery sq (k * pageSize) pageSize) =
        (Except.ok (some { data := some (pages k), more_records := flags k }), st (k + 1)) ∧
      (pages k).length = pageSize)
    (hend : api (st n) (pageQuery sq (n * pageSize) pageSize) = (Except.ok last, sEnd))
    (hempty : pageData last = []) (j : Nat) :
    ∀ m, m + j = n → ∀ fuel, j + 1 ≤ fuel → ∀ (acc : List ρ) (c : List (JSString × Nat)),
      coqlLoop api sq pageSize fuel acc (m * pageSize) { st := st m, calls := c } =
        some (Except.ok (acc ++ ((List.range' m j).map pages).flatten),
          { st := sEnd, calls := c ++ (List.range' m (j + 1)).map (fun k => (sq, k * pageSize)) }) := by
  induction j with
  | zero =>
    intro m hm fuel hfuel acc c
    have hmn : m = n := by omega
    subst hmn
    obtain ⟨f, rfl⟩ : ∃ f, fuel = f + 1 := ⟨fuel - 1, by omega⟩
    rw [coqlLoop_stop api sq pageSize f acc (m * pageSize) { st := st m, calls := c } last sEnd
      hend (Or.inl hempty), hempty]
    simp
  | succ j ih =>
    intro m hm fuel hfuel acc c
    obtain ⟨f, rfl⟩ : ∃ f, fuel = f + 1 := ⟨fuel - 1, by omega⟩
    obtain ⟨hk, hlen⟩ := hpage m (by omega)
    have hpd : pageData (some ({ data := some (pages m), more_records := flags m } :
        CoqlResponse ρ)) = pages m := rfl
    have hne : pages m ≠ [] := by
      intro h0
      rw [h0] at hlen
      simp at hlen
      omega
    rw [coqlLoop_continue api sq pageSize f acc (m * pageSize) { st := st m, calls := c } _ _ hk
      (by rw [hpd]; exact hne) (Or.inr (by rw [hpd]; exact hlen)), hpd]
    have hoff : m * pageSize + pageSize = (m + 1) * pageSize := by ring
    rw [hoff, ih (m + 1) (by omega) f (by omega)]
    simp [List.range'_succ, List.append_assoc]

/-- Claim C12: for every backend that serves `n` consecutive pages of exactly `pageSize`
records (whatever their `more_records` flags, in particular `false` on the last one) and
has no records at the next offset, `coqlPaginated` terminates as soon as it may run for
`n + 1` pages and returns all `n * pageSize` records, concatenated in page order, having
requested the offsets `0, pageSize, ..., n * pageSize`. -/
theorem coqlPaginated_full_pages {σ ρ : Type} (api : Backend σ ρ) (sq : JSString)
    (pageSize n : Nat) (st : Nat → σ) (pages : Nat → List ρ) (flags : Nat → Bool)
    (last : Option (CoqlResponse ρ)) (sEnd : σ) (calls0 : List (JSString × Nat))
    (hps : 0 < pageSize)
    (hpage : ∀ k, k < n →
      api (st k) (pageQuery sq (k * pageSize) pageSize) =
        (Except.ok (some { data := some (pages k), more_records := flags k }), st (k + 1)) ∧
      (pages k).length = pageSize)
    (hend : api (st n) (pageQuery sq (n * pageSize) pageSize) = (Except.ok last, sEnd))
    (hempty : pageData last = []) (fuel : Nat) (hfuel : n + 1 ≤ fuel) :
    coqlPaginated api sq pageSize fuel { st := st 0, calls := calls0 } =
        some (Except.ok (((List.range n).map pages).flatten),
          { st := sEnd,
            calls := calls0 ++ (List.range (n + 1)).map (fun k => (sq, k * pageSize)) }) ∧
      (((List.range n).map pages).flatten).length = n * pageSize := by
  have h := coqlLoop_full_pages api sq pageSize n st pages flags last sEnd hps hpage hend hempty
    n 0 (by omega) fuel hfuel [] calls0
  constructor
  · unfold coqlPaginated
    simpa [List.range_eq_range'] using h
  · have hl : ∀ m, m ≤ n → (((List.range m).map pages).flatten).length = m * pageSize := by
      intro m
      induction m with
      | zero => simp
      | succ m ih =>
        intro hm
        rw [List.range_succ, List.map_append, List.flatten_append, List.length_append,
          ih (by omega)]
        simp [(hpage m (by omega)).2]
        ring
    exact hl n (le_refl n)

/-- Claim C12, witness: the backend `twoFullPages` serves two pages of two records, the
last one reporting no more records; `coqlPaginated` returns the four records after the
requests at offsets 0, 2 and 4. -/
theorem coqlPaginated_full_pages_witness :
    coqlPaginated twoFullPages (lit "select id from Leads") 2 5 { st := 0, calls := [] } =
        some (Except.ok (((List.range 2).map (fun k => [2 * k, 2 * k + 1])).flatten),
          { st := 3,
            calls := [] ++ (List.range (2 + 1)).map
              (fun k => (lit "select id from Leads", k * 2)) }) ∧
      (((List.range 2).map (fun k => [2 * k, 2 * k + 1])).flatten).length = 2 * 2 :=
  coqlPaginated_full_pages twoFullPages (lit "select id from Leads") 2 2 (fun k => k)
    (fun k => [2 * k, 2 * k + 1]) (fun k => decide (k = 0))
    (some { data := some [], more_records := false }) 3 [] (by decide)
    (fun k hk => by
      have hk2 : k = 0 ∨ k = 1 := by omega
      rcases hk2 with rfl | rfl
      · exact ⟨rfl, rfl⟩
      · exact ⟨rfl, rfl⟩)
    rfl rfl 5 (by decide)

/-! ## Calendar resolver -/

/-- The previous period of `today` and `week` always ends on `start` itself. -/
theorem previousPeriodByDays_prevEnd (start end_ : JSString) (p : JSString × JSString)
    (h : previousPeriodByDays start end_ = some p) : p.2 = start := by
  unfold previousPeriodByDays at h
  split at h
  · simp only [Option.some.injEq] at h
    rw [← h]
  · simp at h

/-- Claim C13, the code at the failing input: for filter `today` on 2024-03-10 the previous
window is 2024-03-09..2024-03-10, and for the week 2024-03-03..2024-03-09 it is
2024-02-25..2024-03-03: `prevEnd` is `start`, not the day before, so the previous window
has one day more than the current one and a deal created on `start` is counted in both. -/
theorem previousPeriodByDays_overlaps :
    previousPeriodByDays (lit "2024-03-10") (lit "2024-03-10") =
        some (lit "2024-03-09", lit "2024-03-10") ∧
      previousPeriodByDays (lit "2024-03-03") (lit "2024-03-09") =
        some (lit "2024-02-25", lit "2024-03-03") ∧
      dealCreatedInRange dealOnTenth (lit "2024-03-10") (lit "2024-03-10") = true ∧
      dealCreatedInRange dealOnTenth (lit "2024-03-09") (lit "2024-03-10") = true := by
  decide

/-! ## Record normaliser and aggregation: day buckets, creation dates, amounts -/

theorem daySet_keys (d : Nat) (v : ℚ) (l : List (Nat × ℚ)) :
    ∀ kv ∈ daySet d v l, kv.1 = d ∨ kv ∈ l := by
  induction l with
  | nil =>
    intro kv hkv
    simp only [daySet, List.mem_singleton] at hkv
    exact Or.inl (by rw [hkv])
  | cons a t ih =>
    obtain ⟨d1, v1⟩ := a
    intro kv hkv
    simp only [daySet] at hkv
    split at hkv
    · rename_i h
      rcases List.mem_cons.mp hkv with rfl | hkv
      · exact Or.inl h
      · exact Or.inr (List.mem_cons_of_mem _ hkv)
    · split at hkv
      · rcases List.mem_cons.mp hkv with rfl | hkv
        · exact Or.inl rfl
        · exact Or.inr hkv
      · rcases List.mem_cons.mp hkv with rfl | hkv
        · exact Or.inr (by simp)
        · rcases ih kv hkv with h | h
          · exact Or.inl h
          · exact Or.inr (List.mem_cons_of_mem _ h)

theorem dealDay_range (d : Deal) (n : Nat) (h : dealDay d = some n) : 1 ≤ n ∧ n ≤ 31 := by
  unfold dealDay at h
  split at h
  · simp at h
  · split at h
    · simp at h
    · split at h
      · split at h
        · rename_i z _ hz
          simp only [Option.some.injEq] at h
          omega
        · simp at h
      · simp at h

theorem dealDay_eq_none_of_dayOfMonth (d : Deal) (h : dayOfMonth d = none) : dealDay d = none := by
  unfold dayOfMonth at h
  unfold dealDay
  cases hc : getDealCreatedDate d with
  | none => rfl
  | some c =>
    rw [hc] at h
    simp only [Option.some_bind] at h
    simp only [h]
    split <;> rfl

theorem dealStep_byDay_keys (acc : Aggregate) (d : Deal)
    (h : ∀ kv ∈ acc.byDay, 1 ≤ kv.1 ∧ kv.1 ≤ 31) :
    ∀ kv ∈ (dealStep acc d).byDay, 1 ≤ kv.1 ∧ kv.1 ≤ 31 := by
  intro kv hkv
  simp only [dealStep] at hkv
  split at hkv
  · rename_i n hn
    rcases daySet_keys _ _ _ kv hkv with hk | hk
    · rw [hk]
      exact dealDay_range d n hn
    · exact h kv hk
  · exact h kv hkv

theorem foldl_dealStep_byDay_keys (deals : List Deal) (acc : Aggregate)
    (h : ∀ kv ∈ acc.byDay, 1 ≤ kv.1 ∧ kv.1 ≤ 31) :
    ∀ kv ∈ (deals.foldl dealStep acc).byDay, 1 ≤ kv.1 ∧ kv.1 ≤ 31 := by
  induction deals generalizing acc with
  | nil => exact h
  | cons d t ih =>
    simp only [List.foldl_cons]
    exact ih _ (dealStep_byDay_keys acc d h)

theorem processDeals_byDay_snoc (deals : List Deal) (d : Deal) (start end_ : JSString)
    (h : dealDay d = none) :
    (processDeals (deals ++ [d]) start end_).byDay = (processDeals deals start end_).byDay := by
  simp only [processDeals, List.filter_append, List.foldl_append]
  by_cases hc : (isNewCRMDeal d && dealCreatedInRange d start end_) = true
  · simp only [List.filter_cons, hc, if_true, List.filter_nil, List.foldl_cons, List.foldl_nil]
    simp only [dealStep, h]
  · simp only [List.filter_cons, hc, if_false, List.filter_nil, List.foldl_nil]
    simp

/-- Claim C14: for every list of deal records and every window, every key of `byDay`
returned by `processDeals` is an integer between 1 and 31, and a deal whose creation date
has no parseable day-of-month adds nothing to `byDay`. -/
theorem processDeals_byDay_keys (deals : List Deal) (start end_ : JSString) :
    (∀ kv ∈ (processDeals deals start end_).byDay, 1 ≤ kv.1 ∧ kv.1 ≤ 31) ∧
      ∀ d : Deal, dayOfMonth d = none →
        (processDeals (deals ++ [d]) start end_).byDay =
          (processDeals deals start end_).byDay := by
  constructor
  · exact foldl_dealStep_byDay_keys _ _ (by simp)
  · intro d hd
    exact processDeals_byDay_snoc deals d start end_ (dealDay_eq_none_of_dayOfMonth d hd)

theorem processDeals_dealOnTenth_byDay :
    (processDeals [dealOnTenth] (lit "2024-03-01") (lit "2024-03-31")).byDay =
      [(10, dayGet [] 10 + parseAmount dealOnTenth.Amount)] := by
  rfl

/-- Claim C14, witness: the deal created on the 10th puts the key 10 in `byDay`, and the
deal whose creation time is the text `pending` leaves `byDay` as it was. -/
theorem processDeals_byDay_keys_witness :
    (1 ≤ 10 ∧ 10 ≤ 31) ∧
      (processDeals ([dealOnTenth] ++ [dealNoDay]) (lit "2024-03-01") (lit "2024-03-31")).byDay =
        (processDeals [dealOnTenth] (lit "2024-03-01") (lit "2024-03-31")).byDay :=
  ⟨(processDeals_byDay_keys [dealOnTenth] (lit "2024-03-01") (lit "2024-03-31")).1
      (10, dayGet [] 10 + parseAmount dealOnTenth.Amount)
      (by rw [processDeals_dealOnTenth_byDay]; exact List.mem_singleton.mpr rfl),
    (processDeals_byDay_keys [dealOnTenth] (lit "2024-03-01") (lit "2024-03-31")).2
      dealNoDay (by decide)⟩


theorem dateAt_take (s : JSString) (h : dateAt s = true) :
    (s.take 10).length = 10 ∧ dateAt (s.take 10) = true := by
  unfold dateAt at h
  split at h
  · refine ⟨by simp, ?_⟩
    simpa [dateAt] using h
  · simp at h

theorem matchDate_shape (s m : JSString) (h : matchDate s = some m) :
    m.length = 10 ∧ dateAt m = true := by
  induction s with
  | nil => simp [matchDate] at h
  | cons c t ih =>
    simp only [matchDate] at h
    split at h
    · rename_i hd
      simp only [Option.some.injEq] at h
      subst h
      exact dateAt_take _ hd
    · exact ih h

theorem getDealCreatedDate_eq_none_iff (d : Deal) :
    getDealCreatedDate d = none ↔ d.Created_Time.truthy = false := by
  unfold getDealCreatedDate dateOfField
  constructor
  · intro h
    split at h
    · rename_i ht
      simpa using ht
    · split at h
      · simp at h
      · split at h <;> simp at h
  · intro h
    simp [h]

theorem processDeals_snoc_not_counted (deals : List Deal) (d : Deal) (start end_ : JSString)
    (h : (isNewCRMDeal d && dealCreatedInRange d start end_) = false) :
    processDeals (deals ++ [d]) start end_ = processDeals deals start end_ := by
  simp only [processDeals, List.filter_append, List.filter_cons, h, List.filter_nil,
    List.append_nil]
  simp

theorem getDealCreatedDate_str (d : Deal) (s : JSString) (hs : d.Created_Time = JSVal.str s)
    (hne : s ≠ []) :
    getDealCreatedDate d = some ((matchDate s).getD s) := by
  unfold getDealCreatedDate dateOfField
  rw [hs]
  have ht : (JSVal.str s).truthy = true := by
    cases s with
    | nil => exact absurd rfl hne
    | cons a t => rfl
  simp only [ht, Bool.not_true, Bool.false_eq_true, if_false, JSVal.typeof, JSVal.toStr]
  have hty : (JSType.string = JSType.object) = False := by simp
  simp only [hty, decide_False, Bool.false_and, Bool.false_eq_true, if_false]
  cases matchDate s <;> rfl

/-- Claim C15, counterexample: the creation time `2024-1-5` holds no `YYYY-MM-DD` date, yet
`getDealCreatedDate` returns that text, not `null`, and `processDeals` counts the record
in the window 2024-01-01..2024-12-31. -/
theorem getDealCreatedDate_malformed_not_null :
    matchDate (lit "2024-1-5") = none ∧
      getDealCreatedDate dealLooseDate = some (lit "2024-1-5") ∧
      (processDeals [dealLooseDate] (lit "2024-01-01") (lit "2024-12-31")).count = 1 := by
  decide

/-- Claim C15, amended: for every deal record, `getDealCreatedDate` returns `null` exactly
when `Created_Time` is missing or falsy, and such a record is excluded by `processDeals`
from every window's aggregate; when `Created_Time` is a string that holds a `YYYY-MM-DD`
date the result is the first such date, a string of that form; when `Created_Time` is a
non-empty string that holds no such date the result is that string itself. -/
theorem getDealCreatedDate_results (d : Deal) :
    (getDealCreatedDate d = none ↔ d.Created_Time.truthy = false) ∧
    (d.Created_Time.truthy = false → ∀ (deals : List Deal) (start end_ : JSString),
      processDeals (deals ++ [d]) start end_ = processDeals deals start end_) ∧
    (∀ s m, d.Created_Time = JSVal.str s → matchDate s = some m →
      getDealCreatedDate d = some m ∧ m.length = 10 ∧ dateAt m = true) ∧
    (∀ s, d.Created_Time = JSVal.str s → s ≠ [] → matchDate s = none →
      getDealCreatedDate d = some s) := by
  refine ⟨getDealCreatedDate_eq_none_iff d, ?_, ?_, ?_⟩
  · intro h deals start end_
    apply processDeals_snoc_not_counted
    have hn := (getDealCreatedDate_eq_none_iff d).mpr h
    simp [dealCreatedInRange, hn]
  · intro s m hs hm
    have hne : s ≠ [] := by
      intro h0
      subst h0
      simp [matchDate] at hm
    rw [getDealCreatedDate_str d s hs hne, hm]
    exact ⟨rfl, matchDate_shape s m hm⟩
  · intro s hs hne hm
    rw [getDealCreatedDate_str d s hs hne, hm]
    rfl

/-- Claim C15, witness: a record without `Created_Time` changes no aggregate; the record
created at `2024-03-10T09:30:00-05:00` yields `2024-03-10`; the record created at `2024-1-5`
yields `2024-1-5`. -/
theorem getDealCreatedDate_results_witness :
    (processDeals ([dealOnTenth] ++ [({ Amount := JSVal.num 40 } : Deal)])
        (lit "2024-03-01") (lit "2024-03-31") =
      processDeals [dealOnTenth] (lit "2024-03-01") (lit "2024-03-31")) ∧
    (getDealCreatedDate dealOnTenth = some (lit "2024-03-10") ∧
      (lit "2024-03-10").length = 10 ∧ dateAt (lit "2024-03-10") = true) ∧
    getDealCreatedDate dealLooseDate = some (lit "2024-1-5") :=
  ⟨(getDealCreatedDate_results { Amount := JSVal.num 40 }).2.1 rfl [dealOnTenth]
      (lit "2024-03-01") (lit "2024-03-31"),
    (getDealCreatedDate_results dealOnTenth).2.2.1 (lit "2024-03-10T09:30:00-05:00")
      (lit "2024-03-10") rfl (by decide),
    (getDealCreatedDate_results dealLooseDate).2.2.2 (lit "2024-1-5") rfl (by decide)
      (by decide)⟩


theorem parseFloat_shape (t : JSString) :
    parseFloat t = none ∨
      ∃ v : ℚ, 0 ≤ v ∧ parseFloat t = some (if (t.head? == some 45) = true then -v else v) := by
  unfold parseFloat
  dsimp only
  generalize (t.head? == some 45) = neg
  generalize (if neg = true then t.tail else t) = r
  generalize (if ((List.dropWhile isDigit r).head? == some 46) = true then
    List.takeWhile isDigit (List.dropWhile isDigit r).tail else []) = fp
  by_cases hc : ((List.takeWhile isDigit r).isEmpty && fp.isEmpty) = true
  · left
    simp only [hc, if_true]
  · right
    refine ⟨(digitsVal (List.takeWhile isDigit r) : ℚ) + (digitsVal fp : ℚ) / (10 : ℚ) ^ fp.length,
      by positivity, ?_⟩
    simp only [hc, Bool.false_eq_true, if_false]

theorem parseFloat_sign (t : JSString) (p : ℚ) (h : parseFloat t = some p) :
    (t.head? = some 45 → p ≤ 0) ∧ (t.head? ≠ some 45 → 0 ≤ p) := by
  rcases parseFloat_shape t with h0 | ⟨v, hv, hs⟩
  · rw [h0] at h
    simp at h
  · rw [hs] at h
    simp only [Option.some.injEq] at h
    subst h
    constructor
    · intro hneg
      simp [hneg, hv]
    · intro hneg
      have hb : (t.head? == some 45) = false := by simpa using hneg
      simp [hb, hv]

theorem parseAmount_str (s : JSString) :
    parseAmount (JSVal.str s) = (parseFloat (amountText s)).getD 0 := by
  show (match parseFloat (List.filter (fun c => isDigit c || c == 46 || c == 45) s) with
    | some p => p
    | none => 0) = (parseFloat (amountText s)).getD 0
  unfold amountText
  cases parseFloat (List.filter (fun c => isDigit c || c == 46 || c == 45) s) <;> rfl

/-- Claim C16, counterexample: the number -250 and the string `-$250` both give the
negative amount -250. -/
theorem parseAmount_negative :
    parseAmount (JSVal.num (-250)) = -250 ∧ parseAmount (JSVal.str (lit "-$250")) = -250 := by
  constructor
  · rfl
  · have h1 : amountText (lit "-$250") = [45, 50, 53, 48] := by decide
    rw [parseAmount_str, h1]
    norm_num [parseFloat, isDigit, digitsVal]

/-- Claim C16, amended: for every raw `Amount` value, `parseAmount` returns a number (never
`NaN`) that is non-negative unless the raw value is a negative number, which is returned
unchanged, or a string whose text, once every character other than digits, dot and minus
is removed, starts with a minus sign, for which the result is at most 0. -/
theorem parseAmount_sign (val : JSVal) :
    (0 ≤ parseAmount val ∨ (∃ q, val = JSVal.num q ∧ q < 0) ∨
      (∃ s, val = JSVal.str s ∧ (amountText s).head? = some 45)) ∧
    (∀ q, val = JSVal.num q → parseAmount val = q) ∧
    (∀ s, val = JSVal.str s → (amountText s).head? = some 45 → parseAmount val ≤ 0) := by
  refine ⟨?_, ?_, ?_⟩
  · cases val with
    | num q =>
      rcases le_or_lt 0 q with h | h
      · exact Or.inl h
      · exact Or.inr (Or.inl ⟨q, rfl, h⟩)
    | str s =>
      by_cases hh : (amountText s).head? = some 45
      · exact Or.inr (Or.inr ⟨s, rfl, hh⟩)
      · left
        rw [parseAmount_str]
        cases hp : parseFloat (amountText s) with
        | none => simp
        | some p => exact (parseFloat_sign _ p hp).2 hh
    | undefined => exact Or.inl (le_refl _)
    | null => exact Or.inl (le_refl _)
    | bool b => exact Or.inl (le_refl _)
    | nan => exact Or.inl (le_refl _)
    | obj o => exact Or.inl (le_refl _)
    | builtin k => exact Or.inl (le_refl _)
  · intro q hq
    subst hq
    rfl
  · intro s hs hh
    subst hs
    rw [parseAmount_str]
    cases hp : parseFloat (amountText s) with
    | none => simp
    | some p => exact (parseFloat_sign _ p hp).1 hh

/-- Claim C16, witness: the number -250 is returned unchanged, and the string `-$250`,
whose stripped text starts with a minus sign, gives an amount that is at most 0. -/
theorem parseAmount_sign_witness :
    parseAmount (JSVal.num (-250)) = -250 ∧ parseAmount (JSVal.str (lit "-$250")) ≤ 0 :=
  ⟨(parseAmount_sign (JSVal.num (-250))).2.1 (-250) rfl,
    (parseAmount_sign (JSVal.str (lit "-$250"))).2.2 (lit "-$250") rfl (by decide)⟩

/-! ## Owners and brands named after members of `Object.prototype` -/

/-- Claim C17, the code at the failing input: for a record whose `Sales_Rep` is named
`constructor`, `getRepName` yields that name, but the read `names['constructor']` of
`getDealReps` yields the inherited function, so the name is taken for a duplicate:
`getDealReps` returns no owner at all and the deal goes to `Unknown`. -/
theorem getDealReps_drops_inherited_name :
    getRepName dealRepConstructor.Sales_Rep = some (lit "constructor") ∧
      getDealReps dealRepConstructor = [] ∧
      dealOwners dealRepConstructor = [lit "Unknown"] := by
  decide

/-- Claim C18, the code at the failing input: a deal linked to the meeting identifier
`toString`, which `meetingIdToBrand` does not hold, is not counted under `Other`: the read
`eventBrandMap['toString']` yields the inherited function, and the only bucket of the merge
is keyed by the text of that function. The same holds when the count of the link key is
the number 1. -/
theorem brandMerge_inherited_link_key :
    (processDeals [dealLinkToString] (lit "2024-03-01") (lit "2024-03-31")).byMeetingId.map
        Prod.fst = [lit "toString"] ∧
      (brandMerge [] []
        (processDeals [dealLinkToString] (lit "2024-03-01") (lit "2024-03-31")).byMeetingId).map
          (fun o => o.map Prod.fst) = some [lit "function toString() \x7b [native code] \x7d"] ∧
      (brandMerge [] [] [(lit "toString", JSVal.num 1)]).map (fun o => o.map Prod.fst) =
        some [lit "function toString() \x7b [native code] \x7d"] := by
  decide

/-! ## Schema-fallback query chain: failure -/

theorem tryQueries_all_fail {σ : Type} (api : Backend σ Deal) (fuel : Nat)
    (qs : List JSString) (ws : Nat → World σ)
    (hfail : ∀ j, j < qs.length → ∀ qj, qs[j]? = some qj →
      ∃ e, coqlPaginated api qj 200 fuel (ws j) = some (Except.error e, ws (j + 1))) :
    tryQueries api fuel qs (ws 0) = some ([], ws qs.length) := by
  induction qs generalizing ws with
  | nil => rfl
  | cons q0 qs ih =>
    obtain ⟨e, he⟩ := hfail 0 (by simp) q0 (by simp)
    simp only [tryQueries, he, List.length_cons]
    exact ih (fun n => ws (n + 1))
      (fun j hj qj hqj => hfail (j + 1) (by simpa using hj) qj (by simpa using hqj))

theorem tryQueries_returns {σ : Type} (api : Backend σ Deal) (fuel : Nat)
    (hterm : ∀ q w1, (coqlPaginated api q 200 fuel w1).isSome = true)
    (qs : List JSString) (w : World σ) :
    ∃ data w2, tryQueries api fuel qs w = some (data, w2) := by
  induction qs generalizing w with
  | nil => exact ⟨[], w, rfl⟩
  | cons q0 qs ih =>
    have h := hterm q0 w
    cases hr : coqlPaginated api q0 200 fuel w with
    | none => simp [hr] at h
    | some p =>
      obtain ⟨r, w1⟩ := p
      cases r with
      | ok data => exact ⟨data, w1, by simp only [tryQueries, hr]⟩
      | error e =>
        obtain ⟨data, w2, h2⟩ := ih w1
        exact ⟨data, w2, by simp only [tryQueries, hr, h2]⟩

/-- Claim C19: `fetchDealsAll` never raises: when the query capability is unavailable it
returns an empty record list in the world it started in (no query is executed); when
every query variant ends in an error it returns an empty record list; and whenever the
run of each variant ends, it returns a record list. -/
theorem fetchDealsAll_never_raises {σ : Type} (api : Backend σ Deal) (fuel : Nat) (w : World σ) :
    fetchDealsAll false api fuel w = some ([], w) ∧
    (∀ ws : Nat → World σ, ws 0 = w →
      (∀ j, j < queries.length → ∀ qj, queries[j]? = some qj →
        ∃ e, coqlPaginated api qj 200 fuel (ws j) = some (Except.error e, ws (j + 1))) →
      fetchDealsAll true api fuel w = some ([], ws queries.length)) ∧
    ((∀ q w1, (coqlPaginated api q 200 fuel w1).isSome = true) →
      ∀ sdkReady, ∃ data w2, fetchDealsAll sdkReady api fuel w = some (data, w2)) := by
  refine ⟨rfl, ?_, ?_⟩
  · intro ws h0 hfail
    subst h0
    simp only [fetchDealsAll, Bool.not_true, Bool.false_eq_true, if_false]
    exact tryQueries_all_fail api fuel queries ws hfail
  · intro hterm sdkReady
    cases sdkReady with
    | false => exact ⟨[], w, rfl⟩
    | true =>
      simp only [fetchDealsAll, Bool.not_true, Bool.false_eq_true, if_false]
      exact tryQueries_returns api fuel hterm queries w

/-- Claim C19, witness: on the backend that rejects every query, `fetchDealsAll` returns
the empty list after one call per variant. -/
theorem fetchDealsAll_never_raises_witness :
    fetchDealsAll true failsAlways 3 { st := 0, calls := [] } =
      some ([], failsAlwaysWorlds queries.length) :=
  (fetchDealsAll_never_raises failsAlways 3 { st := 0, calls := [] }).2.1 failsAlwaysWorlds rfl
    (fun j _ qj hqj => by
      refine ⟨lit "invalid query", ?_⟩
      have hw : failsAlwaysWorlds (j + 1) =
          { st := j + 1, calls := (failsAlwaysWorlds j).calls ++ [(qj, 0)] } := by
        simp only [failsAlwaysWorlds, List.take_succ, hqj, Option.toList, List.map_append,
          List.map_cons, List.map_nil]
      rw [hw]
      rfl)

/-! ## Projection builder: the day axis -/

/-- Claim C20: for every input, `labels`, `currentMonth` and `previousMonth` of
`buildChartData` all have length `daysInMonth`, whatever the previous month's day count,
and `labels[i]` is `Day ` followed by `i + 1`. -/
theorem buildChartData_lengths (dealsCurrent dealsPrev : Aggregate)
    (todayDay daysInMonth prevDaysInMonth : Nat) :
    (buildChartData dealsCurrent dealsPrev todayDay daysInMonth prevDaysInMonth).labels.length =
        daysInMonth ∧
      (buildChartData dealsCurrent dealsPrev todayDay daysInMonth
        prevDaysInMonth).currentMonth.length = daysInMonth ∧
      (buildChartData dealsCurrent dealsPrev todayDay daysInMonth
        prevDaysInMonth).previousMonth.length = daysInMonth ∧
      ∀ i : Nat, (buildChartData dealsCurrent dealsPrev todayDay daysInMonth
          prevDaysInMonth).labels[i]? =
        if i < daysInMonth then some (lit "Day " ++ natDigits (i + 1)) else none := by
  have h := chartLoop_run (if todayDay > 0 then dealsCurrent.totalRevenue / (todayDay : ℚ) else 0)
    dealsPrev.byDay prevDaysInMonth daysInMonth
  obtain ⟨h1, h2, h3, _⟩ := h
  simp only [buildChartData]
  refine ⟨?_, ?_, ?_, ?_⟩
  · rw [h1]; simp
  · rw [h2]; simp
  · rw [h3]; simp
  · intro i
    rw [h1, getElem?_map_range']

/-! ## Representatives of a deal on ordinary names -/

theorem ownGet_isSome_iff (o : Props) (m : JSString) :
    (ownGet o m).isSome = true ↔ m ∈ o.map Prod.fst := by
  unfold ownGet
  simp only [Option.isSome_map', List.find?_isSome, decide_eq_true_eq, List.mem_map]

theorem insertIndexed_keys (n : Nat) (k : JSString) (v : JSVal) (o : Props) (m : JSString) :
    m ∈ (insertIndexed n k v o).map Prod.fst ↔ m = k ∨ m ∈ o.map Prod.fst := by
  induction o with
  | nil => simp [insertIndexed]
  | cons a t ih =>
    obtain ⟨k1, v1⟩ := a
    simp only [insertIndexed]
    split
    · split
      · simp only [List.map_cons, List.mem_cons, ih]
        tauto
      · simp
    · simp

theorem objSet_new_keys (o : Props) (k : JSString) (v : JSVal) (m : JSString)
    (hnew : ownGet o k = none) (hk : k ≠ lit "__proto__") :
    m ∈ (objSet o k v).map Prod.fst ↔ m = k ∨ m ∈ o.map Prod.fst := by
  simp only [objSet, hnew, Option.isSome_none, Bool.false_eq_true, if_false, hk]
  split
  · exact insertIndexed_keys _ k v o m
  · simp only [List.map_append, List.mem_append, List.map_cons, List.map_nil, List.mem_singleton]
    tauto

theorem getRepName_ne_nil (lookup : JSVal) (n : JSString) (h : getRepName lookup = some n) :
    n ≠ [] := by
  unfold getRepName at h
  by_cases ht : (!lookup.truthy) = true
  · simp [ht] at h
  · simp only [ht, Bool.false_eq_true, if_false] at h
    generalize (if lookup.typeof = JSType.object then
      jsOr (lookup.get (lit "name")) (lookup.get (lit "id")) else JSVal.str lookup.toStr) = name at h
    by_cases hc : (!name.truthy || isBlankString name) = true
    · simp [hc] at h
    · simp only [hc, Bool.false_eq_true, if_false] at h
      simp only [Bool.or_eq_true, Bool.not_eq_true', not_or, Bool.not_eq_false] at hc
      cases name with
      | str s =>
        simp only [Option.some.injEq] at h
        have hb := hc.2
        simp only [isBlankString, Bool.not_eq_true, List.isEmpty_eq_false] at hb
        rw [← h]
        intro h0
        rw [h0] at hb
        simp at hb
      | undefined => simp only [Option.some.injEq] at h; rw [← h]; exact toStr_ne_nil _ hc.1
      | null => simp only [Option.some.injEq] at h; rw [← h]; exact toStr_ne_nil _ hc.1
      | bool b => simp only [Option.some.injEq] at h; rw [← h]; exact toStr_ne_nil _ hc.1
      | num q => simp only [Option.some.injEq] at h; rw [← h]; exact toStr_ne_nil _ hc.1
      | nan => simp only [Option.some.injEq] at h; rw [← h]; exact toStr_ne_nil _ hc.1
      | obj o => simp only [Option.some.injEq] at h; rw [← h]; exact toStr_ne_nil _ hc.1
      | builtin k => simp only [Option.some.injEq] at h; rw [← h]; exact toStr_ne_nil _ hc.1

/-- The loop of `getDealReps` keeps in `names` exactly the owners it has listed. -/
theorem repStep_spec (st : List JSString × Props) (lookup : JSVal)
    (h1 : ∀ m, m ∈ st.2.map Prod.fst ↔ m ∈ st.1)
    (h2 : ∀ kv ∈ st.2, kv.2 = JSVal.bool true) :
    (repStep st lookup).1 = (match getRepName lookup with
      | some n => addName st.1 n
      | none => st.1) ∧
    (∀ m, m ∈ (repStep st lookup).2.map Prod.fst ↔ m ∈ (repStep st lookup).1) ∧
    (∀ kv ∈ (repStep st lookup).2, kv.2 = JSVal.bool true) := by
  unfold repStep
  cases hn : getRepName lookup with
  | none => exact ⟨rfl, h1, h2⟩
  | some n =>
    have hne := getRepName_ne_nil lookup n hn
    have hne2 : n.isEmpty = false := by simpa using hne
    have htr : (getProp st.2 n).truthy = true ↔ (n ∈ st.1 ∨ n ∈ objectPrototypeKeys) := by
      unfold getProp
      cases hget : ownGet st.2 n with
      | some v =>
        have hv := h2 (n, v) (ownGet_mem st.2 n v hget)
        simp only at hv
        subst hv
        have hin : n ∈ st.1 := (h1 n).mp ((ownGet_isSome_iff st.2 n).mp (by simp [hget]))
        simp [JSVal.truthy, hin]
      | none =>
        have hnot : n ∉ st.1 := by
          intro hin
          have := (ownGet_isSome_iff st.2 n).mpr ((h1 n).mpr hin)
          simp [hget] at this
        by_cases hp : n ∈ objectPrototypeKeys
        · simp [hp, JSVal.truthy]
        · simp [hp, JSVal.truthy, hnot]
    by_cases hc : n ∈ st.1 ∨ n ∈ objectPrototypeKeys
    · have ht := htr.mpr hc
      simp only [hne2, ht, Bool.not_true, Bool.and_false, Bool.false_eq_true, if_false, addName,
        hc, if_true]
      exact ⟨trivial, h1, h2⟩
    · have ht : (getProp st.2 n).truthy = false := by
        cases hb : (getProp st.2 n).truthy with
        | false => rfl
        | true => exact absurd (htr.mp hb) hc
      simp only [hne2, ht, Bool.not_false, Bool.and_self, if_true, addName, hc, if_false]
      have hnew : ownGet st.2 n = none := by
        cases hget : ownGet st.2 n with
        | none => rfl
        | some v =>
          exfalso
          apply hc
          left
          exact (h1 n).mp ((ownGet_isSome_iff st.2 n).mp (by simp [hget]))
      have hk : n ≠ lit "__proto__" := by
        intro h0
        apply hc
        right
        rw [h0]
        exact lit_proto_mem
      refine ⟨trivial, ?_, objSet_forall (fun v => v = JSVal.bool true) n _ st.2 h2 rfl⟩
      intro m
      rw [objSet_new_keys st.2 n _ m hnew hk, h1 m]
      simp only [List.mem_append, List.mem_singleton]
      tauto

theorem foldl_repStep_spec (lookups : List JSVal) (st : List JSString × Props)
    (h1 : ∀ m, m ∈ st.2.map Prod.fst ↔ m ∈ st.1)
    (h2 : ∀ kv ∈ st.2, kv.2 = JSVal.bool true) :
    (lookups.foldl repStep st).1 = (lookups.filterMap getRepName).foldl addName st.1 := by
  induction lookups generalizing st with
  | nil => rfl
  | cons l t ih =>
    obtain ⟨hs, hk, hv⟩ := repStep_spec st l h1 h2
    simp only [List.foldl_cons]
    rw [ih (repStep st l) hk hv, hs]
    cases hn : getRepName l with
    | none => simp [List.filterMap_cons, hn]
    | some n => simp [List.filterMap_cons, hn]

/-- What `getDealReps` computes: the candidate names in order, each kept unless already
listed or named after a member of `Object.prototype`. -/
theorem getDealReps_eq (d : Deal) : getDealReps d = (candidateNames d).foldl addName [] := by
  unfold getDealReps candidateNames candidateLookups
  exact foldl_repStep_spec _ ([], []) (by simp) (by simp)

theorem foldl_addName_nodup (ns reps : List JSString) (h : reps.Nodup) :
    (ns.foldl addName reps).Nodup := by
  induction ns generalizing reps with
  | nil => exact h
  | cons n t ih =>
    simp only [List.foldl_cons]
    apply ih
    unfold addName
    split
    · exact h
    · rename_i hc
      rw [List.nodup_append]
      refine ⟨h, by simp, ?_⟩
      intro a ha hb
      simp only [List.mem_singleton] at hb
      subst hb
      exact hc (Or.inl ha)

theorem foldl_addName_length (ns reps : List JSString) :
    (ns.foldl addName reps).length ≤ reps.length + ns.length := by
  induction ns generalizing reps with
  | nil => simp
  | cons n t ih =>
    simp only [List.foldl_cons, List.length_cons]
    have h := ih (addName reps n)
    have h2 : (addName reps n).length ≤ reps.length + 1 := by
      unfold addName
      split <;> simp
    omega

theorem candidateNames_length (d : Deal) : (candidateNames d).length ≤ 3 := by
  unfold candidateNames candidateLookups
  cases hsr : getRepName d.Sales_Rep with
  | none =>
    simp only [strTruthy, Bool.not_false, if_true, List.cons_append, List.nil_append]
    rw [List.filterMap_cons_none hsr]
    exact le_trans (List.length_filterMap_le _ _) (by simp)
  | some n =>
    have hne := getRepName_ne_nil _ n hsr
    have : strTruthy (some n) = true := by simpa [strTruthy] using hne
    simp only [this, Bool.not_true, Bool.false_eq_true, if_false, List.append_nil]
    exact le_trans (List.length_filterMap_le _ _) (by simp)

/-- The owners returned by `getDealReps` are distinct, and there are at most three. -/
theorem getDealReps_nodup_length (d : Deal) :
    (getDealReps d).Nodup ∧ (getDealReps d).length ≤ 3 := by
  rw [getDealReps_eq]
  refine ⟨foldl_addName_nodup _ _ List.nodup_nil, ?_⟩
  have h1 := foldl_addName_length (candidateNames d) []
  have h2 := candidateNames_length d
  simp only [List.length_nil] at h1
  omega

theorem foldl_addName_eq_addDistinct (ns reps : List JSString)
    (h : ∀ n ∈ ns, n ∉ objectPrototypeKeys) :
    ns.foldl addName reps = ns.foldl addDistinct reps := by
  induction ns generalizing reps with
  | nil => rfl
  | cons n t ih =>
    simp only [List.foldl_cons]
    have hn : addName reps n = addDistinct reps n := by
      unfold addName addDistinct
      simp [h n (by simp)]
    rw [hn]
    exact ih _ (fun m hm => h m (List.mem_cons_of_mem _ hm))

/-- For a record none of whose owner names is the name of a member of `Object.prototype`,
`getDealReps` returns the distinct names of `Sales_Rep`, `Sales_Rep_2` and `Trainee` in that
order, followed by the name of `Owner` only when `Sales_Rep` yields no name. -/
theorem getDealReps_of_plain_names (d : Deal)
    (h : ∀ n ∈ candidateNames d, n ∉ objectPrototypeKeys) :
    getDealReps d = (candidateNames d).foldl addDistinct [] := by
  rw [getDealReps_eq, foldl_addName_eq_addDistinct _ _ h]

/-! ## The brand merge on ordinary keys -/

theorem ownGet_cons (k1 : JSString) (v1 : JSVal) (t : Props) (m : JSString) :
    ownGet ((k1, v1) :: t) m = if k1 = m then some v1 else ownGet t m := by
  unfold ownGet
  by_cases h : k1 = m
  · simp [h]
  · simp [List.find?_cons, h]

theorem ownGet_replaceProp (k : JSString) (v : JSVal) (o : Props) (m : JSString) :
    ownGet (replaceProp k v o) m =
      if m = k ∧ (ownGet o k).isSome = true then some v else ownGet o m := by
  induction o with
  | nil => simp [replaceProp, ownGet]
  | cons a t ih =>
    obtain ⟨k1, v1⟩ := a
    by_cases hk : k1 = k
    · subst hk
      simp only [replaceProp, if_true, ownGet_cons]
      by_cases hm : k1 = m
      · subst hm
        simp
      · have hm2 : ¬ m = k1 := fun h => hm h.symm
        simp [hm, hm2]
    · simp only [replaceProp, hk, if_false, ownGet_cons, ih]
      by_cases hm : k1 = m
      · subst hm
        simp [hk]
      · simp [hm]

theorem ownGet_insertIndexed (n : Nat) (k : JSString) (v : JSVal) (o : Props) (m : JSString)
    (hnew : ownGet o k = none) :
    ownGet (insertIndexed n k v o) m = if m = k then some v else ownGet o m := by
  induction o with
  | nil =>
    simp only [insertIndexed, ownGet_cons]
    by_cases h : k = m
    · simp [h]
    · have h2 : ¬ m = k := fun e => h e.symm
      simp [h, h2]
  | cons a t ih =>
    obtain ⟨k1, v1⟩ := a
    rw [ownGet_cons] at hnew
    have hk1 : ¬ k1 = k := by
      intro e
      simp [e] at hnew
    simp only [hk1, if_false] at hnew
    have hfront : ownGet ((k, v) :: (k1, v1) :: t) m =
        if m = k then some v else ownGet ((k1, v1) :: t) m := by
      rw [ownGet_cons]
      by_cases h : k = m
      · simp [h]
      · have h2 : ¬ m = k := fun e => h e.symm
        simp [h, h2]
    simp only [insertIndexed]
    split
    · split
      · rw [ownGet_cons, ih hnew, ownGet_cons]
        by_cases hm : k1 = m
        · subst hm
          simp [hk1]
        · simp [hm]
      · exact hfront
    · exact hfront

theorem ownGet_append_new (o : Props) (k : JSString) (v : JSVal) (m : JSString)
    (hnew : ownGet o k = none) :
    ownGet (o ++ [(k, v)]) m = if m = k then some v else ownGet o m := by
  induction o with
  | nil =>
    simp only [List.nil_append, ownGet_cons]
    by_cases h : k = m
    · simp [h]
    · have h2 : ¬ m = k := fun e => h e.symm
      simp [h, h2]
  | cons a t ih =>
    obtain ⟨k1, v1⟩ := a
    rw [ownGet_cons] at hnew
    have hk1 : ¬ k1 = k := by
      intro e
      simp [e] at hnew
    simp only [hk1, if_false] at hnew
    simp only [List.cons_append, ownGet_cons, ih hnew]
    by_cases hm : k1 = m
    · subst hm
      simp [hk1]
    · simp [hm]

/-- Reading after a write: the written key holds the written value, every other key is
unchanged. -/
theorem ownGet_objSet (o : Props) (k : JSString) (v : JSVal) (m : JSString)
    (h : (ownGet o k).isSome = true ∨ k ≠ lit "__proto__") :
    ownGet (objSet o k v) m = if m = k then some v else ownGet o m := by
  unfold objSet
  by_cases hown : (ownGet o k).isSome = true
  · simp only [hown, if_true, ownGet_replaceProp, and_true]
  · have hnew : ownGet o k = none := by simpa using hown
    have hk : k ≠ lit "__proto__" := by
      rcases h with h | h
      · exact absurd h hown
      · exact h
    simp only [hown, Bool.false_eq_true, if_false, hk]
    split
    · exact ownGet_insertIndexed _ k v o m hnew
    · exact ownGet_append_new o k v m hnew

theorem ownGet_defineProp (o : Props) (k : JSString) (v : JSVal) (m : JSString) :
    ownGet (defineProp o k v) m = if m = k then some v else ownGet o m := by
  unfold defineProp
  by_cases hown : (ownGet o k).isSome = true
  · simp only [hown, if_true, ownGet_replaceProp, and_true]
  · have hnew : ownGet o k = none := by simpa using hown
    simp only [hown, Bool.false_eq_true, if_false]
    split
    · exact ownGet_insertIndexed _ k v o m hnew
    · exact ownGet_append_new o k v m hnew

theorem sum_replaceProp (f : JSVal → ℚ) (k : JSString) (v v0 : JSVal) (o : Props)
    (h : ownGet o k = some v0) :
    ((replaceProp k v o).map (fun kv => f kv.2)).sum =
      (o.map (fun kv => f kv.2)).sum - f v0 + f v := by
  induction o with
  | nil => simp [ownGet] at h
  | cons a t ih =>
    obtain ⟨k1, v1⟩ := a
    rw [ownGet_cons] at h
    by_cases hk : k1 = k
    · simp only [hk, if_true, Option.some.injEq] at h
      subst h
      simp only [replaceProp, hk, if_true, List.map_cons, List.sum_cons]
      ring
    · simp only [hk, if_false] at h
      simp only [replaceProp, hk, if_false, List.map_cons, List.sum_cons, ih h]
      ring

theorem sum_insertIndexed (f : JSVal → ℚ) (n : Nat) (k : JSString) (v : JSVal) (o : Props) :
    ((insertIndexed n k v o).map (fun kv => f kv.2)).sum =
      (o.map (fun kv => f kv.2)).sum + f v := by
  induction o with
  | nil => simp [insertIndexed]
  | cons a t ih =>
    obtain ⟨k1, v1⟩ := a
    simp only [insertIndexed]
    split
    · split
      · simp only [List.map_cons, List.sum_cons, ih]
        ring
      · simp only [List.map_cons, List.sum_cons]
        ring
    · simp only [List.map_cons, List.sum_cons]
      ring

theorem sum_objSet_own (f : JSVal → ℚ) (k : JSString) (v v0 : JSVal) (o : Props)
    (h : ownGet o k = some v0) :
    ((objSet o k v).map (fun kv => f kv.2)).sum = (o.map (fun kv => f kv.2)).sum - f v0 + f v := by
  simp only [objSet, h, Option.isSome_some, if_true]
  exact sum_replaceProp f k v v0 o h

theorem sum_objSet_new (f : JSVal → ℚ) (k : JSString) (v : JSVal) (o : Props)
    (h : ownGet o k = none) (hk : k ≠ lit "__proto__") :
    ((objSet o k v).map (fun kv => f kv.2)).sum = (o.map (fun kv => f kv.2)).sum + f v := by
  simp only [objSet, h, Option.isSome_none, Bool.false_eq_true, if_false, hk]
  split
  · exact sum_insertIndexed f _ k v o
  · simp


theorem bump_own_num (o : Props) (k : JSString) (q c : ℚ)
    (h : ownGet o k = some (JSVal.num q)) :
    objSet o k (jsAdd (jsOr (getProp o k) (JSVal.num 0)) (JSVal.num c)) =
      objSet o k (JSVal.num (q + c)) := by
  have hval : jsAdd (jsOr (getProp o k) (JSVal.num 0)) (JSVal.num c) = JSVal.num (q + c) := by
    by_cases hq0 : q = 0
    · simp [getProp, h, jsOr, JSVal.truthy, jsAdd, JSVal.toPrimitive, JSVal.toNumber?, hq0]
    · simp [getProp, h, jsOr, JSVal.truthy, jsAdd, JSVal.toPrimitive, JSVal.toNumber?, hq0]
  rw [hval]

theorem dealsOf_bumped (bucket : Props) (x : ℚ)
    (hown : (ownGet bucket (lit "deals")).isSome = true) :
    dealsOf (JSVal.obj (objSet bucket (lit "deals") (JSVal.num x))) = x := by
  simp only [dealsOf, countOf, ownGet_objSet bucket (lit "deals") _ (lit "deals") (Or.inl hown),
    if_true]

theorem brandInit_zero (byBrand bp : Props) (brand : JSString) (hz : BucketsZero bp)
    (hk : brand ≠ lit "__proto__") :
    ∃ bp1, brandInit byBrand (some bp) brand = some bp1 ∧ BucketsZero bp1 := by
  refine ⟨objSet bp brand
      (JSVal.obj (defineProp (bucketSpread ((ownGet byBrand brand).getD JSVal.undefined))
        (lit "deals") (JSVal.num 0))), by simp only [brandInit, hk, if_false], ?_⟩
  apply objSet_forall (fun v => ∃ bucket, v = JSVal.obj bucket ∧
    ownGet bucket (lit "deals") = some (JSVal.num 0)) brand _ bp hz
  exact ⟨_, rfl, by simp only [ownGet_defineProp, if_true]⟩

theorem foldl_brandInit_zero (byBrand : Props) (keys : List JSString) (bp : Props)
    (hz : BucketsZero bp) (hk : ∀ k ∈ keys, k ≠ lit "__proto__") :
    ∃ bp1, keys.foldl (brandInit byBrand) (some bp) = some bp1 ∧ BucketsZero bp1 := by
  induction keys generalizing bp with
  | nil => exact ⟨bp, rfl, hz⟩
  | cons k t ih =>
    obtain ⟨bp1, h1, hz1⟩ := brandInit_zero byBrand bp k hz (hk k (by simp))
    obtain ⟨bp2, h2, hz2⟩ := ih bp1 hz1 (fun m hm => hk m (List.mem_cons_of_mem _ hm))
    exact ⟨bp2, by simp only [List.foldl_cons, h1, h2], hz2⟩

theorem bucketsZero_facts (bp : Props) (hz : BucketsZero bp) :
    BucketsOk bp ∧ totalDeals bp = 0 ∧ ∀ b, brandDeals bp b = 0 := by
  have hd : ∀ kv ∈ bp, dealsOf kv.2 = 0 := by
    intro kv hkv
    obtain ⟨bucket, hb, hdeals⟩ := hz kv hkv
    rw [hb]
    simp only [dealsOf, countOf, hdeals]
  refine ⟨?_, ?_, ?_⟩
  · intro kv hkv
    obtain ⟨bucket, hb, hdeals⟩ := hz kv hkv
    exact ⟨bucket, 0, hb, hdeals⟩
  · unfold totalDeals
    apply List.sum_eq_zero
    intro x hx
    obtain ⟨kv, hkv, rfl⟩ := List.mem_map.mp hx
    exact hd kv hkv
  · intro b
    unfold brandDeals
    cases hget : ownGet bp b with
    | none => rfl
    | some v => exact hd (b, v) (ownGet_mem bp b v hget)

/-- One round of the second loop of the brand merge, for a link key whose brand does not
name a member of `Object.prototype`: the count is added to the bucket of that brand, which
is created if absent, and to no other bucket. -/
theorem brandStep_plain (eventBrandMap bp : Props) (m : JSString) (c : ℚ) (hok : BucketsOk bp)
    (hb : (brandOfLink eventBrandMap m).toStr ∉ objectPrototypeKeys) :
    ∃ bp1, brandStep eventBrandMap (some bp) (m, JSVal.num c) = some bp1 ∧ BucketsOk bp1 ∧
      totalDeals bp1 = totalDeals bp + c ∧
      ∀ b, brandDeals bp1 b =
        brandDeals bp b + (if (brandOfLink eventBrandMap m).toStr = b then c else 0) := by
  generalize hkey : (brandOfLink eventBrandMap m).toStr = key at hb
  have hkp : key ≠ lit "__proto__" := fun h => hb (h ▸ lit_proto_mem)
  cases hget : ownGet bp key with
  | some v =>
    obtain ⟨bucket, q, hv, hdeals⟩ := hok (key, v) (ownGet_mem bp key v hget)
    simp only at hv
    subst hv
    have hown : (ownGet bucket (lit "deals")).isSome = true := by simp [hdeals]
    have hstep : brandStep eventBrandMap (some bp) (m, JSVal.num c) =
        some (objSet bp key (JSVal.obj (objSet bucket (lit "deals") (JSVal.num (q + c))))) := by
      have hor : jsOr (getProp bp key) emptyBucket = JSVal.obj bucket := by
        simp only [getProp, hget, jsOr, JSVal.truthy, if_true]
      unfold brandStep
      simp only [hkey, hor]
      rw [bump_own_num bucket (lit "deals") q c hdeals]
    refine ⟨_, hstep, ?_, ?_, ?_⟩
    · apply objSet_forall (fun v => ∃ bucket q, v = JSVal.obj bucket ∧
        ownGet bucket (lit "deals") = some (JSVal.num q)) key _ bp hok
      exact ⟨_, q + c, rfl, by
        rw [ownGet_objSet bucket (lit "deals") _ (lit "deals") (Or.inl hown)]
        simp⟩
    · unfold totalDeals
      rw [sum_objSet_own dealsOf key _ _ bp hget, dealsOf_bumped bucket (q + c) hown]
      simp only [dealsOf, countOf, hdeals]
      ring
    · intro b
      unfold brandDeals
      rw [ownGet_objSet bp key _ b (Or.inr hkp)]
      by_cases hbk : b = key
      · subst hbk
        simp only [if_true, hget, dealsOf_bumped bucket (q + c) hown]
        simp only [dealsOf, countOf, hdeals]
      · have hkb : ¬ key = b := fun h => hbk h.symm
        simp only [hbk, hkb, if_false, add_zero]
  | none =>
    have hown : (ownGet [(lit "leads", JSVal.num 0), (lit "meetings", JSVal.num 0),
        (lit "deals", JSVal.num 0)] (lit "deals")) = some (JSVal.num 0) := rfl
    have hown2 : (ownGet [(lit "leads", JSVal.num 0), (lit "meetings", JSVal.num 0),
        (lit "deals", JSVal.num 0)] (lit "deals")).isSome = true := by rw [hown]; rfl
    have hstep : brandStep eventBrandMap (some bp) (m, JSVal.num c) =
        some (objSet bp key (JSVal.obj (objSet [(lit "leads", JSVal.num 0),
          (lit "meetings", JSVal.num 0), (lit "deals", JSVal.num 0)] (lit "deals")
          (JSVal.num (0 + c))))) := by
      have hor : jsOr (getProp bp key) emptyBucket = JSVal.obj [(lit "leads", JSVal.num 0),
          (lit "meetings", JSVal.num 0), (lit "deals", JSVal.num 0)] := by
        simp only [getProp, hget, hb, if_false, jsOr, JSVal.truthy, Bool.false_eq_true,
          emptyBucket]
      unfold brandStep
      simp only [hkey, hor]
      rw [bump_own_num _ (lit "deals") 0 c hown]
    refine ⟨_, hstep, ?_, ?_, ?_⟩
    · apply objSet_forall (fun v => ∃ bucket q, v = JSVal.obj bucket ∧
        ownGet bucket (lit "deals") = some (JSVal.num q)) key _ bp hok
      exact ⟨_, 0 + c, rfl, by
        rw [ownGet_objSet _ (lit "deals") _ (lit "deals") (Or.inl hown2)]
        simp⟩
    · unfold totalDeals
      rw [sum_objSet_new dealsOf key _ bp hget hkp, dealsOf_bumped _ (0 + c) hown2]
      ring
    · intro b
      unfold brandDeals
      rw [ownGet_objSet bp key _ b (Or.inr hkp)]
      by_cases hbk : b = key
      · subst hbk
        simp only [if_true, hget, dealsOf_bumped _ (0 + c) hown2]
      · have hkb : ¬ key = b := fun h => hbk h.symm
        simp only [hbk, hkb, if_false, add_zero]

theorem foldl_brandStep_plain (eventBrandMap : Props) (counts : List (JSString × ℚ)) (bp : Props)
    (hok : BucketsOk bp)
    (hb : ∀ kc ∈ counts, (brandOfLink eventBrandMap kc.1).toStr ∉ objectPrototypeKeys) :
    ∃ bp1, (countEntries counts).foldl (brandStep eventBrandMap) (some bp) = some bp1 ∧
      BucketsOk bp1 ∧
      totalDeals bp1 = totalDeals bp + (counts.map Prod.snd).sum ∧
      ∀ b, brandDeals bp1 b = brandDeals bp b +
        ((counts.filter
          (fun kc => decide ((brandOfLink eventBrandMap kc.1).toStr = b))).map Prod.snd).sum := by
  induction counts generalizing bp with
  | nil => exact ⟨bp, rfl, hok, by simp, by simp⟩
  | cons kc t ih =>
    obtain ⟨bp1, h1, hok1, ht1, hb1⟩ :=
      brandStep_plain eventBrandMap bp kc.1 kc.2 hok (hb kc (by simp))
    obtain ⟨bp2, h2, hok2, ht2, hb2⟩ :=
      ih bp1 hok1 (fun x hx => hb x (List.mem_cons_of_mem _ hx))
    refine ⟨bp2, ?_, hok2, ?_, ?_⟩
    · simp only [countEntries, List.map_cons, List.foldl_cons, h1]
      exact h2
    · rw [ht2, ht1]
      simp only [List.map_cons, List.sum_cons]
      ring
    · intro b
      rw [hb2 b, hb1 b]
      by_cases hkb : (brandOfLink eventBrandMap kc.1).toStr = b
      · simp only [hkb, if_true, List.filter_cons, decide_True, List.map_cons, List.sum_cons]
        ring
      · simp only [hkb, if_false, List.filter_cons, decide_False, Bool.false_eq_true]
        ring

/-- A link key that `meetingIdToBrand` does not hold and that names no member of
`Object.prototype` is counted under `Other`. -/
theorem brandOfLink_missing (eventBrandMap : Props) (m : JSString)
    (hm : m ∉ objectPrototypeKeys) (hget : ownGet eventBrandMap m = none) :
    brandOfLink eventBrandMap m = JSVal.str (lit "Other") := by
  simp only [brandOfLink, getProp, hget, hm, if_false, jsOr, JSVal.truthy, Bool.false_eq_true]

/-- When no brand involved names a member of `Object.prototype`, the brand merge gives each
brand a deals count equal to the sum of the `byMeetingId` counts of the link keys counted
under that brand, and the deals counts over all brands sum to the sum of all counts. -/
theorem brandMerge_of_plain_keys (byBrand eventBrandMap : Props) (counts : List (JSString × ℚ))
    (h1 : ∀ k ∈ byBrand.map Prod.fst, k ≠ lit "__proto__")
    (h2 : ∀ kc ∈ counts, (brandOfLink eventBrandMap kc.1).toStr ∉ objectPrototypeKeys) :
    ∃ bp, brandMerge byBrand eventBrandMap (countEntries counts) = some bp ∧
      (∀ b, brandDeals bp b =
        ((counts.filter
          (fun kc => decide ((brandOfLink eventBrandMap kc.1).toStr = b))).map Prod.snd).sum) ∧
      totalDeals bp = (counts.map Prod.snd).sum := by
  obtain ⟨bp0, h0, hz⟩ := foldl_brandInit_zero byBrand (byBrand.map Prod.fst) []
    (by intro kv hkv; simp at hkv) h1
  obtain ⟨hok, htot, hbr⟩ := bucketsZero_facts bp0 hz
  obtain ⟨bp1, hm, _, ht, hb⟩ := foldl_brandStep_plain eventBrandMap counts bp0 hok h2
  refine ⟨bp1, ?_, ?_, ?_⟩
  · unfold brandMerge
    rw [h0]
    exact hm
  · intro b
    rw [hb b, hbr b, zero_add]
  · rw [ht, htot, zero_add]

/-! ## Record normaliser: the cases of `parseAmount` -/

/-- Claim C23: `parseAmount` returns a numeric input unchanged (a number that is not `NaN`),
and returns 0 for `null`, `undefined`, `NaN`, every value that is neither a number nor a
string, and every string that holds no parseable number once every character other than
digits, dot and minus is removed. -/
theorem parseAmount_cases (val : JSVal) :
    (∀ q, val = JSVal.num q → parseAmount val = q) ∧
    (val = JSVal.null ∨ val = JSVal.undefined ∨ val = JSVal.nan → parseAmount val = 0) ∧
    (val.typeof ≠ JSType.number → val.typeof ≠ JSType.string → parseAmount val = 0) ∧
    (∀ s, val = JSVal.str s → parseFloat (amountText s) = none → parseAmount val = 0) := by
  refine ⟨?_, ?_, ?_, ?_⟩
  · intro q h
    subst h
    rfl
  · intro h
    rcases h with h | h | h <;> subst h <;> rfl
  · intro h1 h2
    cases val with
    | num q => exact absurd rfl h1
    | str s => exact absurd rfl h2
    | nan => rfl
    | undefined => rfl
    | null => rfl
    | bool b => rfl
    | obj o => rfl
    | builtin k => rfl
  · intro s h hp
    subst h
    rw [parseAmount_str, hp]
    rfl

/-- Claim C23, witness: the number 12.5 is returned unchanged, `null` and the object `{}`
give 0, and the text `n/a`, which holds no digit, gives 0. -/
theorem parseAmount_cases_witness :
    parseAmount (JSVal.num (25 / 2)) = 25 / 2 ∧ parseAmount JSVal.null = 0 ∧
      parseAmount (JSVal.obj []) = 0 ∧
      (parseFloat (amountText (lit "n/a")) = none ∧ parseAmount (JSVal.str (lit "n/a")) = 0) :=
  ⟨(parseAmount_cases (JSVal.num (25 / 2))).1 _ rfl,
    (parseAmount_cases JSVal.null).2.1 (Or.inl rfl),
    (parseAmount_cases (JSVal.obj [])).2.2.1 (by decide) (by decide),
    rfl, (parseAmount_cases (JSVal.str (lit "n/a"))).2.2.2 _ rfl rfl⟩

/-! ## Projection builder: the previous total -/

/-- Claim C25: for every input, `previousTotal` of `buildChartData` is the sum of the
previous period's `byDay` buckets of the days `1..min(daysInMonth, P)`, where `P` is
`prevDaysInMonth`, or 31 when `prevDaysInMonth` is 0; and for a 30-day current month after
the 31-day March 2024 whose only deal (amount 500) was created on the 31st, `previousTotal`
is strictly less than the previous period's `totalRevenue`. -/
theorem buildChartData_previousTotal (dealsCurrent dealsPrev : Aggregate)
    (todayDay daysInMonth prevDaysInMonth : Nat) :
    (buildChartData dealsCurrent dealsPrev todayDay daysInMonth prevDaysInMonth).previousTotal =
      ((List.range' 1 (min daysInMonth (if prevDaysInMonth = 0 then 31 else prevDaysInMonth))).map
        (dayGet dealsPrev.byDay)).sum ∧
    (buildChartData dealsCurrent
        (processDeals [dealOnThirtyFirst] (lit "2024-03-01") (lit "2024-03-31")) todayDay 30
        31).previousTotal <
      (processDeals [dealOnThirtyFirst] (lit "2024-03-01") (lit "2024-03-31")).totalRevenue := by
  have hgen : ∀ (prev : Aggregate) (n p : Nat),
      (buildChartData dealsCurrent prev todayDay n p).previousTotal =
        ((List.range' 1 (min n (if p = 0 then 31 else p))).map (dayGet prev.byDay)).sum := by
    intro prev n p
    have h := (chartLoop_run (if todayDay > 0 then dealsCurrent.totalRevenue / (todayDay : ℚ) else 0)
      prev.byDay p n).2.2.2
    simp only [buildChartData]
    rw [h]
    rfl
  refine ⟨hgen _ _ _, ?_⟩
  rw [hgen]
  have hday : (processDeals [dealOnThirtyFirst] (lit "2024-03-01") (lit "2024-03-31")).byDay =
      [(31, dayGet [] 31 + parseAmount dealOnThirtyFirst.Amount)] := rfl
  have htot : (processDeals [dealOnThirtyFirst] (lit "2024-03-01") (lit "2024-03-31")).totalRevenue =
      0 + parseAmount dealOnThirtyFirst.Amount := rfl
  rw [hday, htot]
  norm_num [List.range', dayGet, parseAmount, dealOnThirtyFirst]

/-! ## Leaderboard builder: the true top five -/

theorem leaderboard_getElem? (m : List (JSString × ℚ)) (i : Nat) :
    (leaderboard m)[i]? = ((topFive m)[i]?).map (fun kv =>
      { rank := i + 1, name := kv.1, revenue := kv.2,
        pct := mathRound (kv.2 / maxRev (rankTop m) * 100) }) := by
  have h : rankTop m = (topFive m).enum.map
      (fun ie => { rank := ie.1 + 1, name := ie.2.1, revenue := ie.2.2, pct := 100 }) := rfl
  unfold leaderboard
  rw [List.getElem?_map]
  conv_lhs => rw [h]
  rw [List.getElem?_map, List.getElem?_enum]
  cases (topFive m)[i]? <;> rfl

theorem leaderboard_mem (m : List (JSString × ℚ)) (e : LeaderEntry) (h : e ∈ leaderboard m) :
    (e.name, e.revenue) ∈ topFive m := by
  obtain ⟨i, hi⟩ := List.getElem?_of_mem h
  rw [leaderboard_getElem?] at hi
  cases hk : (topFive m)[i]? with
  | none => rw [hk] at hi; simp at hi
  | some kv =>
    rw [hk] at hi
    simp only [Option.map_some', Option.some.injEq] at hi
    subst hi
    exact List.getElem?_mem hk

theorem mem_leaderboard_of_topFive (m : List (JSString × ℚ)) (kv : JSString × ℚ)
    (h : kv ∈ topFive m) : ∃ e ∈ leaderboard m, e.name = kv.1 ∧ e.revenue = kv.2 := by
  obtain ⟨i, hi⟩ := List.getElem?_of_mem h
  refine ⟨LeaderEntry.mk (i + 1) kv.1 kv.2 (mathRound (kv.2 / maxRev (rankTop m) * 100)),
    ?_, rfl, rfl⟩
  apply List.mem_iff_getElem?.mpr
  refine ⟨i, ?_⟩
  rw [leaderboard_getElem?, hi]
  rfl

/-- An entry with positive revenue is among the top five, or its revenue is at most that of
each of the top five. -/
theorem topFive_or_below (m : List (JSString × ℚ)) (kv : JSString × ℚ) (hm : kv ∈ m)
    (hpos : 0 < kv.2) : kv ∈ topFive m ∨ ∀ a ∈ topFive m, kv.2 ≤ a.2 := by
  have h1 : kv ∈ m.filter (fun kv => 0 < kv.2) := List.mem_filter.mpr ⟨hm, by simpa using hpos⟩
  have h2 : kv ∈ sortByRevenue (m.filter (fun kv => 0 < kv.2)) :=
    (List.perm_insertionSort revGe _).mem_iff.mpr h1
  have hs : (sortByRevenue (m.filter (fun kv => 0 < kv.2))).Pairwise revGe :=
    List.sorted_insertionSort revGe _
  rw [← List.take_append_drop 5 (sortByRevenue (m.filter (fun kv => 0 < kv.2)))] at h2 hs
  rcases List.mem_append.mp h2 with h | h
  · exact Or.inl h
  · right
    intro a ha
    exact (List.pairwise_append.mp hs).2.2 a ha kv h

/-- The owners and revenues on the leaderboard, in rank order, are those of `topFive`. -/
theorem leaderboard_entries (m : List (JSString × ℚ)) :
    (leaderboard m).map (fun e => (e.name, e.revenue)) = topFive m := by
  apply List.ext_getElem?
  intro i
  rw [List.getElem?_map, leaderboard_getElem?]
  cases (topFive m)[i]? <;> rfl

theorem topFive_length_eq (m : List (JSString × ℚ)) :
    (topFive m).length = min 5 (m.filter (fun kv => 0 < kv.2)).length := by
  simp [topFive, sortByRevenue, List.length_take, List.length_insertionSort]

/-- The positive entries of the mapping are the top five followed by entries that are each
at most every one of the top five. -/
theorem topFive_split (m : List (JSString × ℚ)) :
    ∃ rest, (topFive m ++ rest).Perm (m.filter (fun kv => 0 < kv.2)) ∧
      ∀ kv ∈ rest, ∀ a ∈ topFive m, kv.2 ≤ a.2 := by
  refine ⟨(sortByRevenue (m.filter (fun kv => 0 < kv.2))).drop 5, ?_, ?_⟩
  · unfold topFive
    rw [List.take_append_drop]
    exact List.perm_insertionSort revGe _
  · intro kv hkv a ha
    have hs : (sortByRevenue (m.filter (fun kv => 0 < kv.2))).Pairwise revGe :=
      List.sorted_insertionSort revGe _
    rw [← List.take_append_drop 5 (sortByRevenue (m.filter (fun kv => 0 < kv.2)))] at hs
    exact (List.pairwise_append.mp hs).2.2 a ha kv hkv

theorem leaderboard_sixOwners :
    (leaderboard sixOwners).map (fun e => (e.rank, e.name, e.revenue)) =
      [(1, lit "A", 60), (2, lit "B", 50), (3, lit "C", 40), (4, lit "D", 30), (5, lit "E", 20)] := by
  norm_num [leaderboard, rankTop, maxRev, sortByRevenue, revGe, mathRound, List.enum, List.enumFrom,
    sixOwners]

/-- Claim C24: for every revenue-by-owner mapping, the leaderboard is the true top 5. It
lists `min(5, n)` entries, `n` being the number of owners with positive revenue; the entry
at index `i` has rank `i + 1`; the owners with positive revenue are exactly the listed
entries together with the owners left out, each of whom has revenue less than or equal to
that of every listed entry; the entries are in descending order of revenue; and when some
owner has positive revenue there is a first entry, whose revenue is the largest positive
revenue of the mapping. -/
theorem leaderboard_true_top_five (repRevenue : List (JSString × ℚ)) :
    (leaderboard repRevenue).length =
      min 5 (repRevenue.filter (fun kv => 0 < kv.2)).length ∧
    (∀ i e, (leaderboard repRevenue)[i]? = some e → e.rank = i + 1) ∧
    (∃ leftOut,
      ((leaderboard repRevenue).map (fun e => (e.name, e.revenue)) ++ leftOut).Perm
        (repRevenue.filter (fun kv => 0 < kv.2)) ∧
      ∀ kv ∈ leftOut, ∀ e ∈ leaderboard repRevenue, kv.2 ≤ e.revenue) ∧
    (leaderboard repRevenue).Pairwise (fun a b => b.revenue ≤ a.revenue) ∧
    ((∃ kv ∈ repRevenue, 0 < kv.2) →
      ∃ top, (leaderboard repRevenue)[0]? = some top ∧ top.rank = 1 ∧
        (∃ kv ∈ repRevenue, kv.1 = top.name ∧ kv.2 = top.revenue) ∧
        ∀ kv ∈ repRevenue, 0 < kv.2 → kv.2 ≤ top.revenue) ∧
    (∀ kv ∈ repRevenue, 0 < kv.2 →
      (∃ e ∈ leaderboard repRevenue, e.name = kv.1 ∧ e.revenue = kv.2) ∨
        ∀ e ∈ leaderboard repRevenue, kv.2 ≤ e.revenue) := by
  have hrank : ∀ i e, (leaderboard repRevenue)[i]? = some e → e.rank = i + 1 := by
    intro i e h
    rw [leaderboard_getElem?] at h
    cases hk : (topFive repRevenue)[i]? with
    | none => rw [hk] at h; simp at h
    | some kv =>
      rw [hk] at h
      simp only [Option.map_some', Option.some.injEq] at h
      subst h
      rfl
  have htopmax : ∀ top, (leaderboard repRevenue)[0]? = some top →
      ∀ kv ∈ repRevenue, 0 < kv.2 → kv.2 ≤ top.revenue := by
    intro top htop kv hkv hpos
    have hmem : top ∈ leaderboard repRevenue := List.getElem?_mem htop
    rcases topFive_or_below repRevenue kv hkv hpos with h | h
    · obtain ⟨e, he, _, hrev⟩ := mem_leaderboard_of_topFive repRevenue kv h
      rw [← hrev]
      have hp := leaderboard_pairwise repRevenue
      cases hl : leaderboard repRevenue with
      | nil => rw [hl] at he; simp at he
      | cons a t =>
        rw [hl] at he hp htop
        simp only [List.getElem?_cons_zero, Option.some.injEq] at htop
        subst htop
        rcases List.mem_cons.mp he with rfl | he
        · exact le_refl _
        · exact List.rel_of_pairwise_cons hp he
    · exact h (top.name, top.revenue) (leaderboard_mem repRevenue top hmem)
  refine ⟨?_, hrank, ?_, leaderboard_pairwise repRevenue, ?_, ?_⟩
  · rw [leaderboard_length_eq, topFive_length_eq]
  · obtain ⟨rest, hperm, hle⟩ := topFive_split repRevenue
    refine ⟨rest, by rw [leaderboard_entries]; exact hperm, ?_⟩
    intro kv hkv e he
    exact hle kv hkv (e.name, e.revenue) (leaderboard_mem repRevenue e he)
  · intro hex
    have hne := topFive_ne_nil repRevenue hex
    cases hl : leaderboard repRevenue with
    | nil =>
      have := leaderboard_length_eq repRevenue
      rw [hl] at this
      exact absurd (List.length_eq_zero.mp this.symm) hne
    | cons top rest =>
      have h0 : (leaderboard repRevenue)[0]? = some top := by rw [hl]; simp
      have hmem : (top.name, top.revenue) ∈ topFive repRevenue :=
        leaderboard_mem repRevenue top (by rw [hl]; simp)
      have hfil : (top.name, top.revenue) ∈ repRevenue.filter (fun kv => 0 < kv.2) :=
        (List.perm_insertionSort revGe _).mem_iff.mp (List.mem_of_mem_take hmem)
      exact ⟨top, by simp, hrank 0 top h0, ⟨(top.name, top.revenue), (List.mem_filter.mp hfil).1, rfl, rfl⟩,
        htopmax top h0⟩
  · intro kv hkv hpos
    rcases topFive_or_below repRevenue kv hkv hpos with h | h
    · exact Or.inl (mem_leaderboard_of_topFive repRevenue kv h)
    · right
      intro e he
      exact h (e.name, e.revenue) (leaderboard_mem repRevenue e he)

/-- Claim C24, witness: the mapping of six owners `A` to `F` with revenues 60 down to 10 has
an owner with positive revenue, so its leaderboard has a first entry of rank 1 whose revenue
is at least 60; the leaderboard lists five entries, `A` to `E` with ranks 1 to 5, and
leaves out `F`. -/
theorem leaderboard_true_top_five_witness :
    (∃ kv ∈ sixOwners, 0 < kv.2) ∧
    (∃ top, (leaderboard sixOwners)[0]? = some top ∧ top.rank = 1 ∧
      (∃ kv ∈ sixOwners, kv.1 = top.name ∧ kv.2 = top.revenue) ∧
      ∀ kv ∈ sixOwners, 0 < kv.2 → kv.2 ≤ top.revenue) ∧
    (leaderboard sixOwners).length = 5 ∧
    (leaderboard sixOwners).map (fun e => (e.rank, e.name, e.revenue)) =
      [(1, lit "A", 60), (2, lit "B", 50), (3, lit "C", 40), (4, lit "D", 30), (5, lit "E", 20)] :=
  ⟨⟨(lit "A", 60), by simp [sixOwners], by norm_num⟩,
    (leaderboard_true_top_five sixOwners).2.2.2.2.1 ⟨(lit "A", 60), by simp [sixOwners], by norm_num⟩,
    by
      rw [(leaderboard_true_top_five sixOwners).1]
      norm_num [sixOwners],
    leaderboard_sixOwners⟩

/-! ## Calendar resolver: the previous period of `month` -/

/-- On a host at UTC, the window starting 2024-03-01 has February 2024 as its previous
window, and the one starting 2024-01-01 has December 2023. -/
theorem previousPeriodByMonth_at_utc :
    previousPeriodByMonth 0 (lit "2024-03-01") = priorCalendarMonth 2024 3 ∧
      previousPeriodByMonth 0 (lit "2024-01-01") = (lit "2023-12-01", lit "2023-12-31") := by
  decide

/-- Claim C21, the code at the failing input: on a host six hours west of UTC (US Central
time), for the filter `month` and the window starting 2024-03-01, the previous window
computed in `loadAll` is 2024-01-01 to 2024-01-31, whereas the prior calendar month is
February 2024, 2024-02-01 to 2024-02-29. `new Date(start)` is midnight UTC, which is still
the 29th of February on that host, so `setMonth(getMonth() - 1)` lands in January. -/
theorem previousPeriodByMonth_west_of_utc :
    previousPeriodByMonth (-360) (lit "2024-03-01") = (lit "2024-01-01", lit "2024-01-31") ∧
      priorCalendarMonth 2024 3 = (lit "2024-02-01", lit "2024-02-29") ∧
      previousPeriod (lit "month")
          { start := lit "2024-03-01", end_ := lit "2024-03-31", tz := lit "-06:00",
            today := lit "2024-03-10", yesterday := lit "2024-03-09", hostOffset := -360 } =
        some (lit "2024-01-01", lit "2024-01-31") := by
  decide

/-! ## Capacity split -/

/-- Claim C26: for every leads aggregate, the capacity split computed in `loadAll` has
`canvassingPct + digitalPct = 100` whenever the total lead count is greater than 0, has
`canvassingPct = digitalPct = 50` when the total is 0, and has
`canvassing + digital = total` whenever the canvassing count does not exceed the total. -/
theorem capacity_split (bySource : List (JSString × ℚ)) (count : ℚ) :
    (0 < count →
      (capacity bySource count).canvassingPct + (capacity bySource count).digitalPct = 100) ∧
    (count = 0 →
      (capacity bySource count).canvassingPct = 50 ∧ (capacity bySource count).digitalPct = 50) ∧
    ((capacity bySource count).canvassing ≤ (capacity bySource count).total →
      (capacity bySource count).canvassing + (capacity bySource count).digital =
        (capacity bySource count).total) := by
  refine ⟨?_, ?_, ?_⟩
  · intro h
    simp only [capacity, gt_iff_lt, h, if_true, and_true]
    split_ifs <;> omega
  · intro h
    subst h
    simp [capacity]
  · intro h
    simp only [capacity] at h ⊢
    rw [max_eq_right (by linarith)]
    ring

/-- Claim C26, witness: with 3 leads, 1 of them from a canvassing source, the percentages
are 33 and 67 and the two counts add up to the total. -/
theorem capacity_split_witness :
    ((0 : ℚ) < 3 ∧
      (capacity [(lit "Door Canvassing", 1), (lit "Web", 2)] 3).canvassingPct +
        (capacity [(lit "Door Canvassing", 1), (lit "Web", 2)] 3).digitalPct = 100) ∧
    (capacity [(lit "Door Canvassing", 1), (lit "Web", 2)] 0).canvassingPct = 50 ∧
    (capacity [(lit "Door Canvassing", 1), (lit "Web", 2)] 3).canvassing +
        (capacity [(lit "Door Canvassing", 1), (lit "Web", 2)] 3).digital =
      (capacity [(lit "Door Canvassing", 1), (lit "Web", 2)] 3).total :=
  ⟨⟨by norm_num, (capacity_split _ 3).1 (by norm_num)⟩,
    ((capacity_split _ 0).2.1 rfl).1,
    (capacity_split _ 3).2.2 (by
      have h : ((([(lit "Door Canvassing", (1 : ℚ)), (lit "Web", 2)]).map Prod.fst).filter
          isCanvassing) = [lit "Door Canvassing"] := by decide
      simp only [capacity, h]
      norm_num [sourceCount])⟩

theorem isWhiteSpace_of_isDigit (c : Nat) (h : isDigit c = true) : isWhiteSpace c = false := by
  simp only [isDigit, Bool.and_eq_true, decide_eq_true_eq] at h
  simp only [isWhiteSpace, Bool.or_eq_false_iff, Bool.and_eq_false_iff, beq_eq_false_iff_ne, ne_eq,
    decide_eq_false_iff_not, not_le]
  omega

theorem parseInt_digit_cons (c : Nat) (cs : JSString) (h : isDigit c = true) :
    ∃ n : Int, parseInt (c :: cs) = some n ∧ 0 ≤ n := by
  have hw := isWhiteSpace_of_isDigit c h
  have h45 : c ≠ 45 := by
    simp only [isDigit, Bool.and_eq_true, decide_eq_true_eq] at h
    omega
  have h43 : c ≠ 43 := by
    simp only [isDigit, Bool.and_eq_true, decide_eq_true_eq] at h
    omega
  refine ⟨(digitsVal (c :: cs.takeWhile isDigit) : Int), ?_, by positivity⟩
  simp [parseInt, List.dropWhile, hw, h45, h43, List.takeWhile, h]

theorem chartInputs_isSome (today : JSString) (h : (parseIsoDate today).isSome = true) :
    (chartInputs today).isSome = true := by
  have hshape : today.length = 10 ∧ dateAt today = true := by
    unfold parseIsoDate at h
    split at h
    · rename_i hc
      simp only [Bool.and_eq_true, decide_eq_true_eq] at hc
      exact ⟨hc.1.1.1.1.1, hc.1.1.1.1.2⟩
    · simp at h
  obtain ⟨hlen, hdate⟩ := hshape
  match today, hlen, hdate, h with
  | [a, b, c, d, e, f, g, i, j, k], _, hdate, h =>
    unfold dateAt at hdate
    split at hdate
    · rename_i heq
      simp only [List.cons.injEq] at heq
      obtain ⟨rfl, rfl, rfl, rfl, rfl, rfl, rfl, rfl, rfl, rfl, _⟩ := heq
      simp only [Bool.and_eq_true] at hdate
      obtain ⟨⟨⟨⟨⟨⟨⟨ha, _⟩, _⟩, _⟩, hf⟩, _⟩, hj⟩, _⟩ := hdate
      obtain ⟨y, hy, _⟩ := parseInt_digit_cons _ [b, c, d] ha
      obtain ⟨m, hm, _⟩ := parseInt_digit_cons _ [g] hf
      obtain ⟨dd, hd, _⟩ := parseInt_digit_cons _ [k] hj
      obtain ⟨z, hz⟩ := Option.isSome_iff_exists.mp h
      simp only [chartInputs, hz, List.take, List.drop, hy, hm, hd, Option.isSome_some]
    · simp at hdate


theorem mathRound_zero : mathRound 0 = 0 := by
  norm_num [mathRound]

theorem cumulativeByDay_nil (limit d : Nat) : cumulativeByDay [] limit d = 0 := by
  unfold cumulativeByDay
  apply List.sum_eq_zero
  intro x hx
  obtain ⟨n, _, rfl⟩ := List.mem_map.mp hx
  rfl

/-- With no revenue in either period, every value of the two chart series is 0. -/
theorem buildChartData_no_revenue (cur prev : Aggregate) (todayDay daysInMonth prevDaysInMonth : Nat)
    (hcur : cur.totalRevenue = 0) (hprev : prev.byDay = []) :
    (∀ v ∈ (buildChartData cur prev todayDay daysInMonth prevDaysInMonth).currentMonth, v = 0) ∧
    (∀ v ∈ (buildChartData cur prev todayDay daysInMonth prevDaysInMonth).previousMonth, v = 0) := by
  obtain ⟨_, h2, h3, _⟩ := chartLoop_run (if todayDay > 0 then cur.totalRevenue / (todayDay : ℚ) else 0)
    prev.byDay prevDaysInMonth daysInMonth
  have hrate : (if todayDay > 0 then cur.totalRevenue / (todayDay : ℚ) else 0) = 0 := by
    rw [hcur]
    split <;> simp
  simp only [buildChartData]
  constructor
  · intro v hv
    rw [h2, hrate] at hv
    obtain ⟨d, _, rfl⟩ := List.mem_map.mp hv
    rw [mul_zero, mathRound_zero]
  · intro v hv
    rw [h3, hprev] at hv
    obtain ⟨d, _, rfl⟩ := List.mem_map.mp hv
    rw [cumulativeByDay_nil, mathRound_zero]

theorem previousPeriod_isSome (filter : JSString) (c : Clock)
    (hstart : (parseIsoDate c.start).isSome = true) (hend : (parseIsoDate c.end_).isSome = true) :
    (previousPeriod filter c).isSome = true := by
  unfold previousPeriod
  split
  · rfl
  · obtain ⟨s, hs⟩ := Option.isSome_iff_exists.mp hstart
    obtain ⟨e, he⟩ := Option.isSome_iff_exists.mp hend
    simp only [previousPeriodByDays, hs, he, Option.isSome_some]

/-- The snapshot built when every fetch has returned its default. -/
theorem buildSnapshot_defaults (filter : JSString) (c : Clock) (prev : JSString × JSString)
    (htoday : (parseIsoDate c.today).isSome = true) :
    ∃ s, buildSnapshot filter c prev [] noLeads noEvents noLeads noLeads noEvents noEvents = some s ∧
      s.metrics.revenue = 0 ∧ s.metrics.prevRevenue = 0 ∧ s.metrics.leads = 0 ∧
      s.metrics.meetings = 0 ∧ s.metrics.deals = 0 ∧ s.leaderboard = [] ∧
      s.statusCounts = statusesOf 0 0 0 0 0 ∧ s.brandPerformance = [] ∧
      ∀ cd, s.chartData = some cd →
        (∀ v ∈ cd.currentMonth, v = 0) ∧ (∀ v ∈ cd.previousMonth, v = 0) := by
  obtain ⟨n, hn⟩ := Option.isSome_iff_exists.mp (chartInputs_isSome c.today htoday)
  have hbrand : brandMerge noEvents.byBrand noEvents.meetingIdToBrand
      (processDeals [] c.start c.end_).byMeetingId = some [] := rfl
  by_cases hf : filter = lit "month"
  · cases hb : buildSnapshot filter c prev [] noLeads noEvents noLeads noLeads noEvents noEvents with
    | none => simp [buildSnapshot, hf, hn, hbrand] at hb
    | some s =>
      simp only [buildSnapshot, hf, if_true, hn, Option.map_some', hbrand, Option.some.injEq] at hb
      subst hb
      refine ⟨_, rfl, rfl, rfl, rfl, rfl, rfl, rfl, rfl, rfl, ?_⟩
      intro cd hcd
      simp only [Option.some.injEq] at hcd
      subst hcd
      exact buildChartData_no_revenue _ _ _ _ _ rfl rfl
  · cases hb : buildSnapshot filter c prev [] noLeads noEvents noLeads noLeads noEvents noEvents with
    | none => simp [buildSnapshot, hf, hbrand] at hb
    | some s =>
      simp only [buildSnapshot, hf, if_false, hbrand, Option.some.injEq] at hb
      subst hb
      refine ⟨_, rfl, rfl, rfl, rfl, rfl, rfl, rfl, rfl, rfl, ?_⟩
      intro cd hcd
      simp at hcd

/-- Claim C22: when the query capability is unavailable (SDK not initialised), for every
filter and every clock reading made of calendar dates, `loadAll` completes without raising
and without a single query, and returns a snapshot of all zeros: revenue, prevRevenue,
leads, meetings and deals are 0, the leaderboard is empty, the five status counts are 0,
the brand table is empty, and every value of the chart series (when present) is 0. -/
theorem loadAll_sdk_unavailable {σ : Type} (apiDeals : Backend σ Deal) (apiLeads : Backend σ Lead)
    (apiEvents : Backend σ Event) (fuel : Nat) (dateFilter : JSString) (c : Clock) (w : World σ)
    (hstart : (parseIsoDate c.start).isSome = true) (hend : (parseIsoDate c.end_).isSome = true)
    (htoday : (parseIsoDate c.today).isSome = true) :
    ∃ s, loadAll false apiDeals apiLeads apiEvents fuel dateFilter c w = some (s, w) ∧
      s.metrics.revenue = 0 ∧ s.metrics.prevRevenue = 0 ∧ s.metrics.leads = 0 ∧
      s.metrics.meetings = 0 ∧ s.metrics.deals = 0 ∧ s.leaderboard = [] ∧
      s.statusCounts = statusesOf 0 0 0 0 0 ∧ s.brandPerformance = [] ∧
      ∀ cd, s.chartData = some cd →
        (∀ v ∈ cd.currentMonth, v = 0) ∧ (∀ v ∈ cd.previousMonth, v = 0) := by
  obtain ⟨prev, hprev⟩ := Option.isSome_iff_exists.mp
    (previousPeriod_isSome (if dateFilter.isEmpty then lit "month" else dateFilter) c hstart hend)
  obtain ⟨s, hs, hrest⟩ := buildSnapshot_defaults
    (if dateFilter.isEmpty then lit "month" else dateFilter) c prev htoday
  refine ⟨s, ?_, hrest⟩
  simp only [loadAll, hprev, fetchDealsAll, fetchLeads, fetchEvents, Bool.not_false, if_true,
    Option.some_bind, hs, Option.map_some']

/-- Claim C22, witness: on 10 March 2024, with the filter `month` and no SDK, `loadAll`
returns a snapshot of zeros and leaves the query capability untouched. -/
theorem loadAll_sdk_unavailable_witness :
    ((parseIsoDate marchClock.start).isSome = true ∧ (parseIsoDate marchClock.end_).isSome = true ∧
      (parseIsoDate marchClock.today).isSome = true) ∧
    ∃ s, loadAll false (noBackend Deal) (noBackend Lead) (noBackend Event) 0 (lit "month")
        marchClock { st := 0, calls := [] } = some (s, { st := 0, calls := [] }) ∧
      s.metrics.revenue = 0 ∧ s.metrics.prevRevenue = 0 ∧ s.metrics.leads = 0 ∧
      s.metrics.meetings = 0 ∧ s.metrics.deals = 0 ∧ s.leaderboard = [] ∧
      s.statusCounts = statusesOf 0 0 0 0 0 ∧ s.brandPerformance = [] ∧
      ∀ cd, s.chartData = some cd →
        (∀ v ∈ cd.currentMonth, v = 0) ∧ (∀ v ∈ cd.previousMonth, v = 0) :=
  ⟨⟨by decide, by decide, by decide⟩,
    loadAll_sdk_unavailable _ _ _ 0 (lit "month") marchClock _ (by decide) (by decide) (by decide)⟩

/-! ## The brand table of the snapshot -/

/-- The brand table of the snapshot is the brand merge of the events and deals of the period. -/
theorem buildSnapshot_brandPerformance (filter : JSString) (c : Clock) (prev : JSString × JSString)
    (allDeals : List Deal) (leads : LeadsAgg) (events : EventsAgg)
    (todayLeads yesterdayLeads : LeadsAgg) (todayEvents yesterdayEvents : EventsAgg) (s : Snapshot)
    (h : buildSnapshot filter c prev allDeals leads events todayLeads yesterdayLeads todayEvents
      yesterdayEvents = some s) :
    brandMerge events.byBrand events.meetingIdToBrand
      (processDeals allDeals c.start c.end_).byMeetingId = some s.brandPerformance := by
  unfold buildSnapshot at h
  simp only at h
  split at h
  · rename_i chartData brandPerf hchart hbrand
    simp only [Option.some.injEq] at h
    subst h
    exact hbrand
  · simp at h

/-- Claim C27, the code at the failing input: for the single event record of brand
`constructor` and no deal, `fetchEvents` takes the constructor inherited from
`Object.prototype` for the bucket of that brand, and the brand table of `loadAll` then holds
for it the bucket `{ meetings: NaN, deals: 0 }`: it has no `leads` at all (the read gives
`undefined`), and its meetings count is `NaN` although the brand has one event record. -/
theorem brandPerformance_inherited_brand :
    aggregateEvents [eventBrandConstructor] =
      Run.done
        { count := 1
          byStage := [(lit "None", JSVal.num (0 + 1))]
          byBrand := [(lit "constructor", JSVal.builtin (lit "constructor"))]
          meetingIdToBrand := [(lit "e1", JSVal.str (lit "constructor"))] } ∧
    brandMerge [(lit "constructor", JSVal.builtin (lit "constructor"))]
        [(lit "e1", JSVal.str (lit "constructor"))] [] =
      some [(lit "constructor", JSVal.obj [(lit "meetings", JSVal.nan), (lit "deals", JSVal.num 0)])] ∧
    eventsOfBrand [eventBrandConstructor] (lit "constructor") = 1 ∧
    getProp [(lit "meetings", JSVal.nan), (lit "deals", JSVal.num 0)] (lit "leads") =
      JSVal.undefined := by
  refine ⟨rfl, rfl, rfl, rfl⟩

theorem eventsOfBrand_append (done : List Event) (d : Event) (k : JSString) :
    eventsOfBrand (done ++ [d]) k = eventsOfBrand done k + (if eventBrandKey d = k then 1 else 0) := by
  unfold eventsOfBrand
  rw [List.filter_append, List.length_append]
  by_cases h : eventBrandKey d = k
  · simp [h]
  · simp [h]

theorem eventsOfBrand_pos (data : List Event) (k : JSString) (h : 0 < eventsOfBrand data k) :
    ∃ d ∈ data, eventBrandKey d = k := by
  unfold eventsOfBrand at h
  obtain ⟨d, hd⟩ := List.exists_mem_of_length_pos h
  obtain ⟨hmem, hk⟩ := List.mem_filter.mp hd
  exact ⟨d, hmem, by simpa using hk⟩

theorem goodBucket_empty : GoodBucket emptyBucket 0 :=
  ⟨_, rfl, rfl, rfl⟩

/-- Writing a property other than `leads` and `meetings` keeps a good bucket good. -/
theorem goodBucket_objSet (bucket : Props) (n : Nat) (k : JSString) (x : JSVal)
    (h : GoodBucket (JSVal.obj bucket) n) (hk1 : k ≠ lit "leads") (hk2 : k ≠ lit "meetings")
    (hk3 : k ≠ lit "__proto__") : GoodBucket (JSVal.obj (objSet bucket k x)) n := by
  obtain ⟨b, hb, hl, hm⟩ := h
  simp only [JSVal.obj.injEq] at hb
  subst hb
  refine ⟨_, rfl, ?_, ?_⟩
  · rw [ownGet_objSet _ _ _ _ (Or.inr hk3), if_neg (fun h => hk1 h.symm)]
    exact hl
  · rw [ownGet_objSet _ _ _ _ (Or.inr hk3), if_neg (fun h => hk2 h.symm)]
    exact hm

theorem goodBucket_defineProp_deals (bucket : Props) (n : Nat) (x : JSVal)
    (h : GoodBucket (JSVal.obj bucket) n) :
    GoodBucket (JSVal.obj (defineProp bucket (lit "deals") x)) n := by
  obtain ⟨b, hb, hl, hm⟩ := h
  simp only [JSVal.obj.injEq] at hb
  subst hb
  refine ⟨_, rfl, ?_, ?_⟩
  · rw [ownGet_defineProp, if_neg (by decide)]
    exact hl
  · rw [ownGet_defineProp, if_neg (by decide)]
    exact hm

/-- Counting one more meeting in a good bucket. -/
theorem goodBucket_count (bucket : Props) (n : Nat) (h : GoodBucket (JSVal.obj bucket) n) :
    getProp bucket (lit "meetings") = JSVal.num (n : ℚ) ∧
      GoodBucket (JSVal.obj (objSet bucket (lit "meetings") (increment (JSVal.num (n : ℚ)))))
        (n + 1) := by
  obtain ⟨b, hb, hl, hm⟩ := h
  simp only [JSVal.obj.injEq] at hb
  subst hb
  refine ⟨by simp only [getProp, hm], _, rfl, ?_, ?_⟩
  · rw [ownGet_objSet _ _ _ _ (Or.inr (by decide)), if_neg (by decide)]
    exact hl
  · rw [ownGet_objSet _ _ _ _ (Or.inr (by decide)), if_pos rfl]
    simp [increment, JSVal.toPrimitive, JSVal.toNumber?]

/-- The statements that count an event under its brand, for a brand that names no member
of `Object.prototype`, on a table that is right for the events seen so far: the table is
then right for these events and the new one. -/
theorem brandCount_plain (done : List Event) (d : Event) (byBrand : Props)
    (hinv : BrandTable done byBrand) (hplain : PlainKeys byBrand)
    (hk : eventBrandKey d ∉ objectPrototypeKeys) :
    ∃ byBrand1, brandCount byBrand (eventBrandKey d) = Run.done byBrand1 ∧
      BrandTable (done ++ [d]) byBrand1 ∧ PlainKeys byBrand1 := by
  have hkp : eventBrandKey d ≠ lit "__proto__" := fun h => hk (h ▸ lit_proto_mem)
  generalize hkey : eventBrandKey d = key at hk hkp
  have hfinish : ∀ (bucket : Props), GoodBucket (JSVal.obj bucket) (eventsOfBrand done key) →
      jsOr (getProp byBrand key) emptyBucket = JSVal.obj bucket →
      ∃ byBrand1, brandCount byBrand key = Run.done byBrand1 ∧
        BrandTable (done ++ [d]) byBrand1 ∧ PlainKeys byBrand1 := by
    intro bucket hgood hor
    obtain ⟨hm, hgood1⟩ := goodBucket_count bucket _ hgood
    refine ⟨objSet byBrand key (JSVal.obj (objSet bucket (lit "meetings")
      (increment (JSVal.num ((eventsOfBrand done key : Nat) : ℚ))))), ?_, ?_, ?_⟩
    · simp only [brandCount, hor, hm]
    rotate_left
    · intro m hm2
      rw [ownGet_objSet _ _ _ _ (Or.inr hkp)] at hm2
      by_cases hmk : m = key
      · rw [hmk]
        exact hk
      · simp only [hmk, if_false] at hm2
        exact hplain m hm2
    · intro k
      rw [eventsOfBrand_append, hkey, ownGet_objSet _ _ _ _ (Or.inr hkp)]
      by_cases hkk : k = key
      · subst hkk
        simp only [if_true, Option.isSome_some, implies_true, true_and, Option.some.injEq]
        intro v hv
        subst hv
        exact hgood1
      · have hkk2 : ¬ key = k := fun h => hkk h.symm
        simp only [hkk, hkk2, if_false, add_zero]
        exact hinv k
  cases hget : ownGet byBrand key with
  | some v =>
    obtain ⟨bucket, hv, hl, hm⟩ := (hinv key).2 v hget
    subst hv
    apply hfinish bucket ⟨bucket, rfl, hl, hm⟩
    simp only [getProp, hget, jsOr, JSVal.truthy, if_true]
  | none =>
    have hzero : eventsOfBrand done key = 0 := by
      by_contra hne
      have := (hinv key).1 (Nat.pos_of_ne_zero hne)
      rw [hget] at this
      simp at this
    obtain ⟨bucket, hb, hl, hm⟩ := goodBucket_empty
    apply hfinish bucket
    · rw [hzero]
      exact ⟨bucket, rfl, hl, hm⟩
    · simp only [getProp, hget, hk, if_false, jsOr, JSVal.truthy, Bool.false_eq_true]
      exact hb

theorem jsOr_truthy (a b : JSVal) (hb : b.truthy = true) : (jsOr a b).truthy = true := by
  unfold jsOr
  by_cases h : a.truthy = true
  · simp only [h, if_true]
  · simp only [h, if_false]
    exact hb

theorem eventBrand_truthy (d : Event) : (eventBrand d).truthy = true :=
  jsOr_truthy _ _ rfl

theorem linkBrand_done (meetingIdToBrand : Props) (id brand : JSVal)
    (hid : id.toStr ≠ lit "__proto__") (hok : LinkOk meetingIdToBrand)
    (hb : brand.truthy = true ∧ brand.toStr ∉ objectPrototypeKeys) :
    ∃ m, linkBrand meetingIdToBrand id brand = Run.done m ∧ LinkOk m := by
  unfold linkBrand
  split
  · exact ⟨_, rfl, hok⟩
  · split
    · rw [if_neg (fun h => hid h.1)]
      exact ⟨_, rfl, objSet_forall (fun v => v.truthy = true ∧ v.toStr ∉ objectPrototypeKeys)
        _ _ _ hok hb⟩
    · exact ⟨_, rfl, objSet_forall (fun v => v.truthy = true ∧ v.toStr ∉ objectPrototypeKeys)
        _ _ _ hok hb⟩

theorem eventStep_plain (done : List Event) (d : Event) (acc : EventsAgg)
    (hinv : BrandTable done acc.byBrand) (hplain : PlainKeys acc.byBrand)
    (hlink : LinkOk acc.meetingIdToBrand) (hd : PlainEvent d) :
    ∃ acc1, eventStep acc d = Run.done acc1 ∧ BrandTable (done ++ [d]) acc1.byBrand ∧
      PlainKeys acc1.byBrand ∧ LinkOk acc1.meetingIdToBrand := by
  obtain ⟨⟨stage, hstage⟩, ⟨src, hsrc⟩, hk, hid⟩ := hd
  obtain ⟨byBrand1, hb, hinv1, hplain1⟩ := brandCount_plain done d acc.byBrand hinv hplain hk
  obtain ⟨m1, hm1, hlink1⟩ := linkBrand_done acc.meetingIdToBrand d.id (eventBrand d) hid hlink
    ⟨eventBrand_truthy d, hk⟩
  unfold eventBrandKey at hb
  refine ⟨EventsAgg.mk acc.count (bump acc.byStage (trim stage) 1) byBrand1 m1, ?_, hinv1,
    hplain1, hlink1⟩
  simp only [eventStep, hstage, hb, hm1, Run.andThen, hsrc]

theorem foldl_eventStep_plain (data done : List Event) (acc : EventsAgg)
    (hinv : BrandTable done acc.byBrand) (hplain : PlainKeys acc.byBrand)
    (hlink : LinkOk acc.meetingIdToBrand) (hd : ∀ d ∈ data, PlainEvent d) :
    ∃ acc1, data.foldl (fun r d => r.andThen (fun acc => eventStep acc d)) (Run.done acc) =
        Run.done acc1 ∧ BrandTable (done ++ data) acc1.byBrand ∧
      PlainKeys acc1.byBrand ∧ LinkOk acc1.meetingIdToBrand := by
  induction data generalizing done acc with
  | nil => exact ⟨acc, rfl, by simpa using hinv, hplain, hlink⟩
  | cons d t ih =>
    obtain ⟨acc1, h1, hinv1, hplain1, hlink1⟩ := eventStep_plain done d acc hinv hplain hlink
      (hd d (by simp))
    obtain ⟨acc2, h2, hinv2, hplain2, hlink2⟩ := ih (done ++ [d]) acc1 hinv1 hplain1 hlink1
      (fun x hx => hd x (List.mem_cons_of_mem _ hx))
    refine ⟨acc2, ?_, by simpa using hinv2, hplain2, hlink2⟩
    simp only [List.foldl_cons, Run.andThen, h1]
    exact h2

theorem brandTable_nil : BrandTable [] [] := by
  intro k
  constructor
  · intro h
    simp [eventsOfBrand] at h
  · intro v hv
    simp [ownGet] at hv

/-- The aggregation of well-formed events completes, and its `byBrand` is right. -/
theorem aggregateEvents_plain (data : List Event) (hd : ∀ d ∈ data, PlainEvent d) :
    ∃ agg, aggregateEvents data = Run.done agg ∧ BrandTable data agg.byBrand ∧
      PlainKeys agg.byBrand ∧ LinkOk agg.meetingIdToBrand := by
  obtain ⟨acc, hacc, hinv, hplain, hlink⟩ := foldl_eventStep_plain data [] noEvents brandTable_nil
    (by intro m hm; simp [noEvents, ownGet] at hm) (by intro kv hkv; simp [noEvents] at hkv) hd
  refine ⟨{ acc with count := data.length }, ?_, by simpa using hinv, hplain, hlink⟩
  unfold aggregateEvents
  rw [hacc]
  rfl

theorem builtinText_not_inherited (k : JSString) : builtinText k ∉ objectPrototypeKeys := by
  have hf : lit "function " = [102, 117, 110, 99, 116, 105, 111, 110, 32] := by decide
  unfold builtinText
  split
  · decide
  · rw [hf]
    intro h
    have hhead : ∀ s ∈ objectPrototypeKeys, s.head? ≠ some 102 := by decide
    exact hhead _ h (by simp)

/-- With brands that name no member of `Object.prototype` in the map, no link key is
counted under a brand that does. -/
theorem brandOfLink_plain (eventBrandMap : Props) (m : JSString) (hok : LinkOk eventBrandMap) :
    (brandOfLink eventBrandMap m).toStr ∉ objectPrototypeKeys := by
  unfold brandOfLink
  cases hget : ownGet eventBrandMap m with
  | some v =>
    obtain ⟨ht, hk⟩ := hok (m, v) (ownGet_mem _ _ _ hget)
    simp only at ht hk
    simp only [getProp, hget, jsOr, ht, if_true]
    exact hk
  | none =>
    by_cases hm : m ∈ objectPrototypeKeys
    · simp only [getProp, hget, hm, if_true, jsOr, JSVal.truthy, JSVal.toStr]
      exact builtinText_not_inherited m
    · simp only [getProp, hget, hm, if_false, jsOr, JSVal.truthy, Bool.false_eq_true, JSVal.toStr]
      decide

theorem brandInit_table (data : List Event) (byBrand bp : Props) (k : JSString)
    (hk : k ≠ lit "__proto__")
    (hv : ∃ v, ownGet byBrand k = some v ∧ GoodBucket v (eventsOfBrand data k))
    (hbp : ∀ m v, ownGet bp m = some v → GoodBucket v (eventsOfBrand data m)) :
    ∃ bp1, brandInit byBrand (some bp) k = some bp1 ∧
      (∀ m v, ownGet bp1 m = some v → GoodBucket v (eventsOfBrand data m)) ∧
      ∀ m, (m = k ∨ (ownGet bp m).isSome = true) → (ownGet bp1 m).isSome = true := by
  obtain ⟨v, hget, bucket, hb, hl, hm⟩ := hv
  subst hb
  refine ⟨objSet bp k (JSVal.obj (defineProp bucket (lit "deals") (JSVal.num 0))), ?_, ?_, ?_⟩
  · simp only [brandInit, hk, if_false, hget, Option.getD_some, bucketSpread, spreadProps]
  · intro m v hmv
    rw [ownGet_objSet _ _ _ _ (Or.inr hk)] at hmv
    by_cases hmk : m = k
    · subst hmk
      simp only [if_true, Option.some.injEq] at hmv
      subst hmv
      exact goodBucket_defineProp_deals bucket _ _ ⟨bucket, rfl, hl, hm⟩
    · simp only [hmk, if_false] at hmv
      exact hbp m v hmv
  · intro m hm2
    rw [ownGet_objSet _ _ _ _ (Or.inr hk)]
    by_cases hmk : m = k
    · simp [hmk]
    · simp only [hmk, if_false]
      rcases hm2 with h | h
      · exact absurd h hmk
      · exact h

theorem foldl_brandInit_table (data : List Event) (byBrand : Props) (ks : List JSString)
    (bp : Props)
    (hks : ∀ k ∈ ks, k ≠ lit "__proto__" ∧
      ∃ v, ownGet byBrand k = some v ∧ GoodBucket v (eventsOfBrand data k))
    (hbp : ∀ m v, ownGet bp m = some v → GoodBucket v (eventsOfBrand data m)) :
    ∃ bp1, ks.foldl (brandInit byBrand) (some bp) = some bp1 ∧
      (∀ m v, ownGet bp1 m = some v → GoodBucket v (eventsOfBrand data m)) ∧
      ∀ m, (m ∈ ks ∨ (ownGet bp m).isSome = true) → (ownGet bp1 m).isSome = true := by
  induction ks generalizing bp with
  | nil =>
    refine ⟨bp, rfl, hbp, ?_⟩
    intro m hm
    rcases hm with h | h
    · simp at h
    · exact h
  | cons k t ih =>
    obtain ⟨bp1, h1, hg1, hs1⟩ := brandInit_table data byBrand bp k (hks k (by simp)).1
      (hks k (by simp)).2 hbp
    obtain ⟨bp2, h2, hg2, hs2⟩ := ih bp1 (fun x hx => hks x (List.mem_cons_of_mem _ hx)) hg1
    refine ⟨bp2, by simp only [List.foldl_cons, h1, h2], hg2, ?_⟩
    intro m hm
    rcases hm with h | h
    · rcases List.mem_cons.mp h with h | h
      · exact hs2 m (Or.inr (hs1 m (Or.inl h)))
      · exact hs2 m (Or.inl h)
    · exact hs2 m (Or.inr (hs1 m (Or.inr h)))

theorem brandStep_table (data : List Event) (eventBrandMap bp : Props) (entry : JSString × JSVal)
    (hinv : BrandTable data bp)
    (hb : (brandOfLink eventBrandMap entry.1).toStr ∉ objectPrototypeKeys) :
    ∃ bp1, brandStep eventBrandMap (some bp) entry = some bp1 ∧ BrandTable data bp1 := by
  generalize hkey : (brandOfLink eventBrandMap entry.1).toStr = key at hb
  have hkp : key ≠ lit "__proto__" := fun h => hb (h ▸ lit_proto_mem)
  have hfinish : ∀ (bucket : Props), GoodBucket (JSVal.obj bucket) (eventsOfBrand data key) →
      jsOr (getProp bp key) emptyBucket = JSVal.obj bucket →
      ∃ bp1, brandStep eventBrandMap (some bp) entry = some bp1 ∧ BrandTable data bp1 := by
    intro bucket hgood hor
    refine ⟨objSet bp key (JSVal.obj (objSet bucket (lit "deals")
      (jsAdd (jsOr (getProp bucket (lit "deals")) (JSVal.num 0)) entry.2))), ?_, ?_⟩
    · unfold brandStep
      simp only [hkey, hor]
    · intro k
      rw [ownGet_objSet _ _ _ _ (Or.inr hkp)]
      by_cases hkk : k = key
      · subst hkk
        simp only [if_true, Option.isSome_some, implies_true, true_and, Option.some.injEq]
        intro v hv
        subst hv
        exact goodBucket_objSet bucket _ _ _ hgood (by decide) (by decide) (by decide)
      · simp only [hkk, if_false]
        exact hinv k
  cases hget : ownGet bp key with
  | some v =>
    obtain ⟨bucket, hv, hl, hm⟩ := (hinv key).2 v hget
    subst hv
    apply hfinish bucket ⟨bucket, rfl, hl, hm⟩
    simp only [getProp, hget, jsOr, JSVal.truthy, if_true]
  | none =>
    have hzero : eventsOfBrand data key = 0 := by
      by_contra hne
      have := (hinv key).1 (Nat.pos_of_ne_zero hne)
      rw [hget] at this
      simp at this
    obtain ⟨bucket, hbk, hl, hm⟩ := goodBucket_empty
    apply hfinish bucket
    · rw [hzero]
      exact ⟨bucket, rfl, hl, hm⟩
    · simp only [getProp, hget, hb, if_false, jsOr, JSVal.truthy, Bool.false_eq_true]
      exact hbk

theorem foldl_brandStep_table (data : List Event) (eventBrandMap : Props) (entries bp : Props)
    (hinv : BrandTable data bp) (hok : LinkOk eventBrandMap) :
    ∃ bp1, entries.foldl (brandStep eventBrandMap) (some bp) = some bp1 ∧ BrandTable data bp1 := by
  induction entries generalizing bp with
  | nil => exact ⟨bp, rfl, hinv⟩
  | cons e t ih =>
    obtain ⟨bp1, h1, hinv1⟩ := brandStep_table data eventBrandMap bp e hinv
      (brandOfLink_plain eventBrandMap e.1 hok)
    obtain ⟨bp2, h2, hinv2⟩ := ih bp1 hinv1
    exact ⟨bp2, by simp only [List.foldl_cons, h1, h2], hinv2⟩

/-- For events that are well-formed and whose brands name no member of `Object.prototype`,
and for every deals aggregate, the aggregation of the events completes and the brand merge
gives a table in which every brand with an event has a bucket, and every bucket has
`leads = 0` and a `meetings` count equal to the number of event records of its brand. -/
theorem brandMerge_of_plain_events (data : List Event) (byMeetingId : Props)
    (hd : ∀ d ∈ data, PlainEvent d) :
    ∃ agg bp, aggregateEvents data = Run.done agg ∧
      brandMerge agg.byBrand agg.meetingIdToBrand byMeetingId = some bp ∧ BrandTable data bp := by
  obtain ⟨agg, hagg, hinv, hplain, hlink⟩ := aggregateEvents_plain data hd
  have hks : ∀ k ∈ agg.byBrand.map Prod.fst, k ≠ lit "__proto__" ∧
      ∃ v, ownGet agg.byBrand k = some v ∧ GoodBucket v (eventsOfBrand data k) := by
    intro k hk
    have hsome := (ownGet_isSome_iff agg.byBrand k).mpr hk
    obtain ⟨v, hv⟩ := Option.isSome_iff_exists.mp hsome
    have hgood := (hinv k).2 v hv
    refine ⟨?_, v, hv, hgood⟩
    intro hproto
    exact hplain k hsome (hproto ▸ lit_proto_mem)
  obtain ⟨bp0, h0, hg0, hs0⟩ := foldl_brandInit_table data agg.byBrand
    (agg.byBrand.map Prod.fst) [] hks (by intro m v hmv; simp [ownGet] at hmv)
  have hinv0 : BrandTable data bp0 := by
    intro k
    refine ⟨?_, hg0 k⟩
    intro hpos
    exact hs0 k (Or.inl ((ownGet_isSome_iff agg.byBrand k).mp ((hinv k).1 hpos)))
  obtain ⟨bp1, h1, hinv1⟩ := foldl_brandStep_table data agg.meetingIdToBrand byMeetingId bp0
    hinv0 hlink
  refine ⟨agg, bp1, hagg, ?_, hinv1⟩
  unfold brandMerge
  rw [h0]
  exact h1

/-! ## Calendar resolver: the month branch on a host at or east of UTC -/

theorem era_year_recover (yoe doy : Int) (h0 : 0 ≤ yoe) (h1 : yoe ≤ 399) (hd0 : 0 ≤ doy)
    (hd1 : doy ≤ 365)
    (hleap : doy = 365 → ((yoe + 1) % 4 = 0 ∧ ((yoe + 1) % 100 ≠ 0 ∨ (yoe + 1) % 400 = 0))) :
    (yoe * 365 + yoe / 4 - yoe / 100 + doy - (yoe * 365 + yoe / 4 - yoe / 100 + doy) / 1460 +
      (yoe * 365 + yoe / 4 - yoe / 100 + doy) / 36524 -
      (yoe * 365 + yoe / 4 - yoe / 100 + doy) / 146096) / 365 = yoe ∧
    0 ≤ yoe * 365 + yoe / 4 - yoe / 100 + doy ∧
    yoe * 365 + yoe / 4 - yoe / 100 + doy ≤ 146096 := by
  obtain ⟨c, a, r, hy, hc0, hc3, ha0, ha24, hr0, hr3⟩ :
      ∃ c a r : Int, yoe = 100 * c + 4 * a + r ∧ 0 ≤ c ∧ c ≤ 3 ∧ 0 ≤ a ∧ a ≤ 24 ∧ 0 ≤ r ∧ r ≤ 3 :=
    ⟨yoe / 100, (yoe % 100) / 4, yoe % 4, by omega, by omega, by omega, by omega, by omega,
      by omega, by omega⟩
  subst hy
  have e4 : (100 * c + 4 * a + r) / 4 = 25 * c + a := by omega
  have e100 : (100 * c + 4 * a + r) / 100 = c := by omega
  rw [e4, e100]
  have hleap2 : doy = 365 → r = 3 ∧ (a ≠ 24 ∨ c = 3) := by
    intro h
    have := hleap h
    omega
  clear hleap
  have hD : (100 * c + 4 * a + r) * 365 + (25 * c + a) - c + doy =
      36524 * c + 1461 * a + 365 * r + doy := by ring
  rw [hD]
  have e1 : (36524 * c + 1461 * a + 365 * r + doy) / 1460 =
      25 * c + a + (24 * c + a + 365 * r + doy) / 1460 := by omega
  have e1b : (24 * c + a + 365 * r + doy) / 1460 = 0 ∨ (24 * c + a + 365 * r + doy) / 1460 = 1 := by
    omega
  have e2 : (36524 * c + 1461 * a + 365 * r + doy) / 36524 =
      c + (1461 * a + 365 * r + doy) / 36524 := by omega
  have e2b : (1461 * a + 365 * r + doy) / 36524 = 0 ∨
      ((1461 * a + 365 * r + doy) / 36524 = 1 ∧ a = 24 ∧ r = 3 ∧ doy = 365) := by omega
  have e3 : (36524 * c + 1461 * a + 365 * r + doy) / 146096 = 0 ∨
      ((36524 * c + 1461 * a + 365 * r + doy) / 146096 = 1 ∧ c = 3 ∧ a = 24 ∧ r = 3 ∧ doy = 365) := by
    omega
  rw [e1, e2]
  refine ⟨?_, by omega, by omega⟩
  rcases e1b with h1 | h1 <;> rcases e2b with h2 | ⟨h2, h2a, h2r, h2d⟩ <;>
    rcases e3 with h3 | ⟨h3, h3c, h3a, h3r, h3d⟩ <;> rw [h1, h2, h3] <;> omega

/-- The civil date of the day number built from a March-based year `y1`, a month index `mp`
counted from March and a day of the year `doy`. -/
theorem civilFromDays_core (y1 mp d : Int) (hmp0 : 0 ≤ mp) (hmp1 : mp ≤ 11) (hd1 : 1 ≤ d)
    (hd31 : d ≤ 31)
    (hmonth : (153 * mp + 2) / 5 + d - 1 < (153 * (mp + 1) + 2) / 5)
    (hleap : mp = 11 → d = 29 →
      ((y1 + 1) % 4 = 0 ∧ ((y1 + 1) % 100 ≠ 0 ∨ (y1 + 1) % 400 = 0)))
    (hfeb : mp = 11 → d ≤ 29) :
    civilFromDays (y1 / 400 * 146097 +
      ((y1 - y1 / 400 * 400) * 365 + (y1 - y1 / 400 * 400) / 4 - (y1 - y1 / 400 * 400) / 100 +
        ((153 * mp + 2) / 5 + d - 1)) - 719468) =
      (if mp < 10 then y1 else y1 + 1, if mp < 10 then mp + 3 else mp - 9, d) := by
  obtain ⟨era, yoe, hera, hyoe, hy0, hy1⟩ :
      ∃ era yoe : Int, y1 / 400 = era ∧ y1 - y1 / 400 * 400 = yoe ∧ 0 ≤ yoe ∧ yoe ≤ 399 :=
    ⟨_, _, rfl, rfl, by omega, by omega⟩
  have hy : y1 = era * 400 + yoe := by omega
  rw [hyoe, hera]
  obtain ⟨doy, hdoy⟩ : ∃ doy : Int, (153 * mp + 2) / 5 + d - 1 = doy := ⟨_, rfl⟩
  rw [hdoy]
  have hdoy0 : 0 ≤ doy := by omega
  have hdoy1 : doy ≤ 365 := by omega
  have hl : doy = 365 → ((yoe + 1) % 4 = 0 ∧ ((yoe + 1) % 100 ≠ 0 ∨ (yoe + 1) % 400 = 0)) := by
    intro h
    have hmp : mp = 11 := by omega
    have hd : d = 29 := by omega
    have := hleap hmp hd
    omega
  obtain ⟨hrec, hD0, hD1⟩ := era_year_recover yoe doy hy0 hy1 hdoy0 hdoy1 hl
  obtain ⟨D, hD⟩ : ∃ D : Int, yoe * 365 + yoe / 4 - yoe / 100 + doy = D := ⟨_, rfl⟩
  rw [hD] at hrec hD0 hD1 ⊢
  have hz : era * 146097 + D - 719468 + 719468 = era * 146097 + D := by ring
  have hq : (era * 146097 + D) / 146097 = era := by omega
  have hr : era * 146097 + D - era * 146097 = D := by ring
  have hdoy2 : D - (365 * yoe + yoe / 4 - yoe / 100) = doy := by omega
  have hmp2 : (5 * doy + 2) / 153 = mp := by omega
  have hd2 : doy - (153 * mp + 2) / 5 + 1 = d := by omega
  simp only [civilFromDays, hz, hq, hr, hrec, hdoy2, hmp2, hd2]
  by_cases h10 : mp < 10
  · have h2 : ¬ (mp + 3 ≤ 2) := by omega
    simp only [h10, if_true, h2, if_false]
    rw [hy]
    ring_nf
  · have h2 : mp - 9 ≤ 2 := by omega
    simp only [h10, if_false, h2, if_true]
    rw [hy]
    ring_nf


theorem isLeapYear_iff (y : Int) :
    isLeapYear y = true ↔ (y % 4 = 0 ∧ (y % 100 ≠ 0 ∨ y % 400 = 0)) := by
  simp only [isLeapYear, Bool.or_eq_true, Bool.and_eq_true, decide_eq_true_eq, bne_iff_ne, ne_eq]
  omega

/-- Reading back the civil date of a day number: `civilFromDays` inverts `daysFromCivil` on
the days of the calendar. -/
theorem civilFromDays_daysFromCivil (y m d : Int) (hm1 : 1 ≤ m) (hm2 : m ≤ 12) (hd1 : 1 ≤ d)
    (hd2 : d ≤ monthLength y m) : civilFromDays (daysFromCivil y m d) = (y, m, d) := by
  have hlen : d ≤ 31 ∧ (m = 2 → d ≤ 29) ∧ (m = 2 → d = 29 → isLeapYear y = true) ∧
      ((m = 4 ∨ m = 6 ∨ m = 9 ∨ m = 11) → d ≤ 30) := by
    unfold monthLength at hd2
    split at hd2
    · rename_i h2
      split at hd2
      · rename_i hl
        exact ⟨by omega, fun _ => hd2, fun _ _ => hl, fun h => by omega⟩
      · exact ⟨by omega, fun _ => by omega, fun _ h => by omega, fun h => by omega⟩
    · rename_i h2
      split at hd2
      · exact ⟨by omega, fun h => absurd h h2, fun h => absurd h h2, fun _ => hd2⟩
      · rename_i h30
        exact ⟨hd2, fun h => absurd h h2, fun h => absurd h h2, fun h => absurd h h30⟩
  obtain ⟨h31, hfeb, hleap, h30⟩ := hlen
  by_cases hm : m ≤ 2
  · have hcore := civilFromDays_core (y - 1) (m + 9) d (by omega) (by omega) hd1 h31
      (by
        have : m = 1 ∨ m = 2 := by omega
        rcases this with h | h <;> subst h
        · norm_num
          omega
        · have := hfeb rfl
          norm_num
          omega)
      (by
        intro h hd
        have h2 : m = 2 := by omega
        have := (isLeapYear_iff y).mp (hleap h2 hd)
        simpa using this)
      (by
        intro h
        exact hfeb (by omega))
    have hgt : ¬ (m > 2) := by omega
    have h10 : ¬ (m + 9 < 10) := by omega
    simp only [daysFromCivil, hm, if_true, hgt, if_false]
    rw [hcore]
    simp only [h10, if_false]
    refine Prod.ext ?_ (Prod.ext ?_ rfl)
    · simp
    · simp
  · have hcore := civilFromDays_core y (m - 3) d (by omega) (by omega) hd1 h31
      (by
        have : m = 3 ∨ m = 4 ∨ m = 5 ∨ m = 6 ∨ m = 7 ∨ m = 8 ∨ m = 9 ∨ m = 10 ∨ m = 11 ∨ m = 12 := by
          omega
        rcases this with h | h | h | h | h | h | h | h | h | h <;> subst h <;> norm_num <;>
          omega)
      (by
        intro h
        omega)
      (by
        intro h
        omega)
    have hgt : m > 2 := by omega
    have h10 : m - 3 < 10 := by omega
    simp only [daysFromCivil, hm, if_false, hgt, if_true]
    rw [hcore]
    simp only [h10, if_true]
    refine Prod.ext rfl (Prod.ext ?_ rfl)
    simp


/-- The day before the first day of a month is the last day of the month before it. -/
theorem daysFromCivil_month_end (y m : Int) (hm1 : 1 ≤ m) (hm2 : m ≤ 12) :
    monthStart y m + (0 - 1) = daysFromCivil y m (monthLength y m) := by
  have hleap := isLeapYear_iff y
  have hcases : m = 1 ∨ m = 2 ∨ m = 3 ∨ m = 4 ∨ m = 5 ∨ m = 6 ∨ m = 7 ∨ m = 8 ∨ m = 9 ∨ m = 10 ∨
      m = 11 ∨ m = 12 := by omega
  rcases hcases with h | h | h | h | h | h | h | h | h | h | h | h <;> subst h
  case inr.inl =>
    by_cases hl : isLeapYear y = true
    · have := hleap.mp hl
      simp only [monthStart, monthLength, hl, if_true, daysFromCivil]
      norm_num
      omega
    · have hn : ¬ (y % 4 = 0 ∧ (y % 100 ≠ 0 ∨ y % 400 = 0)) := fun h => hl (hleap.mpr h)
      simp only [monthStart, monthLength, hl, daysFromCivil]
      norm_num
      omega
  all_goals
    simp only [monthStart, monthLength, daysFromCivil]
    norm_num
    try omega


theorem monthLength_pos (y m : Int) : 1 ≤ monthLength y m := by
  unfold monthLength
  split_ifs <;> norm_num

/-- On a host at or east of UTC (an offset from 0 up to less than a day), for the filter
`month` and a window that starts on the 1st of the month `m` of a year `y` after the year
100, the previous window computed in `loadAll` is exactly the prior calendar month. -/
theorem previousPeriodByMonth_east_of_utc (hostOffset y m : Int) (start : JSString)
    (h0 : 0 ≤ hostOffset) (h1 : hostOffset < 1440) (hm1 : 1 ≤ m) (hm2 : m ≤ 12) (hy : 101 ≤ y)
    (hstart : parseIsoDate start = some (daysFromCivil y m 1)) :
    previousPeriodByMonth hostOffset start = priorCalendarMonth y m := by
  have hoff : hostOffset / 1440 = 0 := Int.ediv_eq_zero_of_lt h0 h1
  have hloc : civilFromDays (daysFromCivil y m 1 + hostOffset / 1440) = (y, m, 1) := by
    rw [hoff, add_zero]
    exact civilFromDays_daysFromCivil y m 1 hm1 hm2 le_rfl (monthLength_pos y m)
  obtain ⟨py, hpy⟩ : ∃ py : Int, (if m = 1 then y - 1 else y) = py := ⟨_, rfl⟩
  obtain ⟨pm, hpm⟩ : ∃ pm : Int, (if m = 1 then 12 else m - 1) = pm := ⟨_, rfl⟩
  have hpm1 : 1 ≤ pm := by
    rw [← hpm]
    split_ifs <;> omega
  have hpm2 : pm ≤ 12 := by
    rw [← hpm]
    split_ifs <;> omega
  have hpy100 : 100 ≤ py := by
    rw [← hpy]
    split_ifs <;> omega
  have hprior : monthStart y (m - 1 - 1) + (1 - 1) = daysFromCivil py pm 1 := by
    rw [← hpy, ← hpm]
    by_cases hm : m = 1
    · subst hm
      simp only [monthStart, if_true]
      norm_num
      rfl
    · have hq : (m - 1 - 1) / 12 = 0 := Int.ediv_eq_zero_of_lt (by omega) (by omega)
      have hr : (m - 1 - 1) % 12 = m - 1 - 1 := Int.emod_eq_of_lt (by omega) (by omega)
      simp only [monthStart, hm, if_false, hq, hr]
      norm_num
  have hmoved : civilFromDays (daysFromCivil py pm 1) = (py, pm, 1) :=
    civilFromDays_daysFromCivil py pm 1 hpm1 hpm2 le_rfl (monthLength_pos py pm)
  have hctor : ctorYear py = py := by
    unfold ctorYear
    rw [if_neg (by omega)]
  have hlast : civilFromDays (monthStart py (pm - 1 + 1) + (0 - 1)) =
      (py, pm, monthLength py pm) := by
    rw [sub_add_cancel, daysFromCivil_month_end py pm hpm1 hpm2]
    exact civilFromDays_daysFromCivil py pm _ hpm1 hpm2 (monthLength_pos py pm) le_rfl
  unfold previousPeriodByMonth priorCalendarMonth
  rw [hstart]
  simp only [hloc, hprior, hmoved, hctor, hlast, hpy, hpm]

/-- On a host six hours west of UTC, the window starting 2024-05-01 gets March 2024 as
its previous window, and the one starting 2024-04-01 gets March 2024, the right month, only
because the 31st of February overflows into March. -/
theorem previousPeriodByMonth_west_examples :
    previousPeriodByMonth (-360) (lit "2024-05-01") = (lit "2024-03-01", lit "2024-03-31") ∧
      previousPeriodByMonth (-300) (lit "2024-04-01") = (lit "2024-03-01", lit "2024-03-31") := by
  decide

/-- The window starting 2024-03-01 on a host at UTC+5:30 is an instance: its previous
window is February 2024. -/
theorem previousPeriodByMonth_east_of_utc_example :
    previousPeriodByMonth 330 (lit "2024-03-01") = (lit "2024-02-01", lit "2024-02-29") := by
  rw [previousPeriodByMonth_east_of_utc 330 2024 3 (lit "2024-03-01") (by norm_num) (by norm_num)
    (by norm_num) (by norm_num) (by norm_num) (by decide)]
  decide

end CeoApi
